import Mathlib

/-!
# STM32L5xx flash programming algorithm

A shallow embedding of `CMSIS/Flash/STM32L5xx/FlashPrg.c` (build variant
`FLASH_MEM`, the internal dual-bank flash, and build variant `FLASH_OPT`, the
option bytes, in the namespace `Opt`), of the device descriptors of
`CMSIS/Flash/STM32L5xx/FlashDev.c`, and of `Verify` and `BlankCheck` of
`CMSIS/Flash/STM32L562_OSPI_MX25L51245G/FlashPrg.c` (namespace `OSPI`).

Conventions of the embedding

* `u32` (`unsigned long` on the Cortex-M33 target) is a natural number; every
  operation that can leave the 32-bit range is reduced modulo `2 ^ 32`.
* The driver's static variables (`gFlashBase`, `gFlashSize`, `pFlashCR`,
  `pFlashSR`) and the registers it touches are the fields of `FlashMem`.
* Register and memory writes are appended, in program order, to `trace`.
* The status register is volatile: the value of each read of `*pFlashSR` is
  supplied by the hardware.  `srReads` lists the values the coming reads will
  return; a busy-wait on an exhausted list never finishes (`none`).
* The option registers are storage that keeps the last value written
  (`FlashOpt.regs`); `NSSR` is volatile as above.
* The board support package of the external flash is not among the sources;
  its three calls used here are modelled as toggles of an explicit bus state.
-/

namespace STM32L5xx

/-! ## Machine arithmetic -/

/-- Truncation to 32 bits. -/
def u32 (x : Nat) : Nat := x % 2 ^ 32

/-- 32-bit unsigned subtraction `a - b` with wrap-around. -/
def sub32 (a b : Nat) : Nat := (a % 2 ^ 32 + 2 ^ 32 - b % 2 ^ 32) % 2 ^ 32

/-- 32-bit unsigned addition `a + b` with wrap-around. -/
def add32 (a b : Nat) : Nat := (a + b) % 2 ^ 32

/-! ## Register bit definitions (`FlashPrg.c`, lines 109-144) -/

def FLASH_CR_PG : Nat := 1
def FLASH_CR_PER : Nat := 1 <<< 1
def FLASH_CR_MER1 : Nat := 1 <<< 2
def FLASH_CR_PNB_MSK : Nat := 0xFF <<< 3
def FLASH_CR_BKER : Nat := 1 <<< 11
def FLASH_CR_MER2 : Nat := 1 <<< 15
def FLASH_CR_STRT : Nat := 1 <<< 16
def FLASH_CR_LOCK : Nat := 1 <<< 31

def FLASH_SR_EOP : Nat := 1
def FLASH_SR_OPERR : Nat := 1 <<< 1
def FLASH_SR_PROGERR : Nat := 1 <<< 3
def FLASH_SR_WRPERR : Nat := 1 <<< 4
def FLASH_SR_PGAERR : Nat := 1 <<< 5
def FLASH_SR_SIZERR : Nat := 1 <<< 6
def FLASH_SR_PGSERR : Nat := 1 <<< 7
def FLASH_SR_OPTWERR : Nat := 1 <<< 13
def FLASH_SR_BSY : Nat := 1 <<< 16

def FLASH_OPTR_DBANK : Nat := 1 <<< 22
def FLASH_OPTR_TZEN : Nat := 1 <<< 31

def FLASH_KEY1 : Nat := 0x45670123
def FLASH_KEY2 : Nat := 0xCDEF89AB

def FLASH_PGERR : Nat :=
  FLASH_SR_OPERR ||| FLASH_SR_PROGERR ||| FLASH_SR_WRPERR |||
  FLASH_SR_PGAERR ||| FLASH_SR_SIZERR ||| FLASH_SR_PGSERR ||| FLASH_SR_OPTWERR

/-! ## Device descriptors (`FlashDev.c`) -/

/-- The fields of `struct FlashDevice` that the driver's callers rely on. -/
structure FlashDeviceDescr where
  DevName : String
  DevAdr : Nat
  szDev : Nat
  szPage : Nat
  valEmpty : Nat
  toProg : Nat
  toErase : Nat
  szSector : Nat
  deriving DecidableEq, Repr

/-- Descriptor `STM32L5x_512_NSecure_Flash` (`STM32L5xx_512`). -/
def FlashDevice_512 : FlashDeviceDescr :=
  { DevName := "STM32L5x_512_NSecure_Flash", DevAdr := 0x08000000, szDev := 0x00080000,
    szPage := 1024, valEmpty := 0xFF, toProg := 400, toErase := 400, szSector := 0x0800 }

/-- Descriptor `STM32L5x_512_Secure_Flash` (`STM32L5xx_512_0x0C`). -/
def FlashDevice_512_0x0C : FlashDeviceDescr :=
  { DevName := "STM32L5x_512_Secure_Flash", DevAdr := 0x0C000000, szDev := 0x00080000,
    szPage := 1024, valEmpty := 0xFF, toProg := 400, toErase := 400, szSector := 0x0800 }

/-! ## Driver and hardware state -/

/-- Members of `FLASH_TypeDef` written by the `FLASH_MEM` build. -/
inductive Reg
  | NSKEYR | SECKEYR | NSSR | SECSR | NSCR | SECCR
  | SECBBA0 | SECBBA1 | SECBBA2 | SECBBA3
  | SECBBB0 | SECBBB1 | SECBBB2 | SECBBB3
  deriving DecidableEq, Repr

/-- Observable actions of the driver, in program order. -/
inductive Event
  | write (r : Reg) (v : Nat)
  | store (adr v : Nat)
  | dsb
  deriving DecidableEq, Repr

/-- State of the `FLASH_MEM` driver together with the hardware it drives.
`CR` and `SR` hold the content of the registers `pFlashCR` and `pFlashSR`
point to. -/
structure FlashMem where
  OPTR : Nat
  FLASHSIZE : Nat
  gFlashBase : Nat
  gFlashSize : Nat
  pFlashCR : Reg
  pFlashSR : Reg
  CR : Nat
  SR : Nat
  srReads : List Nat
  trace : List Event
  deriving DecidableEq, Repr

/-- Store to a flash interface register other than the selected control and
status registers. -/
def writeReg (st : FlashMem) (r : Reg) (v : Nat) : FlashMem :=
  { st with trace := st.trace ++ [Event.write r v] }

/-- Store `*pFlashCR = v`. -/
def writeCR (st : FlashMem) (v : Nat) : FlashMem :=
  { st with CR := v, trace := st.trace ++ [Event.write st.pFlashCR v] }

/-- Store `*pFlashSR = v`.  The error flags of the status register are
write-one-to-clear (the source's "Reset Error Flags"): every bit set in `v`
is cleared. -/
def writeSR (st : FlashMem) (v : Nat) : FlashMem :=
  { st with SR := st.SR ^^^ (st.SR &&& v), trace := st.trace ++ [Event.write st.pFlashSR v] }

/-- Store `M32(adr) = v`. -/
def storeM32 (st : FlashMem) (adr v : Nat) : FlashMem :=
  { st with trace := st.trace ++ [Event.store adr v] }

/-- Barrier `DSB()`. -/
def DSB (st : FlashMem) : FlashMem :=
  { st with trace := st.trace ++ [Event.dsb] }

/-- One volatile read of `*pFlashSR`. -/
def readSR (st : FlashMem) : Option (Nat × FlashMem) :=
  match st.srReads with
  | [] => none
  | s :: rest => some (s, { st with SR := s, srReads := rest })

/-- Reads of the status register until one has `FLASH_SR_BSY` clear; returns
that value and the reads still to come. -/
def spinBSY : List Nat → Option (Nat × List Nat)
  | [] => none
  | s :: rest => if s &&& FLASH_SR_BSY ≠ 0 then spinBSY rest else some (s, rest)

/-- Loop `while (*pFlashSR & FLASH_SR_BSY);`. -/
def waitBusy (st : FlashMem) : Option FlashMem :=
  match spinBSY st.srReads with
  | none => none
  | some (s, rest) => some { st with SR := s, srReads := rest }

/-! ## Mode and address decoding -/

/-- Get Flash security mode: 0 = non-secure, 1 = secure (`OPTR.TZEN`). -/
def GetFlashSecureMode (st : FlashMem) : Nat :=
  if st.OPTR &&& FLASH_OPTR_TZEN ≠ 0 then 1 else 0

/-- Get Flash type: always 1, a dual-bank capable flash. -/
def GetFlashType : Nat := 1

/-- Get Flash bank mode: 0 = single-bank, 1 = dual-bank (`OPTR.DBANK`). -/
def GetFlashBankMode (st : FlashMem) : Nat :=
  if st.OPTR &&& FLASH_OPTR_DBANK ≠ 0 then 1 else 0

/-- Get Flash bank number (0..1) of a sector address. -/
def GetFlashBankNum (st : FlashMem) (adr : Nat) : Nat :=
  if GetFlashType = 1 then
    if GetFlashBankMode st = 1 then
      if adr ≥ add32 st.gFlashBase (st.gFlashSize >>> 1) then 1 else 0
    else 0
  else 0

/-- Get Flash page number of a page address. -/
def GetFlashPageNum (st : FlashMem) (adr : Nat) : Nat :=
  if GetFlashType = 1 then
    if GetFlashBankMode st = 1 then
      (adr &&& sub32 (st.gFlashSize >>> 1) 1) >>> 11
    else
      (adr &&& sub32 st.gFlashSize 1) >>> 12
  else
    (adr &&& sub32 st.gFlashSize 1) >>> 11

/-- Reference definition of the bank number, in the words of the
specification: in dual-bank operation the bank is 1 exactly from
`base + size/2` on (32-bit unsigned arithmetic), in single-bank operation it
is 0. -/
def bankNumberSpec (dbank : Bool) (base size adr : Nat) : Nat :=
  if dbank then (if (base + size / 2) % 2 ^ 32 ≤ adr then 1 else 0) else 0

/-! ## Driver entry points (`FLASH_MEM`) -/

/-- Entry point `Init`: select the control/status register pair for the security mode,
unlock it, and capture the geometry. -/
def Init (st : FlashMem) (adr clk fnc : Nat) : Option (Nat × FlashMem) :=
  let _ := clk
  let _ := fnc
  let unlocked : Option FlashMem :=
    if GetFlashSecureMode st = 0 then
      let st := { st with pFlashCR := Reg.NSCR, pFlashSR := Reg.NSSR }
      let st := writeReg st Reg.NSKEYR FLASH_KEY1
      let st := writeReg st Reg.NSKEYR FLASH_KEY2
      let st := DSB st
      waitBusy st
    else
      let st := { st with pFlashCR := Reg.SECCR, pFlashSR := Reg.SECSR }
      let st := writeReg st Reg.SECKEYR FLASH_KEY1
      let st := writeReg st Reg.SECKEYR FLASH_KEY2
      let st := DSB st
      match waitBusy st with
      | none => none
      | some st =>
        let st := writeReg st Reg.SECBBA0 0xFFFFFFFF
        let st := writeReg st Reg.SECBBA1 0xFFFFFFFF
        let st := writeReg st Reg.SECBBA2 0xFFFFFFFF
        let st := writeReg st Reg.SECBBA3 0xFFFFFFFF
        if GetFlashBankMode st = 1 then
          let st := writeReg st Reg.SECBBB0 0xFFFFFFFF
          let st := writeReg st Reg.SECBBB1 0xFFFFFFFF
          let st := writeReg st Reg.SECBBB2 0xFFFFFFFF
          let st := writeReg st Reg.SECBBB3 0xFFFFFFFF
          some st
        else
          some st
  match unlocked with
  | none => none
  | some st =>
    match waitBusy st with
    | none => none
    | some st =>
      some (0, { st with gFlashBase := adr,
                         gFlashSize := u32 ((st.FLASHSIZE &&& 0x0000FFFF) <<< 10) })

/-- The statement `adr &= 0x08FFFFFF` that opens `EraseSector`. -/
def EraseSector_adr (adr : Nat) : Nat := adr &&& 0x08FFFFFF

/-- The value of the first store to `*pFlashCR` in `EraseSector`. -/
def EraseSector_cr (b p : Nat) : Nat :=
  u32 (FLASH_CR_PER ||| (p <<< 3) ||| (b <<< 11))

/-- Entry point `EraseSector` of the internal flash. -/
def EraseSector (st : FlashMem) (adr : Nat) : Option (Nat × FlashMem) :=
  let adr := EraseSector_adr adr
  let b := GetFlashBankNum st adr
  let p := GetFlashPageNum st adr
  let st := writeSR st FLASH_PGERR
  let st := writeCR st (EraseSector_cr b p)
  let st := writeCR st (st.CR ||| FLASH_CR_STRT)
  let st := DSB st
  match waitBusy st with
  | none => none
  | some st =>
    match readSR st with
    | none => none
    | some (s, st) =>
      if s &&& FLASH_PGERR ≠ 0 then
        let st := writeSR st FLASH_PGERR
        some (1, st)
      else
        some (0, st)

/-- The statement `sz = (sz + 7) & ~7U` that opens `ProgramPage`. -/
def ProgramPage_sz (sz : Nat) : Nat := add32 sz 7 &&& 0xFFFFFFF8

/-- A byte `*(buf + i)` of the caller's buffer (`unsigned char`). -/
def byteAt (buf : Nat → Nat) (i : Nat) : Nat := buf i % 256

/-- The word `(u32)(*(buf+i) | *(buf+i+1) << 8 | *(buf+i+2) << 16 | *(buf+i+3) << 24)`. -/
def word32 (buf : Nat → Nat) (i : Nat) : Nat :=
  u32 (byteAt buf i ||| (byteAt buf (i + 1) <<< 8) ||| (byteAt buf (i + 2) <<< 16) |||
    (byteAt buf (i + 3) <<< 24))

/-- The loop `while (sz) { ... }` of `ProgramPage`.  The result is
`some (some r, st)` when the body executed `return r`, `some (none, st)` when
the loop ran to its end, and `none` when the hardware never left the busy
state or the iteration bound `fuel` was reached. -/
def ProgramPage_while : Nat → FlashMem → Nat → Nat → (Nat → Nat) → Option (Option Nat × FlashMem)
  | 0, _, _, _, _ => none
  | fuel + 1, st, adr, sz, buf =>
    if sz ≠ 0 then
      let st := storeM32 st adr (word32 buf 0)
      let st := storeM32 st (add32 adr 4) (word32 buf 4)
      let st := DSB st
      match waitBusy st with
      | none => none
      | some st =>
        match readSR st with
        | none => none
        | some (s, st) =>
          if s &&& FLASH_PGERR ≠ 0 then
            let st := writeSR st FLASH_PGERR
            some (some 1, st)
          else
            ProgramPage_while fuel st (add32 adr 8) (sub32 sz 8) (fun i => buf (i + 8))
    else
      some (none, st)

/-- Entry point `ProgramPage` of the internal flash.  The bound `fuel` limits the
number of iterations of its loop. -/
def ProgramPage (fuel : Nat) (st : FlashMem) (adr sz : Nat) (buf : Nat → Nat) :
    Option (Nat × FlashMem) :=
  let sz := ProgramPage_sz sz
  let st := writeSR st FLASH_PGERR
  let st := writeCR st FLASH_CR_PG
  match ProgramPage_while fuel st adr sz buf with
  | none => none
  | some (some r, st) => some (r, st)
  | some (none, st) =>
    let st := writeCR st 0
    some (0, st)

/-! ## Observations on traces -/

/-- The memory stores `(address, word)` of a trace, in order. -/
def storesOf : List Event → List (Nat × Nat)
  | [] => []
  | Event.store a v :: t => (a, v) :: storesOf t
  | _ :: t => storesOf t

/-- The values stored to register `r` in a trace, in order. -/
def writesTo (r : Reg) : List Event → List Nat
  | [] => []
  | Event.write q v :: t => if q = r then v :: writesTo r t else writesTo r t
  | _ :: t => writesTo r t

/-- A power-on state of controller and driver: option register `optr`, flash
size register `fsize`, and the status-register values `reads` still to come. -/
def powerOn (optr fsize : Nat) (reads : List Nat) : FlashMem :=
  { OPTR := optr, FLASHSIZE := fsize, gFlashBase := 0, gFlashSize := 0,
    pFlashCR := Reg.NSCR, pFlashSR := Reg.NSSR, CR := FLASH_CR_LOCK, SR := 0,
    srReads := reads, trace := [] }

/-- At least one of the seven error flags collected in `FLASH_PGERR` is set
in the status value `s`: OPERR (bit 1), PROGERR (3), WRPERR (4), PGAERR (5),
SIZERR (6), PGSERR (7), OPTWERR (13). -/
def hasErrorFlag (s : Nat) : Bool :=
  s.testBit 1 || s.testBit 3 || s.testBit 4 || s.testBit 5 || s.testBit 6 || s.testBit 7 ||
    s.testBit 13

/-- The hardware lets `n` consecutive double-word cycles of `ProgramPage`
pass without an error flag: each busy-wait ends and the status value read
next has no bit of `FLASH_PGERR` set.  Returns the reads still to come. -/
def cleanRun : Nat → List Nat → Option (List Nat)
  | 0, l => some l
  | n + 1, l =>
    match spinBSY l with
    | some (_, s :: r) => if s &&& FLASH_PGERR = 0 then cleanRun n r else none
    | _ => none

/-- The actions of programming `n` consecutive double-words taken from
`buf`, starting at address `adr`. -/
def chunkEvents (adr : Nat) (buf : Nat → Nat) : Nat → List Event
  | 0 => []
  | n + 1 =>
    Event.store adr (word32 buf 0) :: Event.store (add32 adr 4) (word32 buf 4) :: Event.dsb ::
      chunkEvents (add32 adr 8) (fun i => buf (i + 8)) n

/-- A little-endian byte-addressed memory with 32-bit addresses: the word
store `M32(a) = w` puts byte `j` of `w` at address `a + j`. -/
def storeWord (mem : Nat → Nat) (a w : Nat) : Nat → Nat :=
  fun x =>
    if x = (a + 3) % 2 ^ 32 then w / 2 ^ 24 % 256
    else if x = (a + 2) % 2 ^ 32 then w / 2 ^ 16 % 256
    else if x = (a + 1) % 2 ^ 32 then w / 2 ^ 8 % 256
    else if x = a % 2 ^ 32 then w % 256
    else mem x

/-- The memory after a sequence of word stores. -/
def applyStores (mem : Nat → Nat) : List (Nat × Nat) → Nat → Nat
  | [] => mem
  | (a, w) :: t => applyStores (storeWord mem a w) t

/-- The word stores `ws` program `m` double-words of `buf` at `adr`
little-endian: there are `2m` of them, the stores of chunk `k` put the
little-endian composition of `buf[8k..8k+3]` at `adr + 8k` and that of
`buf[8k+4..8k+7]` at `adr + 8k + 4`, and in a little-endian byte-addressed
memory the byte at `adr + i` afterwards equals `buf[i]` for every `i < 8m`. -/
def LittleEndianStores (adr : Nat) (buf : Nat → Nat) (m : Nat) (ws : List (Nat × Nat)) : Prop :=
  ws.length = 2 * m ∧
  (∀ k, k < m →
    ws[2 * k]? = some ((adr + 8 * k) % 2 ^ 32,
      buf (8 * k) + 2 ^ 8 * buf (8 * k + 1) + 2 ^ 16 * buf (8 * k + 2) +
        2 ^ 24 * buf (8 * k + 3)) ∧
    ws[2 * k + 1]? = some ((adr + 8 * k + 4) % 2 ^ 32,
      buf (8 * k + 4) + 2 ^ 8 * buf (8 * k + 5) + 2 ^ 16 * buf (8 * k + 6) +
        2 ^ 24 * buf (8 * k + 7))) ∧
  ∀ (mem : Nat → Nat) (i : Nat), i < 8 * m → applyStores mem ws ((adr + i) % 2 ^ 32) = buf i

/-! ## Mass erase (`FLASH_MEM`) -/

/-- Entry point `EraseChip` of the internal flash. -/
def EraseChip (st : FlashMem) : Option (Nat × FlashMem) :=
  let st := writeSR st FLASH_PGERR
  let st := writeCR st (FLASH_CR_MER1 ||| FLASH_CR_MER2)
  let st := writeCR st (st.CR ||| FLASH_CR_STRT)
  let st := DSB st
  match waitBusy st with
  | none => none
  | some st => some (0, st)

/-! ## Option bytes (`FLASH_OPT` build of `FlashPrg.c`) -/

def FLASH_CR_OPTSTRT : Nat := 1 <<< 17

/-- Complement `~x` of a 32-bit constant. -/
def not32 (x : Nat) : Nat := 0xFFFFFFFF ^^^ x

/-- Members of `FLASH_TypeDef` accessed by `EraseChip`, `ProgramPage` and
`Verify` of the `FLASH_OPT` build. -/
inductive OptReg
  | NSSR | NSCR | OPTR | NSBOOTADD0R | NSBOOTADD1R | SECBOOTADD0R
  | SECWM1R1 | SECWM1R2 | WRP1AR | WRP1BR | SECWM2R1 | SECWM2R2 | WRP2AR | WRP2BR
  deriving DecidableEq, Repr

/-- State of the flash interface as seen by the `FLASH_OPT` build.  The
option registers and `NSCR` are storage that keeps the last value written
(`regs`); `NSSR` is volatile, the values of its coming reads are listed in
`nssrReads`; `trace` lists the register stores in program order. -/
structure FlashOpt where
  regs : OptReg → Nat
  nssrReads : List Nat
  trace : List (OptReg × Nat)

namespace Opt

/-- Store `FLASH->r = v` to an option register or to `NSCR`. -/
def write (st : FlashOpt) (r : OptReg) (v : Nat) : FlashOpt :=
  { st with regs := fun q => if q = r then v else st.regs q, trace := st.trace ++ [(r, v)] }

/-- Store `FLASH->NSSR = v`; the error flags are write-one-to-clear. -/
def writeNSSR (st : FlashOpt) (v : Nat) : FlashOpt :=
  { st with
    regs := fun q =>
      if q = OptReg.NSSR then st.regs OptReg.NSSR ^^^ (st.regs OptReg.NSSR &&& v)
      else st.regs q
    trace := st.trace ++ [(OptReg.NSSR, v)] }

/-- One volatile read of `FLASH->NSSR`. -/
def readNSSR (st : FlashOpt) : Option (Nat × FlashOpt) :=
  match st.nssrReads with
  | [] => none
  | s :: rest =>
    some (s, { st with regs := fun q => if q = OptReg.NSSR then s else st.regs q,
                       nssrReads := rest })

/-- Loop `while (FLASH->NSSR & FLASH_SR_BSY);`. -/
def waitBusy (st : FlashOpt) : Option FlashOpt :=
  match spinBSY st.nssrReads with
  | none => none
  | some (s, rest) =>
    some { st with regs := fun q => if q = OptReg.NSSR then s else st.regs q,
                   nssrReads := rest }

/-- Barrier `DSB()`: no effect on the sequential register model. -/
def DSB (st : FlashOpt) : FlashOpt := st

/-- Get Flash security mode: 0 = non-secure, 1 = secure (`OPTR.TZEN`). -/
def GetFlashSecureMode (st : FlashOpt) : Nat :=
  if st.regs OptReg.OPTR &&& FLASH_OPTR_TZEN ≠ 0 then 1 else 0

/-- Entry point `EraseChip` of the option bytes: program the default values. -/
def EraseChip (st : FlashOpt) : Option (Nat × FlashOpt) :=
  let st := writeNSSR st FLASH_PGERR
  let st := write st OptReg.OPTR ((st.regs OptReg.OPTR &&& 0x80000000) ||| 0x7FEFF8AA)
  let st := write st OptReg.NSBOOTADD0R 0x0800007F
  let st := write st OptReg.NSBOOTADD1R 0x0BF9007F
  let st := write st OptReg.WRP1AR 0xFF80FFFF
  let st := write st OptReg.WRP1BR 0xFF80FFFF
  let st := write st OptReg.WRP2AR 0xFF80FFFF
  let st := write st OptReg.WRP2BR 0xFF80FFFF
  let st :=
    if GetFlashSecureMode st = 1 then
      let st := write st OptReg.SECBOOTADD0R 0x0C00007C
      let st := write st OptReg.SECWM1R2 0x7F807F80
      let st := write st OptReg.SECWM2R2 0x7F807F80
      let st := write st OptReg.SECWM1R1 0xFFFFFF80
      let st := write st OptReg.SECWM2R1 0xFFFFFF80
      st
    else st
  let st := write st OptReg.NSCR FLASH_CR_OPTSTRT
  let st := DSB st
  match waitBusy st with
  | none => none
  | some st =>
    match readNSSR st with
    | none => none
    | some (s, st) =>
      if s &&& FLASH_PGERR ≠ 0 then
        let st := writeNSSR st FLASH_PGERR
        some (1, st)
      else
        some (0, st)

/-- The register stores of `ProgramPage` from `FLASH->OPTR` to the last
secure watermark register. -/
def ProgramPage_regs (st : FlashOpt) (buf : Nat → Nat) : FlashOpt :=
  let optr := word32 buf 0
  let secwm1r2 := word32 buf 4
  let secwm2r2 := word32 buf 8
  let nsbootadd0r := word32 buf 12
  let nsbootadd1r := word32 buf 16
  let secbootadd0r := word32 buf 20
  let secwm1r1 := word32 buf 24
  let wrp1ar := word32 buf 28
  let wrp1br := word32 buf 32
  let secwm2r1 := word32 buf 36
  let wrp2ar := word32 buf 40
  let wrp2br := word32 buf 44
  let st := write st OptReg.OPTR ((optr &&& 0x9F7F77FF) ||| not32 0x9F7F77FF)
  let st := write st OptReg.NSBOOTADD0R ((nsbootadd0r &&& 0xFFFFFF80) ||| not32 0xFFFFFF80)
  let st := write st OptReg.NSBOOTADD1R ((nsbootadd1r &&& 0xFFFFFF80) ||| not32 0xFFFFFF80)
  let st := write st OptReg.WRP1AR ((wrp1ar &&& 0x007F007F) ||| not32 0x007F007F)
  let st := write st OptReg.WRP1BR ((wrp1br &&& 0x007F007F) ||| not32 0x007F007F)
  let st := write st OptReg.WRP2AR ((wrp2ar &&& 0x007F007F) ||| not32 0x007F007F)
  let st := write st OptReg.WRP2BR ((wrp2br &&& 0x007F007F) ||| not32 0x007F007F)
  if GetFlashSecureMode st = 1 then
    let st := write st OptReg.SECBOOTADD0R ((secbootadd0r &&& 0xFFFFFF83) ||| not32 0xFFFFFF83)
    let st := write st OptReg.SECWM1R2 ((secwm1r2 &&& 0x807F0000) ||| not32 0x807F0000)
    let st := write st OptReg.SECWM2R2 ((secwm2r2 &&& 0x807F0000) ||| not32 0x807F0000)
    let st := write st OptReg.SECWM1R1 ((secwm1r1 &&& 0x007F007F) ||| not32 0x007F007F)
    let st := write st OptReg.SECWM2R1 ((secwm2r1 &&& 0x007F007F) ||| not32 0x007F007F)
    st
  else st

/-- Entry point `ProgramPage` of the option bytes. -/
def ProgramPage (st : FlashOpt) (adr sz : Nat) (buf : Nat → Nat) : Option (Nat × FlashOpt) :=
  let _ := adr
  let _ := sz
  let st := writeNSSR st FLASH_PGERR
  let st := ProgramPage_regs st buf
  let st := DSB st
  let st := write st OptReg.NSCR FLASH_CR_OPTSTRT
  let st := DSB st
  match waitBusy st with
  | none => none
  | some st =>
    match readNSSR st with
    | none => none
    | some (s, st) =>
      if s &&& FLASH_PGERR ≠ 0 then
        match readNSSR st with
        | none => none
        | some (s2, st) =>
          let st := writeNSSR st (s2 ||| FLASH_PGERR)
          some (1, st)
      else
        some (0, st)

/-- Entry point `Verify` of the option bytes. -/
def Verify (st : FlashOpt) (adr sz : Nat) (buf : Nat → Nat) : Nat :=
  let optr := word32 buf 0
  let secwm1r2 := word32 buf 4
  let secwm2r2 := word32 buf 8
  let nsbootadd0r := word32 buf 12
  let nsbootadd1r := word32 buf 16
  let secbootadd0r := word32 buf 20
  let secwm1r1 := word32 buf 24
  let wrp1ar := word32 buf 28
  let wrp1br := word32 buf 32
  let secwm2r1 := word32 buf 36
  let wrp2ar := word32 buf 40
  let wrp2br := word32 buf 44
  if st.regs OptReg.OPTR &&& 0x9F7F77FF ≠ optr &&& 0x9F7F77FF then add32 adr 0
  else if st.regs OptReg.NSBOOTADD0R &&& 0xFFFFFF80 ≠ nsbootadd0r &&& 0xFFFFFF80 then add32 adr 3
  else if st.regs OptReg.NSBOOTADD1R &&& 0xFFFFFF80 ≠ nsbootadd1r &&& 0xFFFFFF80 then add32 adr 4
  else if st.regs OptReg.WRP1AR &&& 0x007F007F ≠ wrp1ar &&& 0x007F007F then add32 adr 7
  else if st.regs OptReg.WRP1BR &&& 0x007F007F ≠ wrp1br &&& 0x007F007F then add32 adr 8
  else if st.regs OptReg.WRP2AR &&& 0x007F007F ≠ wrp2ar &&& 0x007F007F then add32 adr 10
  else if st.regs OptReg.WRP2BR &&& 0x007F007F ≠ wrp2br &&& 0x007F007F then add32 adr 11
  else if GetFlashSecureMode st = 1 then
    if st.regs OptReg.SECBOOTADD0R &&& 0xFFFFFF83 ≠ secbootadd0r &&& 0xFFFFFF83 then add32 adr 5
    else if st.regs OptReg.SECWM1R2 &&& 0x807F0000 ≠ secwm1r2 &&& 0x807F0000 then add32 adr 1
    else if st.regs OptReg.SECWM2R2 &&& 0x807F0000 ≠ secwm2r2 &&& 0x807F0000 then add32 adr 2
    else if st.regs OptReg.SECWM1R1 &&& 0x007F007F ≠ secwm1r1 &&& 0x007F007F then add32 adr 6
    else if st.regs OptReg.SECWM2R1 &&& 0x007F007F ≠ secwm2r1 &&& 0x007F007F then add32 adr 9
    else add32 adr sz
  else add32 adr sz

/-- A state of the `FLASH_OPT` build: option register `optr`, every other
register 0, nothing stored yet. -/
def powerOn (optr : Nat) (reads : List Nat) : FlashOpt :=
  { regs := fun q => if q = OptReg.OPTR then optr else 0, nssrReads := reads, trace := [] }

end Opt

/-- Little-endian value of the four record bytes at offset `off`, in the
words of the specification. -/
def leField (buf : Nat → Nat) (off : Nat) : Nat :=
  buf off + 2 ^ 8 * buf (off + 1) + 2 ^ 16 * buf (off + 2) + 2 ^ 24 * buf (off + 3)

/-- Registers every `ProgramPage` of the option bytes stores, in program
order, with the byte offset of their field in the record and their valid
mask. -/
def optLayoutAlways : List (OptReg × Nat × Nat) :=
  [(OptReg.OPTR, 0, 0x9F7F77FF), (OptReg.NSBOOTADD0R, 12, 0xFFFFFF80),
   (OptReg.NSBOOTADD1R, 16, 0xFFFFFF80), (OptReg.WRP1AR, 28, 0x007F007F),
   (OptReg.WRP1BR, 32, 0x007F007F), (OptReg.WRP2AR, 40, 0x007F007F),
   (OptReg.WRP2BR, 44, 0x007F007F)]

/-- Registers gated by the secure mode, in program order, with the byte
offset of their field in the record and their valid mask. -/
def optLayoutSecure : List (OptReg × Nat × Nat) :=
  [(OptReg.SECBOOTADD0R, 20, 0xFFFFFF83), (OptReg.SECWM1R2, 4, 0x807F0000),
   (OptReg.SECWM2R2, 8, 0x807F0000), (OptReg.SECWM1R1, 24, 0x007F007F),
   (OptReg.SECWM2R1, 36, 0x007F007F)]

/-- The value a register with valid mask `m` receives for the record field
`f`, in the words of the specification: `(f AND m) OR (NOT m)`. -/
def maskedValue (f m : Nat) : Nat := (f &&& m) ||| (0xFFFFFFFF - m)

/-- The registers `Verify` compares in secure mode `sec`, in the order of
the code. -/
def verifyLayout (sec : Bool) : List (OptReg × Nat × Nat) :=
  optLayoutAlways ++ (if sec then optLayoutSecure else [])

/-- Ordinal (byte offset divided by 4) of the first register of `l` whose
masked content differs from the masked record field. -/
def firstMismatch (regs : OptReg → Nat) (buf : Nat → Nat) :
    List (OptReg × Nat × Nat) → Option Nat
  | [] => none
  | (r, off, m) :: t =>
    if regs r &&& m ≠ leField buf off &&& m then some (off / 4) else firstMismatch regs buf t

/-! ## External OSPI flash (`STM32L562_OSPI_MX25L51245G/FlashPrg.c`) -/

def BSP_ERROR_NONE : Int := 0

/-- Calls of the board support package made by `Verify` and `BlankCheck`. -/
inductive BspCall
  | EnableMemoryMappedMode
  | DisableMemoryMappedMode
  | ConfigFlash (mode rate : Nat)
  deriving DecidableEq, Repr

/-- State of the external flash backend.  `InterfaceMode` and `TransferRate`
are the fields of the global `ospi_flash`; `mapped` tells whether the bus is
in memory-mapped mode, `flashMode` and `flashRate` are the configuration the
flash currently operates in, `mem` is the flash content as the memory map
shows it, `rc n` is the status the `n`-th driver call returns, and `calls`
lists the driver calls made so far. -/
structure Ospi where
  InterfaceMode : Nat
  TransferRate : Nat
  mapped : Bool
  flashMode : Nat
  flashRate : Nat
  mem : Nat → Nat
  rc : Nat → Int
  calls : List BspCall

namespace OSPI

/-- Modelled from the spec: the driver call `BSP_OSPI_NOR_EnableMemoryMappedMode`
of the board support package, which is not among the sources.  The bus mode
is explicit state: a successful call switches the bus to memory-mapped mode,
a failing call leaves it as it is. -/
def BSP_OSPI_NOR_EnableMemoryMappedMode (st : Ospi) (Instance : Nat) : Int × Ospi :=
  let _ := Instance
  let rc := st.rc st.calls.length
  (rc, { st with mapped := if rc = BSP_ERROR_NONE then true else st.mapped,
                 calls := st.calls ++ [BspCall.EnableMemoryMappedMode] })

/-- Modelled from the spec: the driver call `BSP_OSPI_NOR_DisableMemoryMappedMode`
of the board support package, which is not among the sources: a successful
call switches the bus back to command mode. -/
def BSP_OSPI_NOR_DisableMemoryMappedMode (st : Ospi) (Instance : Nat) : Int × Ospi :=
  let _ := Instance
  let rc := st.rc st.calls.length
  (rc, { st with mapped := if rc = BSP_ERROR_NONE then false else st.mapped,
                 calls := st.calls ++ [BspCall.DisableMemoryMappedMode] })

/-- Modelled from the spec: the driver call `BSP_OSPI_NOR_ConfigFlash` of the
board support package, which is not among the sources: a successful call
puts the flash into the given interface mode and transfer rate. -/
def BSP_OSPI_NOR_ConfigFlash (st : Ospi) (Instance Mode Rate : Nat) : Int × Ospi :=
  let _ := Instance
  let rc := st.rc st.calls.length
  (rc, { st with flashMode := if rc = BSP_ERROR_NONE then Mode else st.flashMode,
                 flashRate := if rc = BSP_ERROR_NONE then Rate else st.flashRate,
                 calls := st.calls ++ [BspCall.ConfigFlash Mode Rate] })

/-- The byte `ptr[i]` read through the memory map at address `a`. -/
def mappedByte (st : Ospi) (a : Nat) : Nat := st.mem a % 256

/-- The loop `for (i = 0; i < sz; i++)` of `Verify`, from index `i` on:
`some r` when the body executed `return r`, `none` when the loop ran to its
end. -/
def Verify_for (st : Ospi) (adr sz : Nat) (buf : Nat → Nat) (i : Nat) : Option Nat :=
  if i < sz then
    if mappedByte st (add32 adr i) ≠ byteAt buf i then some (add32 adr i)
    else Verify_for st adr sz buf (i + 1)
  else none
termination_by sz - i

/-- Entry point `Verify` of the external flash. -/
def Verify (st : Ospi) (adr sz : Nat) (buf : Nat → Nat) : Nat × Ospi :=
  let (rc, st) := BSP_OSPI_NOR_EnableMemoryMappedMode st 0
  if rc ≠ BSP_ERROR_NONE then (adr, st)
  else
    match Verify_for st adr sz buf 0 with
    | some r => (r, st)
    | none =>
      let (rc, st) := BSP_OSPI_NOR_DisableMemoryMappedMode st 0
      if rc ≠ BSP_ERROR_NONE then (adr, st)
      else
        let (rc, st) := BSP_OSPI_NOR_ConfigFlash st 0 st.InterfaceMode st.TransferRate
        if rc ≠ BSP_ERROR_NONE then (adr, st)
        else (add32 adr sz, st)

/-- The loop `for (i = 0; i < sz; i++)` of `BlankCheck`, from index `i` on:
the value of `result` when the loop is left. -/
def BlankCheck_for (st : Ospi) (adr sz pat : Nat) (i : Nat) : Nat :=
  if i < sz then
    if mappedByte st (add32 adr i) ≠ pat % 256 then 1
    else BlankCheck_for st adr sz pat (i + 1)
  else 0
termination_by sz - i

/-- Entry point `BlankCheck` of the external flash. -/
def BlankCheck (st : Ospi) (adr sz pat : Nat) : Nat × Ospi :=
  let (_, st) := BSP_OSPI_NOR_EnableMemoryMappedMode st 0
  let result := BlankCheck_for st adr sz pat 0
  let (_, st) := BSP_OSPI_NOR_DisableMemoryMappedMode st 0
  let (_, st) := BSP_OSPI_NOR_ConfigFlash st 0 st.InterfaceMode st.TransferRate
  (result, st)

/-- A state of the external backend after `Init`: command mode, the flash
configured as `ospi_flash` says, every driver call succeeding. -/
def ready (mode rate : Nat) (mem : Nat → Nat) : Ospi :=
  { InterfaceMode := mode, TransferRate := rate, mapped := false, flashMode := mode,
    flashRate := rate, mem := mem, rc := fun _ => BSP_ERROR_NONE, calls := [] }

end OSPI

/-! ## Bit-level lemmas -/

theorem and_two_pow_ne_zero_iff (x i : Nat) : x &&& 2 ^ i ≠ 0 ↔ x.testBit i = true := by
  rw [Nat.and_two_pow]
  cases h : x.testBit i <;> simp [Nat.pos_iff_ne_zero.mp (Nat.two_pow_pos i)]

theorem lor_eq_zero_iff (a b : Nat) : a ||| b = 0 ↔ a = 0 ∧ b = 0 := by
  constructor
  · intro h
    have hbit : ∀ i, a.testBit i = false ∧ b.testBit i = false := by
      intro i
      have hi : (a ||| b).testBit i = false := by rw [h]; exact Nat.zero_testBit i
      rw [Nat.testBit_or] at hi
      cases ha : a.testBit i <;> cases hb : b.testBit i <;> simp_all
    exact ⟨Nat.zero_of_testBit_eq_false fun i => (hbit i).1,
      Nat.zero_of_testBit_eq_false fun i => (hbit i).2⟩
  · rintro ⟨rfl, rfl⟩
    rfl

/-- Masking a number split at bit `n` masks the two parts separately. -/
theorem and_split (n h l H m : Nat) (hl : l < 2 ^ n) (hm : m < 2 ^ n) :
    (2 ^ n * h + l) &&& (2 ^ n * H + m) = 2 ^ n * (h &&& H) + (l &&& m) := by
  have hlm : l &&& m < 2 ^ n := Nat.and_lt_two_pow l hm
  apply Nat.eq_of_testBit_eq
  intro j
  rw [Nat.testBit_and, Nat.testBit_mul_pow_two_add h hl, Nat.testBit_mul_pow_two_add H hm,
    Nat.testBit_mul_pow_two_add (h &&& H) hlm]
  by_cases hj : j < n <;> simp [hj]

theorem GetFlashBankMode_eq (st : FlashMem) :
    GetFlashBankMode st = if st.OPTR.testBit 22 then 1 else 0 := by
  unfold GetFlashBankMode FLASH_OPTR_DBANK
  rw [Nat.one_shiftLeft]
  by_cases h : st.OPTR.testBit 22 = true
  · rw [if_pos ((and_two_pow_ne_zero_iff _ _).mpr h), if_pos h]
  · rw [if_neg (fun hc => h ((and_two_pow_ne_zero_iff _ _).mp hc)), if_neg h]

theorem sub32_one_of_pos (x : Nat) (h0 : 0 < x) (hx : x < 2 ^ 32) : sub32 x 1 = x - 1 := by
  unfold sub32
  rw [Nat.mod_eq_of_lt hx]
  have h1 : (1 : Nat) % 2 ^ 32 = 1 := by decide
  rw [h1]
  have h2 : x + 2 ^ 32 - 1 = (x - 1) + 2 ^ 32 := by omega
  rw [h2, Nat.add_mod_right]
  exact Nat.mod_eq_of_lt (by omega)

/-! ## Bank and page decoding -/

/-- The bank number as a case distinction on the DBANK option bit. -/
theorem GetFlashBankNum_cases (st : FlashMem) (adr : Nat) :
    GetFlashBankNum st adr =
      if st.OPTR.testBit 22 = true then
        (if add32 st.gFlashBase (st.gFlashSize >>> 1) ≤ adr then 1 else 0)
      else 0 := by
  unfold GetFlashBankNum GetFlashType
  rw [if_pos rfl, GetFlashBankMode_eq]
  by_cases h : st.OPTR.testBit 22 = true
  · rw [if_pos h, if_pos rfl, if_pos h]
  · rw [if_neg h, if_neg (by decide), if_neg h]

/-- The page number is a masked address shifted right, the mask and the
shift depending on the bank mode. -/
theorem GetFlashPageNum_cases (st : FlashMem) (adr : Nat) :
    GetFlashPageNum st adr =
      if st.OPTR.testBit 22 = true then (adr &&& sub32 (st.gFlashSize >>> 1) 1) >>> 11
      else (adr &&& sub32 st.gFlashSize 1) >>> 12 := by
  unfold GetFlashPageNum GetFlashType
  rw [if_pos rfl, GetFlashBankMode_eq]
  by_cases h : st.OPTR.testBit 22 = true
  · rw [if_pos h, if_pos rfl, if_pos h]
  · rw [if_neg h, if_neg (by decide), if_neg h]

theorem and_shiftRight_le (x m k : Nat) : (x &&& m) >>> k ≤ m >>> k := by
  rw [Nat.shiftRight_eq_div_pow, Nat.shiftRight_eq_div_pow]
  exact Nat.div_le_div_right Nat.and_le_right

/-- The page number of a 512 KiB geometry fits the 7-bit page field. -/
theorem pageNum_512_bound (st : FlashMem) (adr : Nat) (hS : st.gFlashSize = 0x80000) :
    GetFlashPageNum st adr ≤ 127 := by
  rw [GetFlashPageNum_cases, hS]
  split_ifs
  · exact Nat.le_trans (and_shiftRight_le adr _ 11) (by decide)
  · exact Nat.le_trans (and_shiftRight_le adr _ 12) (by decide)

/-- C2.  `GetFlashBankNum` equals the reference definition of the bank number
for every address and every captured geometry: with the DBANK option bit
(bit 22 of `OPTR`) set it is 1 exactly when
`adr ≥ (gFlashBase + gFlashSize / 2) mod 2^32` and 0 otherwise; with DBANK
clear it is 0. -/
theorem GetFlashBankNum_eq_bankNumberSpec (st : FlashMem) (adr : Nat) :
    GetFlashBankNum st adr =
      bankNumberSpec (st.OPTR.testBit 22) st.gFlashBase st.gFlashSize adr := by
  rw [GetFlashBankNum_cases]
  unfold bankNumberSpec add32
  rw [Nat.shiftRight_eq_div_pow, Nat.pow_one]

/-- C3.  `GetFlashPageNum` is the index of the erase sector inside its bank:
for a flash size `S = 2^k` (`2 ≤ S < 2^32`) whose base `B` is a multiple of
`S`, and an address `B ≤ a < B + S`, the result is
`((a - B) mod (S/2)) / 2048` in dual-bank mode and `(a - B) / 4096` in
single-bank mode. -/
theorem GetFlashPageNum_sector_index (st : FlashMem) (k a : Nat)
    (hk1 : 1 ≤ k) (hk : k < 32) (hS : st.gFlashSize = 2 ^ k)
    (hB : 2 ^ k ∣ st.gFlashBase) (hlo : st.gFlashBase ≤ a)
    (hhi : a < st.gFlashBase + st.gFlashSize) :
    GetFlashPageNum st a =
      if st.OPTR.testBit 22 then ((a - st.gFlashBase) % (st.gFlashSize / 2)) / 2048
      else (a - st.gFlashBase) / 4096 := by
  obtain ⟨c, hc⟩ := hB
  obtain ⟨d, hd⟩ : ∃ d, a = st.gFlashBase + d := ⟨a - st.gFlashBase, by omega⟩
  have hdlt : d < 2 ^ k := by rw [hS] at hhi; omega
  have hpow : 2 ^ k < 2 ^ 32 := Nat.pow_lt_pow_right (by decide) hk
  have hsub : a - st.gFlashBase = d := by omega
  obtain ⟨m, rfl⟩ : ∃ m, k = m + 1 := ⟨k - 1, by omega⟩
  have hhalf : 2 ^ (m + 1) / 2 = 2 ^ m := by rw [Nat.pow_succ]; omega
  rw [GetFlashPageNum_cases, hsub, hS]
  by_cases h : st.OPTR.testBit 22 = true
  · have hm0 : 0 < 2 ^ m := Nat.two_pow_pos m
    have hmlt : 2 ^ m < 2 ^ 32 := by rw [Nat.pow_succ] at hpow; omega
    rw [if_pos h, if_pos h]
    rw [Nat.shiftRight_eq_div_pow (2 ^ (m + 1)) 1, Nat.pow_one, hhalf,
      sub32_one_of_pos _ hm0 hmlt, Nat.and_pow_two_sub_one_eq_mod, Nat.shiftRight_eq_div_pow]
    have ha : a % 2 ^ m = d % 2 ^ m := by
      rw [hd, hc, Nat.pow_succ, Nat.mul_assoc, Nat.mul_add_mod]
    rw [ha]
  · rw [if_neg h, if_neg h,
      sub32_one_of_pos _ (Nat.two_pow_pos _) hpow, Nat.and_pow_two_sub_one_eq_mod,
      Nat.shiftRight_eq_div_pow]
    have ha : a % 2 ^ (m + 1) = d := by
      rw [hd, hc, Nat.mul_add_mod]
      exact Nat.mod_eq_of_lt hdlt
    rw [ha]

/-- Witness for C3: the 512 KiB device at `0x08000000` in dual-bank mode and
the address `0x08040800` (second sector of bank 2). -/
theorem GetFlashPageNum_sector_index_witness :
    GetFlashPageNum
      { powerOn FLASH_OPTR_DBANK 512 [] with gFlashBase := 0x08000000, gFlashSize := 0x80000 }
      0x08040800 = 1 :=
  (GetFlashPageNum_sector_index
    { powerOn FLASH_OPTR_DBANK 512 [] with gFlashBase := 0x08000000, gFlashSize := 0x80000 }
    19 0x08040800 (by decide) (by decide) (by decide) (by decide) (by decide) (by decide)).trans
    (by decide)

/-- C4.  On a 512 KiB device (`gFlashSize = 0x80000`) the page number is at
most 127 for every address, in dual-bank and in single-bank mode. -/
theorem GetFlashPageNum_le_127 (st : FlashMem) (adr : Nat) (hS : st.gFlashSize = 0x80000) :
    GetFlashPageNum st adr ≤ 127 := by
  rw [GetFlashPageNum_cases, hS]
  have h1 : sub32 (0x80000 >>> 1) 1 = 0x3FFFF := by decide
  have h2 : sub32 0x80000 1 = 0x7FFFF := by decide
  rw [h1, h2]
  have hd : adr &&& 0x3FFFF ≤ 0x3FFFF := Nat.and_le_right
  have hs : adr &&& 0x7FFFF ≤ 0x7FFFF := Nat.and_le_right
  by_cases h : st.OPTR.testBit 22 = true
  · rw [if_pos h, Nat.shiftRight_eq_div_pow]
    omega
  · rw [if_neg h, Nat.shiftRight_eq_div_pow]
    omega

/-- Witness for C4: the last byte of the secure alias in single-bank mode. -/
theorem GetFlashPageNum_le_127_witness :
    GetFlashPageNum { powerOn 0 512 [] with gFlashBase := 0x0C000000, gFlashSize := 0x80000 }
      0x0C07FFFF ≤ 127 :=
  GetFlashPageNum_le_127 _ 0x0C07FFFF rfl

/-! ## Sector erase -/

theorem and_two_pow_eq_zero_iff (x i : Nat) : x &&& 2 ^ i = 0 ↔ x.testBit i = false := by
  have h := and_two_pow_ne_zero_iff x i
  constructor
  · intro h0
    cases hb : x.testBit i
    · rfl
    · exact absurd h0 (h.mpr hb)
  · intro hb
    by_contra hne
    rw [h.mp hne] at hb
    exact Bool.noConfusion hb

/-- The test `s & FLASH_PGERR` is non-zero exactly when one of the seven
error flags is set. -/
theorem and_PGERR_ne_zero_iff (s : Nat) : s &&& FLASH_PGERR ≠ 0 ↔ hasErrorFlag s = true := by
  have h0 : s &&& FLASH_PGERR = 0 ↔ hasErrorFlag s = false := by
    simp only [FLASH_PGERR, FLASH_SR_OPERR, FLASH_SR_PROGERR, FLASH_SR_WRPERR, FLASH_SR_PGAERR,
      FLASH_SR_SIZERR, FLASH_SR_PGSERR, FLASH_SR_OPTWERR, Nat.one_shiftLeft,
      Nat.and_or_distrib_left, lor_eq_zero_iff, and_two_pow_eq_zero_iff, hasErrorFlag,
      Bool.or_eq_false_iff]
  constructor
  · intro h
    cases hb : hasErrorFlag s
    · exact absurd (h0.mpr hb) h
    · rfl
  · intro h hz
    rw [h0.mp hz] at h
    exact Bool.noConfusion h

/-- Writing a mask to the write-one-to-clear status register leaves none of
the mask's bits set. -/
theorem xor_and_self_and (x m : Nat) : (x ^^^ (x &&& m)) &&& m = 0 := by
  apply Nat.eq_of_testBit_eq
  intro i
  rw [Nat.testBit_and, Nat.testBit_xor, Nat.testBit_and, Nat.zero_testBit]
  cases x.testBit i <;> cases m.testBit i <;> rfl

/-- Effect of `EraseSector` when the busy-wait ends and the status register
then reads `s`. -/
theorem EraseSector_run (st : FlashMem) (adr nb s : Nat) (rest : List Nat)
    (h : spinBSY st.srReads = some (nb, s :: rest)) :
    EraseSector st adr =
      some (if s &&& FLASH_PGERR ≠ 0 then 1 else 0,
        { st with
          CR := EraseSector_cr (GetFlashBankNum st (EraseSector_adr adr))
                  (GetFlashPageNum st (EraseSector_adr adr)) ||| FLASH_CR_STRT
          SR := if s &&& FLASH_PGERR ≠ 0 then s ^^^ (s &&& FLASH_PGERR) else s
          srReads := rest
          trace := st.trace ++
            [Event.write st.pFlashSR FLASH_PGERR,
             Event.write st.pFlashCR
               (EraseSector_cr (GetFlashBankNum st (EraseSector_adr adr))
                  (GetFlashPageNum st (EraseSector_adr adr))),
             Event.write st.pFlashCR
               (EraseSector_cr (GetFlashBankNum st (EraseSector_adr adr))
                  (GetFlashPageNum st (EraseSector_adr adr)) ||| FLASH_CR_STRT),
             Event.dsb] ++
            (if s &&& FLASH_PGERR ≠ 0 then [Event.write st.pFlashSR FLASH_PGERR] else []) }) := by
  unfold EraseSector
  simp only [waitBusy, writeSR, writeCR, DSB, readSR, h]
  by_cases he : s &&& FLASH_PGERR = 0
  · simp [he]
  · simp [he]

/-- The alias mask of `EraseSector` on an address of the form
`2^24 * h + x`, `x < 2^24`. -/
theorem EraseSector_adr_split (h x : Nat) (hx : x < 2 ^ 24) :
    EraseSector_adr (2 ^ 24 * h + x) = 2 ^ 24 * (h &&& 8) + x := by
  unfold EraseSector_adr
  have hm : (0x08FFFFFF : Nat) = 2 ^ 24 * 8 + (2 ^ 24 - 1) := by decide
  rw [hm, and_split 24 h x 8 (2 ^ 24 - 1) hx (by decide), Nat.and_pow_two_sub_one_eq_mod,
    Nat.mod_eq_of_lt hx]

/-- C5.  `EraseSector` maps the secure alias onto the physical alias before
decoding: for every offset `x < 0x01000000` the address decoded for input
`0x0C000000 + x` is `0x08000000 + x`, the address decoded for input
`0x08000000 + x`; both inputs select the same page number, and the whole
call behaves identically on both. -/
theorem EraseSector_secure_alias (x : Nat) (hx : x < 0x01000000) :
    EraseSector_adr (0x0C000000 + x) = 0x08000000 + x ∧
    EraseSector_adr (0x08000000 + x) = 0x08000000 + x ∧
    ∀ st : FlashMem,
      GetFlashPageNum st (EraseSector_adr (0x0C000000 + x)) =
        GetFlashPageNum st (EraseSector_adr (0x08000000 + x)) ∧
      EraseSector st (0x0C000000 + x) = EraseSector st (0x08000000 + x) := by
  have hx24 : x < 2 ^ 24 := hx
  have h1 : EraseSector_adr (0x0C000000 + x) = 0x08000000 + x :=
    EraseSector_adr_split 12 x hx24
  have h2 : EraseSector_adr (0x08000000 + x) = 0x08000000 + x :=
    EraseSector_adr_split 8 x hx24
  refine ⟨h1, h2, fun st => ⟨by rw [h1, h2], ?_⟩⟩
  unfold EraseSector
  rw [h1, h2]

/-- Witness for C5: offset `0x40800`. -/
theorem EraseSector_secure_alias_witness :
    EraseSector_adr (0x0C000000 + 0x40800) = 0x08000000 + 0x40800 :=
  (EraseSector_secure_alias 0x40800 (by decide)).1

/-- C6.  When the busy-wait of `EraseSector` ends and the status register
then reads `s`, the call returns 1 if and only if one of the seven error
flags of `FLASH_PGERR` is set in `s`, and 0 otherwise; when it returns 1 the
last action before returning is the store of `FLASH_PGERR` to the status
register, which leaves the error flags cleared. -/
theorem EraseSector_returns_error_flag (st : FlashMem) (adr nb s : Nat) (rest : List Nat)
    (h : spinBSY st.srReads = some (nb, s :: rest)) :
    ∃ r st', EraseSector st adr = some (r, st') ∧
      (r = 1 ↔ hasErrorFlag s = true) ∧ (r = 0 ↔ hasErrorFlag s = false) ∧
      (r = 1 → st'.trace.getLast? = some (Event.write st.pFlashSR FLASH_PGERR) ∧
        st'.SR &&& FLASH_PGERR = 0) := by
  refine ⟨_, _, EraseSector_run st adr nb s rest h, ?_⟩
  by_cases he : hasErrorFlag s = true
  · have hne : s &&& FLASH_PGERR ≠ 0 := (and_PGERR_ne_zero_iff s).mpr he
    simp only [hne, if_true, ne_eq, not_false_eq_true, he]
    exact ⟨by simp, by simp, fun _ => ⟨List.getLast?_concat _, xor_and_self_and s FLASH_PGERR⟩⟩
  · have hz : ¬ (s &&& FLASH_PGERR ≠ 0) := fun hc => he ((and_PGERR_ne_zero_iff s).mp hc)
    have hf : hasErrorFlag s = false := by
      cases hb : hasErrorFlag s
      · rfl
      · exact absurd hb he
    simp only [hz, if_false, hf]
    exact ⟨by simp, by simp, by simp⟩

/-- Witness for C6: one busy read, one idle read, then PROGERR (bit 3). -/
theorem EraseSector_returns_error_flag_witness :
    spinBSY [0x10000, 0, 8] = some (0, [8]) ∧
    ∃ r st', EraseSector (powerOn FLASH_OPTR_DBANK 512 [0x10000, 0, 8]) 0x08000800 =
        some (r, st') ∧
      (r = 1 ↔ hasErrorFlag 8 = true) ∧ (r = 0 ↔ hasErrorFlag 8 = false) ∧
      (r = 1 → st'.trace.getLast? = some (Event.write Reg.NSSR FLASH_PGERR) ∧
        st'.SR &&& FLASH_PGERR = 0) :=
  ⟨by decide,
    EraseSector_returns_error_flag (powerOn FLASH_OPTR_DBANK 512 [0x10000, 0, 8]) 0x08000800
      0 8 [] (by decide)⟩

theorem GetFlashBankNum_le_one (st : FlashMem) (adr : Nat) : GetFlashBankNum st adr ≤ 1 := by
  rw [GetFlashBankNum_cases]
  split_ifs <;> omega

/-- The control-register values of `EraseSector` as sums of disjoint fields. -/
theorem EraseSector_cr_eq (b p : Nat) (hb : b ≤ 1) (hp : p ≤ 127) :
    EraseSector_cr b p = 2 ^ 11 * b + (2 ^ 3 * p + 2) ∧
    EraseSector_cr b p ||| FLASH_CR_STRT = 2 ^ 16 * 1 + (2 ^ 11 * b + (2 ^ 3 * p + 2)) := by
  have hper : FLASH_CR_PER = 2 := by decide
  have hstrt : FLASH_CR_STRT = 2 ^ 16 * 1 := by decide
  have e1 : (2 ||| p <<< 3) = 2 ^ 3 * p + 2 := by
    rw [Nat.shiftLeft_eq, Nat.or_comm, Nat.mul_comm, ← Nat.mul_add_lt_is_or (by decide) p]
  have hlt1 : 2 ^ 3 * p + 2 < 2 ^ 11 := by omega
  have e2 : (2 ^ 3 * p + 2 ||| b <<< 11) = 2 ^ 11 * b + (2 ^ 3 * p + 2) := by
    rw [Nat.shiftLeft_eq, Nat.or_comm, Nat.mul_comm, ← Nat.mul_add_lt_is_or hlt1 b]
  have hlt2 : 2 ^ 11 * b + (2 ^ 3 * p + 2) < 2 ^ 16 := by omega
  have e3 : EraseSector_cr b p = 2 ^ 11 * b + (2 ^ 3 * p + 2) := by
    unfold EraseSector_cr u32
    rw [hper, e1, e2]
    exact Nat.mod_eq_of_lt (by omega)
  refine ⟨e3, ?_⟩
  rw [e3, hstrt, Nat.or_comm, ← Nat.mul_add_lt_is_or hlt2 1]

/-- Bits of a control-register value assembled from the page-erase bit, the
page number `p`, the bank number `b` and the start bit. -/
theorem testBit_cr_fields (b p j : Nat) (hb : b ≤ 1) (hp : p ≤ 127) :
    (2 ^ 16 * 1 + (2 ^ 11 * b + (2 ^ 3 * p + 2))).testBit j = true ↔
      j = 1 ∨ (3 ≤ j ∧ j ≤ 10 ∧ p.testBit (j - 3) = true) ∨ (j = 11 ∧ b = 1) ∨ j = 16 := by
  have hlt1 : 2 ^ 3 * p + 2 < 2 ^ 11 := by omega
  have hlt2 : 2 ^ 11 * b + (2 ^ 3 * p + 2) < 2 ^ 16 := by omega
  rw [Nat.testBit_mul_pow_two_add 1 hlt2 j]
  by_cases h16 : j < 16
  · rw [if_pos h16, Nat.testBit_mul_pow_two_add b hlt1 j]
    by_cases h11 : j < 11
    · rw [if_pos h11, Nat.testBit_mul_pow_two_add p (by decide : 2 < 2 ^ 3) j]
      by_cases h3 : j < 3
      · rw [if_pos h3]
        interval_cases j <;> simp +decide
      · rw [if_neg h3]
        constructor
        · intro hbit
          exact Or.inr (Or.inl ⟨by omega, by omega, hbit⟩)
        · rintro (h | ⟨_, _, hbit⟩ | ⟨h, _⟩ | h)
          · omega
          · exact hbit
          · omega
          · omega
    · rw [if_neg h11]
      have hb01 : b = 0 ∨ b = 1 := by omega
      rcases hb01 with rfl | rfl
      · simp only [Nat.zero_testBit]
        constructor
        · intro hc; exact Bool.noConfusion hc
        · rintro (h | ⟨_, _, _⟩ | ⟨_, h⟩ | h) <;> omega
      · rw [Nat.testBit_one_eq_true_iff_self_eq_zero]
        constructor
        · intro h; exact Or.inr (Or.inr (Or.inl ⟨by omega, rfl⟩))
        · rintro (h | ⟨_, _, _⟩ | ⟨h, _⟩ | h) <;> omega
  · rw [if_neg h16, Nat.testBit_one_eq_true_iff_self_eq_zero]
    constructor
    · intro h; exact Or.inr (Or.inr (Or.inr (by omega)))
    · rintro (h | ⟨_, _, _⟩ | ⟨h, _⟩ | h) <;> omega

/-- C7.  On a 512 KiB device, for every address, the control-register value
`EraseSector` builds from the bank number `b` and the page number `p`
decodes back to them: the first store is `PER | p << 3 | b << 11` with
disjoint fields, the following OR adds the start bit, and in the final value
bit 1 is set, bits 3..10 hold exactly `p`, bit 11 holds exactly `b`, bit 16
is set and no other bit is set. -/
theorem EraseSector_cr_decodes (st : FlashMem) (adr nb s b p : Nat) (rest : List Nat)
    (hS : st.gFlashSize = 0x80000)
    (hb : b = GetFlashBankNum st (EraseSector_adr adr))
    (hp : p = GetFlashPageNum st (EraseSector_adr adr))
    (h : spinBSY st.srReads = some (nb, s :: rest)) :
    ∃ r st' tail, EraseSector st adr = some (r, st') ∧
      st'.trace = st.trace ++
        [Event.write st.pFlashSR FLASH_PGERR,
         Event.write st.pFlashCR (2 + 8 * p + 2048 * b),
         Event.write st.pFlashCR (2 + 8 * p + 2048 * b + 65536),
         Event.dsb] ++ tail ∧
      st'.CR = 2 + 8 * p + 2048 * b + 65536 ∧
      p ≤ 127 ∧ b ≤ 1 ∧
      st'.CR / 8 % 256 = p ∧ st'.CR / 2048 % 2 = b ∧
      ∀ j, st'.CR.testBit j = true ↔
        j = 1 ∨ (3 ≤ j ∧ j ≤ 10 ∧ p.testBit (j - 3) = true) ∨ (j = 11 ∧ b = 1) ∨ j = 16 := by
  have hb1 : b ≤ 1 := hb ▸ GetFlashBankNum_le_one st _
  have hp1 : p ≤ 127 := hp ▸ pageNum_512_bound st _ hS
  obtain ⟨e1, e2⟩ := EraseSector_cr_eq b p hb1 hp1
  have g1 : EraseSector_cr b p = 2 + 8 * p + 2048 * b := e1.trans (by omega)
  have g2 : EraseSector_cr b p ||| FLASH_CR_STRT = 2 + 8 * p + 2048 * b + 65536 :=
    e2.trans (by omega)
  refine ⟨_, _, if s &&& FLASH_PGERR ≠ 0 then [Event.write st.pFlashSR FLASH_PGERR] else [],
    EraseSector_run st adr nb s rest h, ?_, ?_, hp1, hb1, ?_, ?_, ?_⟩
  · simp only [← hb, ← hp]
    rw [g2, g1]
  · simp only [← hb, ← hp]
    rw [g2]
  · simp only [← hb, ← hp]
    rw [g2]
    omega
  · simp only [← hb, ← hp]
    rw [g2]
    omega
  · intro j
    simp only [← hb, ← hp]
    rw [e2]
    exact testBit_cr_fields b p j hb1 hp1

/-- Witness for C7: the second sector of bank 2 of the 512 KiB device in
dual-bank mode, bank 1 and page 1. -/
theorem EraseSector_cr_decodes_witness :
    ∃ r st' tail,
      EraseSector
        { powerOn FLASH_OPTR_DBANK 512 [0, 0] with gFlashBase := 0x08000000, gFlashSize := 0x80000 }
        0x08040800 = some (r, st') ∧
      st'.trace = [] ++
        [Event.write Reg.NSSR FLASH_PGERR,
         Event.write Reg.NSCR (2 + 8 * 1 + 2048 * 1),
         Event.write Reg.NSCR (2 + 8 * 1 + 2048 * 1 + 65536),
         Event.dsb] ++ tail ∧
      st'.CR = 2 + 8 * 1 + 2048 * 1 + 65536 ∧
      1 ≤ 127 ∧ 1 ≤ 1 ∧
      st'.CR / 8 % 256 = 1 ∧ st'.CR / 2048 % 2 = 1 ∧
      ∀ j, st'.CR.testBit j = true ↔
        j = 1 ∨ (3 ≤ j ∧ j ≤ 10 ∧ Nat.testBit 1 (j - 3) = true) ∨ (j = 11 ∧ 1 = 1) ∨ j = 16 :=
  EraseSector_cr_decodes
    { powerOn FLASH_OPTR_DBANK 512 [0, 0] with gFlashBase := 0x08000000, gFlashSize := 0x80000 }
    0x08040800 0 0 1 1 [] (by decide) (by decide) (by decide) (by decide)

theorem waitBusy_frame (a b : FlashMem) (h : waitBusy a = some b) :
    b.OPTR = a.OPTR ∧ b.FLASHSIZE = a.FLASHSIZE := by
  unfold waitBusy at h
  split at h
  · exact Option.noConfusion h
  · simp only [Option.some.injEq] at h
    rw [← h]
    exact ⟨rfl, rfl⟩

theorem writeReg_frame (a : FlashMem) (r : Reg) (v : Nat) :
    (writeReg a r v).OPTR = a.OPTR ∧ (writeReg a r v).FLASHSIZE = a.FLASHSIZE :=
  ⟨rfl, rfl⟩

theorem DSB_frame (a : FlashMem) : (DSB a).OPTR = a.OPTR ∧ (DSB a).FLASHSIZE = a.FLASHSIZE :=
  ⟨rfl, rfl⟩

/-- The unlock sequence of `Init` leaves the option register and the flash
size register as they are. -/
theorem Init_unlock_frame (st a b : FlashMem) (r : Reg) (k1 k2 : Nat)
    (h : waitBusy (DSB (writeReg (writeReg a r k1) r k2)) = some b)
    (ha : a.OPTR = st.OPTR ∧ a.FLASHSIZE = st.FLASHSIZE) :
    b.OPTR = st.OPTR ∧ b.FLASHSIZE = st.FLASHSIZE := by
  obtain ⟨h1, h2⟩ := waitBusy_frame _ _ h
  rw [(DSB_frame _).1, (writeReg_frame _ _ _).1, (writeReg_frame _ _ _).1] at h1
  rw [(DSB_frame _).2, (writeReg_frame _ _ _).2, (writeReg_frame _ _ _).2] at h2
  exact ⟨h1.trans ha.1, h2.trans ha.2⟩

/-- The call `Init` captures the geometry: the base is the address passed in, the
size is the content of the flash size register in KiB. -/
theorem Init_geometry (st st' : FlashMem) (adr clk fnc r : Nat)
    (h : Init st adr clk fnc = some (r, st')) :
    r = 0 ∧ st'.gFlashBase = adr ∧ st'.gFlashSize = u32 ((st.FLASHSIZE &&& 0x0000FFFF) <<< 10) ∧
      st'.OPTR = st.OPTR := by
  unfold Init at h
  dsimp only at h
  split at h
  · exact Option.noConfusion h
  · rename_i st1 h1
    split at h
    · exact Option.noConfusion h
    · rename_i st2 h2
      simp only [Option.some.injEq, Prod.mk.injEq] at h
      obtain ⟨h0, hst⟩ := h
      obtain ⟨ho2, hf2⟩ := waitBusy_frame _ _ h2
      have h1' : st1.OPTR = st.OPTR ∧ st1.FLASHSIZE = st.FLASHSIZE := by
        split at h1
        · exact Init_unlock_frame st _ _ _ _ _ h1 ⟨rfl, rfl⟩
        · split at h1
          · exact Option.noConfusion h1
          · rename_i st3 h3
            have h3' := Init_unlock_frame st _ _ _ _ _ h3 ⟨rfl, rfl⟩
            split at h1
            · simp only [Option.some.injEq] at h1
              rw [← h1]
              simp only [writeReg_frame]
              exact h3'
            · simp only [Option.some.injEq] at h1
              rw [← h1]
              simp only [writeReg_frame]
              exact h3'
      rw [← hst]
      refine ⟨h0.symm, rfl, ?_, ?_⟩
      · dsimp only
        rw [hf2, h1'.2]
      · dsimp only
        rw [ho2, h1'.1]

/-- On the non-secure descriptor (base `0x08000000`) in dual-bank mode the
bank number `EraseSector` decodes is 1 exactly in the upper half. -/
theorem EraseSector_bank_nonsecure (st : FlashMem) (a : Nat)
    (hB : st.gFlashBase = FlashDevice_512.DevAdr) (hS : st.gFlashSize = FlashDevice_512.szDev)
    (hD : st.OPTR.testBit 22 = true)
    (hlo : FlashDevice_512.DevAdr ≤ a)
    (hhi : a < FlashDevice_512.DevAdr + FlashDevice_512.szDev) :
    GetFlashBankNum st (EraseSector_adr a) = 1 ↔
      FlashDevice_512.DevAdr + FlashDevice_512.szDev / 2 ≤ a := by
  have hdev : FlashDevice_512.DevAdr = 2 ^ 24 * 8 := by decide
  have hsz : FlashDevice_512.szDev = 0x80000 := rfl
  simp only [hdev, hsz] at hlo hhi ⊢
  obtain ⟨x, rfl⟩ : ∃ x, a = 2 ^ 24 * 8 + x := ⟨a - 2 ^ 24 * 8, by omega⟩
  have hx : x < 2 ^ 24 := by omega
  rw [EraseSector_adr_split 8 x hx, GetFlashBankNum_cases, if_pos hD, hB, hS, hdev, hsz]
  have h8 : (8 &&& 8 : Nat) = 8 := by decide
  have hm : add32 (2 ^ 24 * 8) (0x80000 >>> 1) = 2 ^ 24 * 8 + 0x80000 / 2 := by decide
  rw [h8, hm]
  split_ifs with hc
  · exact ⟨fun _ => hc, fun _ => rfl⟩
  · exact ⟨fun h => absurd h (by decide), fun h => absurd h hc⟩

/-- On the secure descriptor (base `0x0C000000`) the bank number
`EraseSector` decodes is 0 for every address of the device: the address is
mapped to the alias at `0x08000000` but compared with the unmapped base. -/
theorem EraseSector_bank_secure (st : FlashMem) (a : Nat)
    (hB : st.gFlashBase = FlashDevice_512_0x0C.DevAdr)
    (hS : st.gFlashSize = FlashDevice_512_0x0C.szDev)
    (hlo : FlashDevice_512_0x0C.DevAdr ≤ a)
    (hhi : a < FlashDevice_512_0x0C.DevAdr + FlashDevice_512_0x0C.szDev) :
    GetFlashBankNum st (EraseSector_adr a) = 0 := by
  have hdev : FlashDevice_512_0x0C.DevAdr = 2 ^ 24 * 12 := by decide
  have hsz : FlashDevice_512_0x0C.szDev = 0x80000 := rfl
  simp only [hdev, hsz] at hlo hhi
  obtain ⟨x, rfl⟩ : ∃ x, a = 2 ^ 24 * 12 + x := ⟨a - 2 ^ 24 * 12, by omega⟩
  have hx : x < 2 ^ 24 := by omega
  rw [EraseSector_adr_split 12 x hx, GetFlashBankNum_cases, hB, hS, hdev, hsz]
  have h8 : (12 &&& 8 : Nat) = 8 := by decide
  have hm : add32 (2 ^ 24 * 12) (0x80000 >>> 1) = 2 ^ 24 * 12 + 0x80000 / 2 := by decide
  rw [h8, hm]
  split_ifs with hd hc
  · omega
  · rfl
  · rfl

/-- C1 (the code at the failing input).  Secure descriptor, dual-bank mode:
after `Init(0x0C000000, ..)` has captured base `0x0C000000` and size
`0x80000`, `EraseSector(0x0C040000)`, an address in the upper half of the
device, stores the control-register values `0x2` and `0x10002`, whose bank
bit (bit 11) is 0. -/
theorem EraseSector_secure_descriptor_bank_bit :
    FlashDevice_512_0x0C.DevAdr + FlashDevice_512_0x0C.szDev / 2 ≤ 0x0C040000 ∧
    0x0C040000 < FlashDevice_512_0x0C.DevAdr + FlashDevice_512_0x0C.szDev ∧
    (Init (powerOn (FLASH_OPTR_TZEN ||| FLASH_OPTR_DBANK) 512 [0, 0, 0, 0])
        FlashDevice_512_0x0C.DevAdr 0 1).map
      (fun r => (r.1, r.2.gFlashBase, r.2.gFlashSize, GetFlashBankMode r.2)) =
      some (0, 0x0C000000, 0x80000, 1) ∧
    (Init (powerOn (FLASH_OPTR_TZEN ||| FLASH_OPTR_DBANK) 512 [0, 0, 0, 0])
        FlashDevice_512_0x0C.DevAdr 0 1).bind
      (fun r => (EraseSector r.2 0x0C040000).map
        (fun q => (q.1, writesTo Reg.SECCR q.2.trace, q.2.CR.testBit 11))) =
      some (0, [0x2, 0x10002], false) := by
  decide

/-! ## Page programming -/

theorem cleanRun_succ (n : Nat) (l rest : List Nat) (h : cleanRun (n + 1) l = some rest) :
    ∃ nb s r, spinBSY l = some (nb, s :: r) ∧ s &&& FLASH_PGERR = 0 ∧
      cleanRun n r = some rest := by
  unfold cleanRun at h
  split at h
  · rename_i nb s r hspin
    by_cases hs : s &&& FLASH_PGERR = 0
    · rw [if_pos hs] at h
      exact ⟨nb, s, r, hspin, hs, h⟩
    · rw [if_neg hs] at h
      exact Option.noConfusion h
  · exact Option.noConfusion h

/-- One iteration of the programming loop without error flag. -/
theorem ProgramPage_while_step (fuel : Nat) (st : FlashMem) (adr sz : Nat) (buf : Nat → Nat)
    (nb s : Nat) (r : List Nat) (hsz : sz ≠ 0)
    (hspin : spinBSY st.srReads = some (nb, s :: r)) (hs : s &&& FLASH_PGERR = 0) :
    ProgramPage_while (fuel + 1) st adr sz buf =
      ProgramPage_while fuel
        { st with SR := s, srReads := r, trace := st.trace ++ chunkEvents adr buf 1 }
        (add32 adr 8) (sub32 sz 8) (fun i => buf (i + 8)) := by
  rw [ProgramPage_while]
  simp only [hsz, ne_eq, not_false_eq_true, if_true, waitBusy, storeM32, DSB, hspin, readSR, hs,
    not_true_eq_false, if_false, chunkEvents, List.append_assoc, List.singleton_append,
    List.cons_append, List.nil_append]

/-- An iteration of the programming loop that finds an error flag. -/
theorem ProgramPage_while_fail (fuel : Nat) (st : FlashMem) (adr sz : Nat) (buf : Nat → Nat)
    (nb s : Nat) (r : List Nat) (hsz : sz ≠ 0)
    (hspin : spinBSY st.srReads = some (nb, s :: r)) (hs : s &&& FLASH_PGERR ≠ 0) :
    ProgramPage_while (fuel + 1) st adr sz buf =
      some (some 1,
        { st with SR := s ^^^ (s &&& FLASH_PGERR), srReads := r,
                  trace := st.trace ++ chunkEvents adr buf 1 ++
                    [Event.write st.pFlashSR FLASH_PGERR] }) := by
  rw [ProgramPage_while]
  simp only [hsz, ne_eq, not_false_eq_true, if_true, waitBusy, storeM32, DSB, hspin, readSR, hs,
    writeSR, chunkEvents, List.append_assoc, List.singleton_append,
    List.cons_append, List.nil_append]

theorem chunkEvents_succ_append (tr : List Event) (adr : Nat) (buf : Nat → Nat) (j : Nat) :
    tr ++ chunkEvents adr buf 1 ++ chunkEvents (add32 adr 8) (fun i => buf (i + 8)) j =
      tr ++ chunkEvents adr buf (j + 1) := by
  simp only [chunkEvents, List.append_assoc, List.cons_append, List.nil_append]

/-- After `j` double-word cycles without error flag the programming loop has
issued the actions of `j` chunks and continues at `adr + 8j` with `8j` bytes
less to go. -/
theorem ProgramPage_while_clean (j : Nat) :
    ∀ (fuel : Nat) (st : FlashMem) (adr n : Nat) (buf : Nat → Nat) (rest : List Nat),
      j ≤ n → 8 * n < 2 ^ 32 → adr < 2 ^ 32 → cleanRun j st.srReads = some rest →
      ∃ sr, ProgramPage_while (fuel + j) st adr (8 * n) buf =
        ProgramPage_while fuel
          { st with SR := sr, srReads := rest, trace := st.trace ++ chunkEvents adr buf j }
          (add32 adr (8 * j)) (8 * (n - j)) (fun i => buf (i + 8 * j)) := by
  induction j with
  | zero =>
    intro fuel st adr n buf rest _ _ hadr hrun
    simp only [cleanRun, Option.some.injEq] at hrun
    refine ⟨st.SR, ?_⟩
    have ha : add32 adr (8 * 0) = adr := by unfold add32; omega
    rw [← hrun, ha]
    simp [chunkEvents]
  | succ j ih =>
    intro fuel st adr n buf rest hjn hn hadr hrun
    obtain ⟨nb, s, r, hspin, hs, hrest⟩ := cleanRun_succ j _ _ hrun
    have hsz : 8 * n ≠ 0 := by omega
    have hsub : sub32 (8 * n) 8 = 8 * (n - 1) := by unfold sub32; omega
    have hadr8 : add32 adr 8 < 2 ^ 32 := Nat.mod_lt _ (by decide)
    obtain ⟨sr, hih⟩ := ih fuel
      { st with SR := s, srReads := r, trace := st.trace ++ chunkEvents adr buf 1 }
      (add32 adr 8) (n - 1) (fun i => buf (i + 8)) rest (by omega) (by omega) hadr8 hrest
    refine ⟨sr, ?_⟩
    have hfuel : fuel + (j + 1) = (fuel + j) + 1 := rfl
    rw [hfuel, ProgramPage_while_step (fuel + j) st adr (8 * n) buf nb s r hsz hspin hs, hsub,
      hih]
    have ha : add32 (add32 adr 8) (8 * j) = add32 adr (8 * (j + 1)) := by
      unfold add32; omega
    have hs8 : 8 * (n - 1 - j) = 8 * (n - (j + 1)) := by omega
    have hbuf : (fun i => buf (i + 8 * j + 8)) = (fun i => buf (i + 8 * (j + 1))) := by
      funext i
      congr 1
    simp only [ha, hs8, hbuf, chunkEvents_succ_append]

theorem chunkEvents_append (j : Nat) :
    ∀ (adr : Nat) (buf : Nat → Nat), adr < 2 ^ 32 →
      chunkEvents adr buf (j + 1) =
        chunkEvents adr buf j ++ chunkEvents (add32 adr (8 * j)) (fun i => buf (i + 8 * j)) 1 := by
  induction j with
  | zero =>
    intro adr buf hadr
    have ha : add32 adr (8 * 0) = adr := by unfold add32; omega
    rw [ha]
    simp [chunkEvents]
  | succ j ih =>
    intro adr buf hadr
    have hadr8 : add32 adr 8 < 2 ^ 32 := Nat.mod_lt _ (by decide)
    have ha : add32 (add32 adr 8) (8 * j) = add32 adr (8 * (j + 1)) := by
      unfold add32; omega
    have hbuf : (fun i => buf (i + 8 * j + 8)) = (fun i => buf (i + 8 * (j + 1))) := by
      funext i
      congr 1
    have h := ih (add32 adr 8) (fun i => buf (i + 8)) hadr8
    simp only [ha, hbuf] at h
    rw [chunkEvents, h]
    simp only [chunkEvents, List.cons_append, List.nil_append]

/-- The programming loop runs to its end when no double-word raises an error
flag. -/
theorem ProgramPage_while_done (fuel n : Nat) (st : FlashMem) (adr : Nat) (buf : Nat → Nat)
    (rest : List Nat) (hfuel : n < fuel) (hn : 8 * n < 2 ^ 32) (hadr : adr < 2 ^ 32)
    (hrun : cleanRun n st.srReads = some rest) :
    ∃ sr, ProgramPage_while fuel st adr (8 * n) buf =
      some (none,
        { st with SR := sr, srReads := rest, trace := st.trace ++ chunkEvents adr buf n }) := by
  obtain ⟨f, rfl⟩ : ∃ f, fuel = (f + 1) + n := ⟨fuel - n - 1, by omega⟩
  obtain ⟨sr, h⟩ := ProgramPage_while_clean n (f + 1) st adr n buf rest (Nat.le_refl n) hn hadr hrun
  refine ⟨sr, ?_⟩
  rw [h, Nat.sub_self, Nat.mul_zero, ProgramPage_while]
  simp

/-- The programming loop returns 1 at the first double-word that raises an
error flag, after the actions of that chunk and the reset of the flags. -/
theorem ProgramPage_while_error (fuel n j : Nat) (st : FlashMem) (adr : Nat) (buf : Nat → Nat)
    (l r : List Nat) (nb s : Nat) (hfuel : j < fuel) (hj : j < n) (hn : 8 * n < 2 ^ 32)
    (hadr : adr < 2 ^ 32) (hrun : cleanRun j st.srReads = some l)
    (hspin : spinBSY l = some (nb, s :: r)) (hs : s &&& FLASH_PGERR ≠ 0) :
    ProgramPage_while fuel st adr (8 * n) buf =
      some (some 1,
        { st with SR := s ^^^ (s &&& FLASH_PGERR), srReads := r,
                  trace := st.trace ++ chunkEvents adr buf (j + 1) ++
                    [Event.write st.pFlashSR FLASH_PGERR] }) := by
  obtain ⟨f, rfl⟩ : ∃ f, fuel = (f + 1) + j := ⟨fuel - j - 1, by omega⟩
  obtain ⟨sr, h⟩ := ProgramPage_while_clean j (f + 1) st adr n buf l (Nat.le_of_lt hj) hn hadr hrun
  have hsz : 8 * (n - j) ≠ 0 := by omega
  rw [h, ProgramPage_while_fail f _ _ _ _ nb s r hsz hspin hs, chunkEvents_append j adr buf hadr]
  simp only [List.append_assoc]

theorem ProgramPage_sz_eq (sz : Nat) :
    ProgramPage_sz sz = 8 * ((sz + 7) % 2 ^ 32 / 8) := by
  unfold ProgramPage_sz add32
  have hx : (sz + 7) % 2 ^ 32 < 2 ^ 32 := Nat.mod_lt _ (by decide)
  generalize (sz + 7) % 2 ^ 32 = x at hx
  have hm : (0xFFFFFFF8 : Nat) = 2 ^ 3 * (2 ^ 29 - 1) + 0 := by decide
  have hsplit : x = 2 ^ 3 * (x / 8) + x % 8 := by omega
  have hq : x / 8 < 2 ^ 29 := by omega
  rw [hm]
  nth_rewrite 1 [hsplit]
  rw [and_split 3 (x / 8) (x % 8) (2 ^ 29 - 1) 0 (by omega) (by decide),
    Nat.and_pow_two_sub_one_eq_mod, Nat.mod_eq_of_lt hq, Nat.and_zero]
  omega

/-- Effect of `ProgramPage` when none of its `n` double-words raises an
error flag. -/
theorem ProgramPage_done (fuel n : Nat) (st : FlashMem) (adr sz : Nat) (buf : Nat → Nat)
    (rest : List Nat) (hn : n = ProgramPage_sz sz / 8) (hfuel : n < fuel) (hadr : adr < 2 ^ 32)
    (hrun : cleanRun n st.srReads = some rest) :
    ∃ sr, ProgramPage fuel st adr sz buf =
      some (0,
        { st with
          CR := 0, SR := sr, srReads := rest
          trace := st.trace ++
            [Event.write st.pFlashSR FLASH_PGERR, Event.write st.pFlashCR FLASH_CR_PG] ++
            chunkEvents adr buf n ++ [Event.write st.pFlashCR 0] }) := by
  have hsz : ProgramPage_sz sz = 8 * n := by rw [hn, ProgramPage_sz_eq]; omega
  have hlt : 8 * n < 2 ^ 32 := by rw [← hsz, ProgramPage_sz_eq]; omega
  obtain ⟨sr, h⟩ := ProgramPage_while_done fuel n (writeCR (writeSR st FLASH_PGERR) FLASH_CR_PG)
    adr buf rest hfuel hlt hadr hrun
  refine ⟨sr, ?_⟩
  unfold ProgramPage
  dsimp only
  rw [hsz, h]
  simp only [writeCR, writeSR, List.append_assoc, List.cons_append, List.nil_append]

/-- Effect of `ProgramPage` when double-word `j` is the first to raise an
error flag. -/
theorem ProgramPage_error (fuel n j : Nat) (st : FlashMem) (adr sz : Nat) (buf : Nat → Nat)
    (l r : List Nat) (nb s : Nat) (hn : n = ProgramPage_sz sz / 8) (hfuel : j < fuel)
    (hj : j < n) (hadr : adr < 2 ^ 32) (hrun : cleanRun j st.srReads = some l)
    (hspin : spinBSY l = some (nb, s :: r)) (hs : s &&& FLASH_PGERR ≠ 0) :
    ProgramPage fuel st adr sz buf =
      some (1,
        { st with
          CR := FLASH_CR_PG, SR := s ^^^ (s &&& FLASH_PGERR), srReads := r
          trace := st.trace ++
            [Event.write st.pFlashSR FLASH_PGERR, Event.write st.pFlashCR FLASH_CR_PG] ++
            chunkEvents adr buf (j + 1) ++ [Event.write st.pFlashSR FLASH_PGERR] }) := by
  have hsz : ProgramPage_sz sz = 8 * n := by rw [hn, ProgramPage_sz_eq]; omega
  have hlt : 8 * n < 2 ^ 32 := by rw [← hsz, ProgramPage_sz_eq]; omega
  have h := ProgramPage_while_error fuel n j (writeCR (writeSR st FLASH_PGERR) FLASH_CR_PG)
    adr buf l r nb s hfuel hj hlt hadr hrun hspin hs
  unfold ProgramPage
  dsimp only
  rw [hsz, h]
  simp only [writeCR, writeSR, List.append_assoc, List.cons_append, List.nil_append]

/-! ### Memory stores of a run -/

theorem storesOf_append (a b : List Event) : storesOf (a ++ b) = storesOf a ++ storesOf b := by
  induction a with
  | nil => rfl
  | cons e t ih =>
    cases e with
    | write r v => simpa [storesOf] using ih
    | store x v => simpa [storesOf] using ih
    | dsb => simpa [storesOf] using ih

theorem storesOf_chunkEvents_succ (adr : Nat) (buf : Nat → Nat) (n : Nat) :
    storesOf (chunkEvents adr buf (n + 1)) =
      (adr, word32 buf 0) :: (add32 adr 4, word32 buf 4) ::
        storesOf (chunkEvents (add32 adr 8) (fun i => buf (i + 8)) n) := by
  simp [chunkEvents, storesOf]

theorem storesOf_chunkEvents_length (n : Nat) :
    ∀ (adr : Nat) (buf : Nat → Nat), (storesOf (chunkEvents adr buf n)).length = 2 * n := by
  induction n with
  | zero => intro adr buf; rfl
  | succ n ih =>
    intro adr buf
    rw [storesOf_chunkEvents_succ, List.length_cons, List.length_cons, ih]
    omega

theorem word32_shift (buf : Nat → Nat) (i : Nat) :
    word32 (fun x => buf (x + 8)) i = word32 buf (i + 8) := by
  unfold word32 byteAt
  have e1 : i + 1 + 8 = i + 8 + 1 := by omega
  have e2 : i + 2 + 8 = i + 8 + 2 := by omega
  have e3 : i + 3 + 8 = i + 8 + 3 := by omega
  simp only [e1, e2, e3]

/-- The little-endian composition of four bytes as a sum. -/
theorem word32_eq_sum (buf : Nat → Nat) (hbuf : ∀ i, buf i < 256) (i : Nat) :
    word32 buf i =
      buf i + 2 ^ 8 * buf (i + 1) + 2 ^ 16 * buf (i + 2) + 2 ^ 24 * buf (i + 3) := by
  have h0 := hbuf i
  have h1 := hbuf (i + 1)
  have h2 := hbuf (i + 2)
  have h3 := hbuf (i + 3)
  unfold word32 byteAt u32
  rw [Nat.mod_eq_of_lt h0, Nat.mod_eq_of_lt h1, Nat.mod_eq_of_lt h2, Nat.mod_eq_of_lt h3]
  have e1 : (buf i ||| buf (i + 1) <<< 8) = 2 ^ 8 * buf (i + 1) + buf i := by
    rw [Nat.shiftLeft_eq, Nat.or_comm, Nat.mul_comm,
      ← Nat.mul_add_lt_is_or (by omega : buf i < 2 ^ 8) (buf (i + 1))]
  have e2 : (2 ^ 8 * buf (i + 1) + buf i ||| buf (i + 2) <<< 16) =
      2 ^ 16 * buf (i + 2) + (2 ^ 8 * buf (i + 1) + buf i) := by
    rw [Nat.shiftLeft_eq, Nat.or_comm, Nat.mul_comm,
      ← Nat.mul_add_lt_is_or (by omega : 2 ^ 8 * buf (i + 1) + buf i < 2 ^ 16) (buf (i + 2))]
  have e3 : (2 ^ 16 * buf (i + 2) + (2 ^ 8 * buf (i + 1) + buf i) ||| buf (i + 3) <<< 24) =
      2 ^ 24 * buf (i + 3) + (2 ^ 16 * buf (i + 2) + (2 ^ 8 * buf (i + 1) + buf i)) := by
    rw [Nat.shiftLeft_eq, Nat.or_comm, Nat.mul_comm,
      ← Nat.mul_add_lt_is_or
        (by omega : 2 ^ 16 * buf (i + 2) + (2 ^ 8 * buf (i + 1) + buf i) < 2 ^ 24) (buf (i + 3))]
  rw [e1, e2, e3]
  omega

theorem storesOf_chunkEvents_get (n : Nat) :
    ∀ (adr : Nat) (buf : Nat → Nat) (k : Nat), adr < 2 ^ 32 → k < n →
      (storesOf (chunkEvents adr buf n))[2 * k]? =
        some ((adr + 8 * k) % 2 ^ 32, word32 buf (8 * k)) ∧
      (storesOf (chunkEvents adr buf n))[2 * k + 1]? =
        some ((adr + 8 * k + 4) % 2 ^ 32, word32 buf (8 * k + 4)) := by
  induction n with
  | zero => intro adr buf k _ hk; omega
  | succ n ih =>
    intro adr buf k hadr hk
    rw [storesOf_chunkEvents_succ]
    cases k with
    | zero =>
      have ha : (adr + 8 * 0) % 2 ^ 32 = adr := by omega
      have hb : (adr + 8 * 0 + 4) % 2 ^ 32 = add32 adr 4 := by unfold add32; omega
      rw [ha, hb]
      exact ⟨by simp, by simp⟩
    | succ k =>
      have hadr8 : add32 adr 8 < 2 ^ 32 := Nat.mod_lt _ (by decide)
      obtain ⟨h1, h2⟩ := ih (add32 adr 8) (fun i => buf (i + 8)) k hadr8 (by omega)
      rw [word32_shift] at h1 h2
      have ha : (add32 adr 8 + 8 * k) % 2 ^ 32 = (adr + 8 * (k + 1)) % 2 ^ 32 := by
        unfold add32; omega
      have hb : (add32 adr 8 + 8 * k + 4) % 2 ^ 32 = (adr + 8 * (k + 1) + 4) % 2 ^ 32 := by
        unfold add32; omega
      have hi1 : 2 * (k + 1) = 2 * k + 1 + 1 := by omega
      have hw1 : 8 * k + 8 = 8 * (k + 1) := by omega
      have hw2 : 8 * k + 4 + 8 = 8 * (k + 1) + 4 := by omega
      rw [ha, hw1] at h1
      rw [hb, hw2] at h2
      rw [hi1, List.getElem?_cons_succ, List.getElem?_cons_succ, List.getElem?_cons_succ,
        List.getElem?_cons_succ]
      exact ⟨h1, h2⟩

theorem storeWord_other (mem : Nat → Nat) (a w x : Nat)
    (h : ∀ j, j < 4 → x ≠ (a + j) % 2 ^ 32) : storeWord mem a w x = mem x := by
  have h0 : x ≠ a % 2 ^ 32 := h 0 (by decide)
  have h1 := h 1 (by decide)
  have h2 := h 2 (by decide)
  have h3 := h 3 (by decide)
  unfold storeWord
  rw [if_neg h3, if_neg h2, if_neg h1, if_neg h0]

theorem storeWord_byte (mem : Nat → Nat) (a w j : Nat) (hj : j < 4) :
    storeWord mem a w ((a + j) % 2 ^ 32) = w / 2 ^ (8 * j) % 256 := by
  unfold storeWord
  interval_cases j
  · rw [if_neg (by omega), if_neg (by omega), if_neg (by omega), if_pos (by omega)]
    simp
  · rw [if_neg (by omega), if_neg (by omega), if_pos rfl]
  · rw [if_neg (by omega), if_pos rfl]
  · rw [if_pos rfl]

theorem applyStores_untouched (n : Nat) :
    ∀ (adr : Nat) (buf : Nat → Nat) (mem : Nat → Nat) (x : Nat),
      (∀ t, t < 8 * n → x ≠ (adr + t) % 2 ^ 32) →
      applyStores mem (storesOf (chunkEvents adr buf n)) x = mem x := by
  induction n with
  | zero => intro adr buf mem x _; rfl
  | succ n ih =>
    intro adr buf mem x hx
    rw [storesOf_chunkEvents_succ]
    simp only [applyStores]
    rw [ih (add32 adr 8) (fun i => buf (i + 8)) _ x ?_, storeWord_other _ _ _ _ ?_,
      storeWord_other _ _ _ _ ?_]
    · intro j hj
      exact hx j (by omega)
    · intro j hj
      have h := hx (j + 4) (by omega)
      unfold add32
      omega
    · intro t ht
      have h := hx (t + 8) (by omega)
      unfold add32
      omega

/-- Byte `j` of the little-endian composition of four bytes. -/
theorem word32_byte (buf : Nat → Nat) (hbuf : ∀ i, buf i < 256) (i j : Nat) (hj : j < 4) :
    word32 buf i / 2 ^ (8 * j) % 256 = buf (i + j) := by
  have h0 := hbuf i
  have h1 := hbuf (i + 1)
  have h2 := hbuf (i + 2)
  have h3 := hbuf (i + 3)
  rw [word32_eq_sum buf hbuf i]
  interval_cases j
  · simp only [Nat.mul_zero, Nat.pow_zero, Nat.div_one, Nat.add_zero]
    omega
  · omega
  · omega
  · omega

/-- After the stores of `n` chunks, a little-endian memory holds `buf[i]`
at `adr + i` for every programmed `i`. -/
theorem applyStores_chunkEvents (n : Nat) :
    ∀ (adr : Nat) (buf : Nat → Nat) (mem : Nat → Nat) (i : Nat),
      (∀ i, buf i < 256) → 8 * n ≤ 2 ^ 32 → i < 8 * n →
      applyStores mem (storesOf (chunkEvents adr buf n)) ((adr + i) % 2 ^ 32) = buf i := by
  induction n with
  | zero => intro adr buf mem i _ _ hi; omega
  | succ n ih =>
    intro adr buf mem i hbuf hn hi
    rw [storesOf_chunkEvents_succ]
    simp only [applyStores]
    by_cases h8 : 8 ≤ i
    · have hx : (adr + i) % 2 ^ 32 = (add32 adr 8 + (i - 8)) % 2 ^ 32 := by
        unfold add32; omega
      rw [hx, ih (add32 adr 8) (fun i => buf (i + 8)) _ (i - 8) (fun i => hbuf _) (by omega)
        (by omega)]
      show buf (i - 8 + 8) = buf i
      rw [Nat.sub_add_cancel h8]
    · rw [applyStores_untouched n (add32 adr 8) _ _ _ ?_]
      · by_cases h4 : 4 ≤ i
        · have hx : (adr + i) % 2 ^ 32 = (add32 adr 4 + (i - 4)) % 2 ^ 32 := by
            unfold add32; omega
          rw [hx, storeWord_byte _ _ _ (i - 4) (by omega),
            word32_byte buf hbuf 4 (i - 4) (by omega)]
          congr 1
          omega
        · rw [storeWord_other _ _ _ _ ?_, storeWord_byte _ _ _ i (by omega),
            word32_byte buf hbuf 0 i (by omega), Nat.zero_add]
          intro j hj
          unfold add32
          omega
      · intro t ht
        unfold add32
        omega

/-- The stores of `m` chunks of the programming loop are little-endian. -/
theorem chunkEvents_littleEndian (m adr : Nat) (buf : Nat → Nat) (hadr : adr < 2 ^ 32)
    (hbuf : ∀ i, buf i < 256) (hm : 8 * m ≤ 2 ^ 32) :
    LittleEndianStores adr buf m (storesOf (chunkEvents adr buf m)) := by
  refine ⟨storesOf_chunkEvents_length m adr buf, ?_, ?_⟩
  · intro k hk
    obtain ⟨h1, h2⟩ := storesOf_chunkEvents_get m adr buf k hadr hk
    rw [word32_eq_sum buf hbuf] at h1 h2
    exact ⟨h1, h2⟩
  · intro mem i hi
    exact applyStores_chunkEvents m adr buf mem i hbuf hm hi

theorem storesOf_run (tr ce : List Event) (a b c : Reg) (x y z : Nat) :
    storesOf (tr ++ [Event.write a x, Event.write b y] ++ ce ++ [Event.write c z]) =
      storesOf tr ++ storesOf ce := by
  simp [storesOf_append, storesOf]

theorem ProgramPage_sz_of_le (sz : Nat) (hsz : sz ≤ 0xFFFFFFF8) :
    ProgramPage_sz sz = 8 * ((sz + 7) / 8) := by
  rw [ProgramPage_sz_eq, Nat.mod_eq_of_lt (by omega)]

/-- C8 (amended).  For every size `sz ≤ 0xFFFFFFF8` (so that `sz + 7` does not
wrap in 32 bits) the adjusted size `(sz + 7) & ~7` is the smallest multiple
of 8 that is at least `sz`, and when no double-word raises an error flag
`ProgramPage` returns 0 after storing exactly `⌈sz / 8⌉` double-words (two
word stores each). -/
theorem ProgramPage_rounds_size_up (sz : Nat) (hsz : sz ≤ 0xFFFFFFF8) :
    8 ∣ ProgramPage_sz sz ∧ sz ≤ ProgramPage_sz sz ∧
    (∀ m, 8 ∣ m → sz ≤ m → ProgramPage_sz sz ≤ m) ∧
    ∀ (fuel : Nat) (st : FlashMem) (adr : Nat) (buf : Nat → Nat) (rest : List Nat),
      adr < 2 ^ 32 → (sz + 7) / 8 < fuel → cleanRun ((sz + 7) / 8) st.srReads = some rest →
      ∃ st', ProgramPage fuel st adr sz buf = some (0, st') ∧ st'.srReads = rest ∧
        (storesOf st'.trace).length = (storesOf st.trace).length + 2 * ((sz + 7) / 8) := by
  have he := ProgramPage_sz_of_le sz hsz
  refine ⟨⟨(sz + 7) / 8, he⟩, by omega, ?_, ?_⟩
  · rintro m ⟨c, rfl⟩ hm
    omega
  · intro fuel st adr buf rest hadr hfuel hrun
    have hn : (sz + 7) / 8 = ProgramPage_sz sz / 8 := by omega
    obtain ⟨sr, h⟩ := ProgramPage_done fuel ((sz + 7) / 8) st adr sz buf rest hn hfuel hadr hrun
    refine ⟨_, h, rfl, ?_⟩
    dsimp only
    rw [storesOf_run, List.length_append, storesOf_chunkEvents_length]

/-- Witness for C8: 12 bytes are rounded up to 16 and programmed as two
double-words. -/
theorem ProgramPage_rounds_size_up_witness :
    ProgramPage_sz 12 = 16 ∧ 8 ∣ ProgramPage_sz 12 ∧ 12 ≤ ProgramPage_sz 12 ∧
    ∃ st', ProgramPage 3 (powerOn FLASH_OPTR_DBANK 512 [0x10000, 0, 0, 0, 0]) 0x08000000 12
        (fun i => i % 256) = some (0, st') ∧ st'.srReads = [] ∧
      (storesOf st'.trace).length =
        (storesOf (powerOn FLASH_OPTR_DBANK 512 [0x10000, 0, 0, 0, 0]).trace).length +
          2 * ((12 + 7) / 8) :=
  ⟨by decide, (ProgramPage_rounds_size_up 12 (by decide)).1,
    (ProgramPage_rounds_size_up 12 (by decide)).2.1,
    (ProgramPage_rounds_size_up 12 (by decide)).2.2.2 3
      (powerOn FLASH_OPTR_DBANK 512 [0x10000, 0, 0, 0, 0]) 0x08000000 (fun i => i % 256) []
      (by decide) (by decide) (by decide)⟩

/-- C8 (counterexample).  For the 32-bit size `0xFFFFFFFF` the sum `sz + 7`
wraps: the adjusted size is 0, which is smaller than `sz`, and `ProgramPage`
returns 0 without storing any of the `⌈sz / 8⌉ = 0x20000000` double-words. -/
theorem ProgramPage_size_wraps :
    ProgramPage_sz 0xFFFFFFFF = 0 ∧ ¬ (0xFFFFFFFF ≤ ProgramPage_sz 0xFFFFFFFF) ∧
    (0xFFFFFFFF + 7) / 8 = 0x20000000 ∧
    (ProgramPage 1 (powerOn FLASH_OPTR_DBANK 512 []) 0x08000000 0xFFFFFFFF (fun _ => 0)).map
      (fun r => (r.1, storesOf r.2.trace)) = some (0, []) := by
  decide

/-- C9.  `ProgramPage` composes each double-word little-endian.  For every
buffer of bytes: when no double-word raises an error flag, the call returns
0 and its word stores are those of all `ProgramPage_sz sz / 8` chunks, chunk
`k` storing `buf[8k] + 2^8 buf[8k+1] + 2^16 buf[8k+2] + 2^24 buf[8k+3]` at
`adr + 8k` and the same composition of `buf[8k+4..8k+7]` at `adr + 8k + 4`, so
that a little-endian memory holds `buf[i]` at `adr + i` for every programmed
`i`; when chunk `j` is the first to raise an error flag, the same holds for
the `j + 1` chunks stored before the call returns 1. -/
theorem ProgramPage_little_endian (fuel : Nat) (st : FlashMem) (adr sz : Nat) (buf : Nat → Nat)
    (hadr : adr < 2 ^ 32) (hbuf : ∀ i, buf i < 256) :
    (∀ rest, ProgramPage_sz sz / 8 < fuel →
      cleanRun (ProgramPage_sz sz / 8) st.srReads = some rest →
      ∃ st' ws, ProgramPage fuel st adr sz buf = some (0, st') ∧
        storesOf st'.trace = storesOf st.trace ++ ws ∧
        LittleEndianStores adr buf (ProgramPage_sz sz / 8) ws) ∧
    (∀ j l nb s r, j < ProgramPage_sz sz / 8 → j < fuel →
      cleanRun j st.srReads = some l → spinBSY l = some (nb, s :: r) →
      hasErrorFlag s = true →
      ∃ st' ws, ProgramPage fuel st adr sz buf = some (1, st') ∧
        storesOf st'.trace = storesOf st.trace ++ ws ∧
        LittleEndianStores adr buf (j + 1) ws) := by
  have hlt : 8 * (ProgramPage_sz sz / 8) < 2 ^ 32 := by rw [ProgramPage_sz_eq]; omega
  constructor
  · intro rest hfuel hrun
    obtain ⟨sr, h⟩ := ProgramPage_done fuel _ st adr sz buf rest rfl hfuel hadr hrun
    refine ⟨_, _, h, ?_, chunkEvents_littleEndian _ adr buf hadr hbuf (by omega)⟩
    dsimp only
    rw [storesOf_run]
  · intro j l nb s r hj hfuel hrun hspin hs
    have h := ProgramPage_error fuel _ j st adr sz buf l r nb s rfl hfuel hj hadr hrun hspin
      ((and_PGERR_ne_zero_iff s).mpr hs)
    refine ⟨_, _, h, ?_, chunkEvents_littleEndian _ adr buf hadr hbuf (by omega)⟩
    dsimp only
    rw [storesOf_run]

/-- C10.  If the status register read after the busy-wait of double-word `j`
is the first to have an error flag of `FLASH_PGERR` set, `ProgramPage`
returns 1, has stored the double-words `0..j` and none after, ends with the
store of `FLASH_PGERR` to the status register and leaves its error flags
cleared; if no double-word raises an error flag it returns 0. -/
theorem ProgramPage_error_flag (fuel : Nat) (st : FlashMem) (adr sz : Nat) (buf : Nat → Nat)
    (hadr : adr < 2 ^ 32) :
    (∀ j l nb s r, j < ProgramPage_sz sz / 8 → j < fuel →
      cleanRun j st.srReads = some l → spinBSY l = some (nb, s :: r) →
      hasErrorFlag s = true →
      ∃ st', ProgramPage fuel st adr sz buf = some (1, st') ∧
        storesOf st'.trace = storesOf st.trace ++ storesOf (chunkEvents adr buf (j + 1)) ∧
        (storesOf st'.trace).length = (storesOf st.trace).length + 2 * (j + 1) ∧
        st'.trace.getLast? = some (Event.write st.pFlashSR FLASH_PGERR) ∧
        st'.SR &&& FLASH_PGERR = 0 ∧ st'.srReads = r) ∧
    (∀ rest, ProgramPage_sz sz / 8 < fuel →
      cleanRun (ProgramPage_sz sz / 8) st.srReads = some rest →
      ∃ st', ProgramPage fuel st adr sz buf = some (0, st') ∧ st'.srReads = rest) := by
  constructor
  · intro j l nb s r hj hfuel hrun hspin hs
    have h := ProgramPage_error fuel _ j st adr sz buf l r nb s rfl hfuel hj hadr hrun hspin
      ((and_PGERR_ne_zero_iff s).mpr hs)
    refine ⟨_, h, ?_, ?_, List.getLast?_concat _, xor_and_self_and s FLASH_PGERR, rfl⟩
    · dsimp only
      rw [storesOf_run]
    · dsimp only
      rw [storesOf_run, List.length_append, storesOf_chunkEvents_length]
  · intro rest hfuel hrun
    obtain ⟨sr, h⟩ := ProgramPage_done fuel _ st adr sz buf rest rfl hfuel hadr hrun
    exact ⟨_, h, rfl⟩

/-- Witness for C9: 16 bytes `0, 1, ..., 15` programmed at `0x08000000`
without error flag. -/
theorem ProgramPage_little_endian_witness :
    ∃ st' ws,
      ProgramPage 3 (powerOn FLASH_OPTR_DBANK 512 [0, 0, 0, 0]) 0x08000000 16
        (fun i => i % 256) = some (0, st') ∧
      storesOf st'.trace = storesOf (powerOn FLASH_OPTR_DBANK 512 [0, 0, 0, 0]).trace ++ ws ∧
      LittleEndianStores 0x08000000 (fun i => i % 256) (ProgramPage_sz 16 / 8) ws :=
  (ProgramPage_little_endian 3 (powerOn FLASH_OPTR_DBANK 512 [0, 0, 0, 0]) 0x08000000 16
    (fun i => i % 256) (by decide) (fun i => Nat.mod_lt i (by decide))).1 []
    (by decide) (by decide)

/-- Witness for C10: three double-words, PROGERR (bit 3) raised by the
second one after one busy read. -/
theorem ProgramPage_error_flag_witness :
    ∃ st',
      ProgramPage 4 (powerOn FLASH_OPTR_DBANK 512 [0, 0, 0x10000, 0, FLASH_SR_PROGERR])
        0x08000000 24 (fun i => i % 256) = some (1, st') ∧
      storesOf st'.trace =
        storesOf (powerOn FLASH_OPTR_DBANK 512 [0, 0, 0x10000, 0, FLASH_SR_PROGERR]).trace ++
          storesOf (chunkEvents 0x08000000 (fun i => i % 256) (1 + 1)) ∧
      (storesOf st'.trace).length =
        (storesOf (powerOn FLASH_OPTR_DBANK 512
          [0, 0, 0x10000, 0, FLASH_SR_PROGERR]).trace).length + 2 * (1 + 1) ∧
      st'.trace.getLast? = some (Event.write Reg.NSSR FLASH_PGERR) ∧
      st'.SR &&& FLASH_PGERR = 0 ∧ st'.srReads = [] :=
  (ProgramPage_error_flag 4 (powerOn FLASH_OPTR_DBANK 512 [0, 0, 0x10000, 0, FLASH_SR_PROGERR])
    0x08000000 24 (fun i => i % 256) (by decide)).1 1 [0x10000, 0, FLASH_SR_PROGERR] 0
    FLASH_SR_PROGERR [] (by decide) (by decide) (by decide) (by decide) (by decide)

/-! ## Mass erase -/

theorem testBit_0x18004 (j : Nat) :
    (0x18004 : Nat).testBit j = true ↔ j = 2 ∨ j = 15 ∨ j = 16 := by
  by_cases h : j < 17
  · interval_cases j <;> simp +decide
  · have hlt : (0x18004 : Nat) < 2 ^ j :=
      Nat.lt_of_lt_of_le (by decide : (0x18004 : Nat) < 2 ^ 17)
        (Nat.pow_le_pow_right (by decide) (by omega))
    rw [Nat.testBit_lt_two_pow hlt]
    constructor
    · intro hc; exact Bool.noConfusion hc
    · rintro (h1 | h1 | h1) <;> omega

/-- Effect of the mass erase when the busy-wait ends on the status value
`nb`. -/
theorem EraseChip_run (st : FlashMem) (nb : Nat) (rest : List Nat)
    (h : spinBSY st.srReads = some (nb, rest)) :
    EraseChip st =
      some (0,
        { st with
          CR := FLASH_CR_MER1 ||| FLASH_CR_MER2 ||| FLASH_CR_STRT
          SR := nb
          srReads := rest
          trace := st.trace ++
            [Event.write st.pFlashSR FLASH_PGERR,
             Event.write st.pFlashCR (FLASH_CR_MER1 ||| FLASH_CR_MER2),
             Event.write st.pFlashCR (FLASH_CR_MER1 ||| FLASH_CR_MER2 ||| FLASH_CR_STRT),
             Event.dsb] }) := by
  unfold EraseChip
  simp only [waitBusy, writeSR, writeCR, DSB, h, List.append_assoc, List.singleton_append,
    List.cons_append, List.nil_append]

/-- C19.  `EraseChip` of the internal flash returns 0 whatever the status
register holds when the busy-wait ends (`nb`, error flags included) and
whatever it would read afterwards; the control register it leaves behind is
exactly `MER1 | MER2 | STRT`, bits 2, 15 and 16. -/
theorem EraseChip_returns_zero (st : FlashMem) (nb : Nat) (rest : List Nat)
    (h : spinBSY st.srReads = some (nb, rest)) :
    ∃ st', EraseChip st = some (0, st') ∧ st'.SR = nb ∧ st'.srReads = rest ∧
      st'.CR = FLASH_CR_MER1 ||| FLASH_CR_MER2 ||| FLASH_CR_STRT ∧
      st'.trace = st.trace ++
        [Event.write st.pFlashSR FLASH_PGERR,
         Event.write st.pFlashCR (FLASH_CR_MER1 ||| FLASH_CR_MER2),
         Event.write st.pFlashCR (FLASH_CR_MER1 ||| FLASH_CR_MER2 ||| FLASH_CR_STRT),
         Event.dsb] ∧
      ∀ j, st'.CR.testBit j = true ↔ j = 2 ∨ j = 15 ∨ j = 16 := by
  refine ⟨_, EraseChip_run st nb rest h, rfl, rfl, rfl, rfl, ?_⟩
  intro j
  have hc : FLASH_CR_MER1 ||| FLASH_CR_MER2 ||| FLASH_CR_STRT = 0x18004 := by decide
  dsimp only
  rw [hc]
  exact testBit_0x18004 j

/-- Witness for C19: one busy read, then a status with PROGERR and WRPERR
set. -/
theorem EraseChip_returns_zero_witness :
    hasErrorFlag 0x18 = true ∧
    ∃ st', EraseChip (powerOn FLASH_OPTR_DBANK 512 [0x10000, 0x18, 0x18]) = some (0, st') ∧
      st'.SR = 0x18 ∧ st'.srReads = [0x18] ∧
      st'.CR = FLASH_CR_MER1 ||| FLASH_CR_MER2 ||| FLASH_CR_STRT ∧
      st'.trace = [] ++
        [Event.write Reg.NSSR FLASH_PGERR,
         Event.write Reg.NSCR (FLASH_CR_MER1 ||| FLASH_CR_MER2),
         Event.write Reg.NSCR (FLASH_CR_MER1 ||| FLASH_CR_MER2 ||| FLASH_CR_STRT),
         Event.dsb] ∧
      ∀ j, st'.CR.testBit j = true ↔ j = 2 ∨ j = 15 ∨ j = 16 :=
  ⟨by decide,
    EraseChip_returns_zero (powerOn FLASH_OPTR_DBANK 512 [0x10000, 0x18, 0x18]) 0x18 [0x18]
      (by decide)⟩

/-! ## Shared erase page in single-bank mode -/

theorem EraseSector_adr_and_7FFFF (a : Nat) : EraseSector_adr a &&& 0x7FFFF = a % 2 ^ 19 := by
  unfold EraseSector_adr
  have hm : (0x08FFFFFF &&& 0x7FFFF : Nat) = 2 ^ 19 - 1 := by decide
  rw [Nat.and_assoc, hm, Nat.and_pow_two_sub_one_eq_mod]

/-- In single-bank mode on a 512 KiB geometry the page number `EraseSector`
decodes is bits 12..18 of the address. -/
theorem EraseSector_page_single (st : FlashMem) (a : Nat) (hS : st.gFlashSize = 0x80000)
    (hD : st.OPTR.testBit 22 = false) :
    GetFlashPageNum st (EraseSector_adr a) = a % 2 ^ 19 / 4096 ∧
    GetFlashBankNum st (EraseSector_adr a) = 0 := by
  constructor
  · rw [GetFlashPageNum_cases, if_neg (by simp [hD]), hS]
    have h2 : sub32 0x80000 1 = 0x7FFFF := by decide
    rw [h2, EraseSector_adr_and_7FFFF, Nat.shiftRight_eq_div_pow]
  · rw [GetFlashBankNum_cases, if_neg (by simp [hD])]

/-- C20.  Single-bank mode (DBANK clear) on the 512 KiB device: for every
4 KiB-aligned address `a` of either descriptor, `EraseSector(a)` and
`EraseSector(a + 0x800)`, the two neighbouring 2 KiB descriptor sectors,
decode the same page number `(a mod 2^19) / 4096` and bank 0, store the same
control-register values and behave identically. -/
theorem EraseSector_single_bank_shared_page (st : FlashMem) (a : Nat)
    (hS : st.gFlashSize = 0x80000) (hD : st.OPTR.testBit 22 = false) (ha : 4096 ∣ a) :
    GetFlashPageNum st (EraseSector_adr (a + 0x800)) = GetFlashPageNum st (EraseSector_adr a) ∧
    GetFlashPageNum st (EraseSector_adr a) = a % 2 ^ 19 / 4096 ∧
    GetFlashBankNum st (EraseSector_adr (a + 0x800)) = 0 ∧
    GetFlashBankNum st (EraseSector_adr a) = 0 ∧
    EraseSector st (a + 0x800) = EraseSector st a ∧
    ∀ nb s rest, spinBSY st.srReads = some (nb, s :: rest) →
      ∃ r st', EraseSector st (a + 0x800) = some (r, st') ∧ EraseSector st a = some (r, st') ∧
        st'.CR = 2 + 8 * (a % 2 ^ 19 / 4096) + 65536 := by
  obtain ⟨p1, b1⟩ := EraseSector_page_single st a hS hD
  obtain ⟨p2, b2⟩ := EraseSector_page_single st (a + 0x800) hS hD
  have hp : (a + 0x800) % 2 ^ 19 / 4096 = a % 2 ^ 19 / 4096 := by
    obtain ⟨c, rfl⟩ := ha
    omega
  have hpp : GetFlashPageNum st (EraseSector_adr (a + 0x800)) =
      GetFlashPageNum st (EraseSector_adr a) := by rw [p1, p2, hp]
  have heq : EraseSector st (a + 0x800) = EraseSector st a := by
    unfold EraseSector
    simp only [hpp, b1, b2]
  refine ⟨hpp, p1, b2, b1, heq, ?_⟩
  intro nb s rest hrd
  refine ⟨_, _, heq.trans (EraseSector_run st a nb s rest hrd), EraseSector_run st a nb s rest hrd,
    ?_⟩
  have hle : a % 2 ^ 19 / 4096 ≤ 127 := by omega
  obtain ⟨-, e2⟩ := EraseSector_cr_eq 0 (a % 2 ^ 19 / 4096) (by decide) hle
  dsimp only
  rw [p1, b1, e2]
  omega

/-- Witness for C20: the sectors at `0x08001000` and `0x08001800` of the
non-secure descriptor share page 1. -/
theorem EraseSector_single_bank_shared_page_witness :
    FlashDevice_512.DevAdr ≤ 0x08001000 ∧
    0x08001000 + 0x800 < FlashDevice_512.DevAdr + FlashDevice_512.szDev ∧
    FlashDevice_512.szSector = 0x800 ∧
    EraseSector
      { powerOn 0 512 [0, 0] with gFlashBase := 0x08000000, gFlashSize := 0x80000 }
      (0x08001000 + 0x800) =
    EraseSector
      { powerOn 0 512 [0, 0] with gFlashBase := 0x08000000, gFlashSize := 0x80000 }
      0x08001000 :=
  ⟨by decide, by decide, by decide,
    (EraseSector_single_bank_shared_page
      { powerOn 0 512 [0, 0] with gFlashBase := 0x08000000, gFlashSize := 0x80000 }
      0x08001000 (by decide) (by decide) (by decide)).2.2.2.2.1⟩

/-! ## Option bytes -/

theorem and_TZEN_ne_zero_iff (x : Nat) : x &&& FLASH_OPTR_TZEN ≠ 0 ↔ x.testBit 31 = true := by
  have h : FLASH_OPTR_TZEN = 2 ^ 31 := by decide
  rw [h]
  exact and_two_pow_ne_zero_iff x 31

theorem Opt_GetFlashSecureMode_eq (st : FlashOpt) :
    Opt.GetFlashSecureMode st = if (st.regs OptReg.OPTR).testBit 31 = true then 1 else 0 := by
  unfold Opt.GetFlashSecureMode
  by_cases h : (st.regs OptReg.OPTR).testBit 31 = true
  · rw [if_pos ((and_TZEN_ne_zero_iff _).mpr h), if_pos h]
  · rw [if_neg (fun hc => h ((and_TZEN_ne_zero_iff _).mp hc)), if_neg h]

theorem not32_testBit (m i : Nat) :
    (not32 m).testBit i = xor (decide (i < 32)) (m.testBit i) := by
  unfold not32
  have h : (0xFFFFFFFF : Nat) = 2 ^ 32 - 1 := by decide
  rw [h, Nat.testBit_xor, Nat.testBit_two_pow_sub_one]

/-- Bits of the value stored for a field `f` under the valid mask `m`. -/
theorem maskWrite_testBit (f m i : Nat) (hi : i < 32) :
    ((f &&& m) ||| not32 m).testBit i = if m.testBit i = true then f.testBit i else true := by
  rw [Nat.testBit_or, Nat.testBit_and, not32_testBit]
  have hd : decide (i < 32) = true := by simpa using hi
  rw [hd]
  cases m.testBit i <;> cases f.testBit i <;> rfl

/-- Masking the stored value gives the masked field back. -/
theorem maskWrite_and (f m : Nat) (hm : m < 2 ^ 32) :
    ((f &&& m) ||| not32 m) &&& m = f &&& m := by
  apply Nat.eq_of_testBit_eq
  intro i
  rw [Nat.testBit_and, Nat.testBit_or, Nat.testBit_and, not32_testBit]
  by_cases hi : i < 32
  · have hd : decide (i < 32) = true := by simpa using hi
    rw [hd]
    cases m.testBit i <;> cases f.testBit i <;> rfl
  · have hmi : m.testBit i = false :=
      Nat.testBit_lt_two_pow (Nat.lt_of_lt_of_le hm (Nat.pow_le_pow_right (by decide) (by omega)))
    rw [hmi]
    simp

theorem not32_eq_sub (m : Nat) (hm : m < 2 ^ 32) : not32 m = 0xFFFFFFFF - m := by
  apply Nat.eq_of_testBit_eq
  intro i
  have h : (0xFFFFFFFF : Nat) = 2 ^ 32 - 1 := by decide
  rw [not32_testBit, h]
  have hsub : 2 ^ 32 - 1 - m = 2 ^ 32 - (m + 1) := by omega
  rw [hsub, Nat.testBit_two_pow_sub_succ hm]
  by_cases hi : i < 32
  · simp [hi]
  · have hmi : m.testBit i = false :=
      Nat.testBit_lt_two_pow (Nat.lt_of_lt_of_le hm (Nat.pow_le_pow_right (by decide) (by omega)))
    simp [hi, hmi]

theorem leField_eq_word32 (buf : Nat → Nat) (hbuf : ∀ i, buf i < 256) (off : Nat) :
    leField buf off = word32 buf off := by
  rw [word32_eq_sum buf hbuf]
  rfl

theorem Opt_write_regs (st : FlashOpt) (r q : OptReg) (v : Nat) :
    (Opt.write st r v).regs q = if q = r then v else st.regs q := rfl

theorem Opt_write_trace (st : FlashOpt) (r : OptReg) (v : Nat) :
    (Opt.write st r v).trace = st.trace ++ [(r, v)] := rfl

theorem Opt_write_nssrReads (st : FlashOpt) (r : OptReg) (v : Nat) :
    (Opt.write st r v).nssrReads = st.nssrReads := rfl

/-- The value stored for the layout entry `e` from the record `buf`. -/
theorem maskedValue_eq (buf : Nat → Nat) (hbuf : ∀ i, buf i < 256) (off m : Nat)
    (hm : m < 2 ^ 32) :
    (word32 buf off &&& m) ||| not32 m = maskedValue (leField buf off) m := by
  unfold maskedValue
  rw [leField_eq_word32 buf hbuf, not32_eq_sub m hm]

/-- The secure-mode gate of `ProgramPage` reads the TZEN bit just stored to
`OPTR`, which is bit 31 of the record's first field. -/
theorem Opt_ProgramPage_gate (st : FlashOpt) (f : Nat) :
    Opt.GetFlashSecureMode (Opt.write st OptReg.OPTR ((f &&& 0x9F7F77FF) ||| not32 0x9F7F77FF)) =
      if f.testBit 31 = true then 1 else 0 := by
  have hb : (0x9F7F77FF : Nat).testBit 31 = true := by decide
  rw [Opt_GetFlashSecureMode_eq, Opt_write_regs, if_pos rfl, maskWrite_testBit f _ 31 (by decide),
    hb]
  simp

theorem Opt_gate_frame (st : FlashOpt) (r : OptReg) (v : Nat) (hr : r ≠ OptReg.OPTR) :
    Opt.GetFlashSecureMode (Opt.write st r v) = Opt.GetFlashSecureMode st := by
  unfold Opt.GetFlashSecureMode
  simp only [Opt_write_regs, if_neg (Ne.symm hr)]

/-- The stores of `ProgramPage_regs`: the seven always-written registers,
then the five secure-gated ones when bit 31 of the record's `OPTR` field is
set. -/
theorem Opt_ProgramPage_regs_trace (st : FlashOpt) (buf : Nat → Nat) :
    (Opt.ProgramPage_regs st buf).trace = st.trace ++
      (optLayoutAlways ++ if (word32 buf 0).testBit 31 = true then optLayoutSecure else []).map
        (fun e => (e.1, (word32 buf e.2.1 &&& e.2.2) ||| not32 e.2.2)) ∧
    (Opt.ProgramPage_regs st buf).nssrReads = st.nssrReads := by
  unfold Opt.ProgramPage_regs
  simp only [Opt_gate_frame _ _ _ (by decide : OptReg.NSBOOTADD0R ≠ OptReg.OPTR),
    Opt_gate_frame _ _ _ (by decide : OptReg.NSBOOTADD1R ≠ OptReg.OPTR),
    Opt_gate_frame _ _ _ (by decide : OptReg.WRP1AR ≠ OptReg.OPTR),
    Opt_gate_frame _ _ _ (by decide : OptReg.WRP1BR ≠ OptReg.OPTR),
    Opt_gate_frame _ _ _ (by decide : OptReg.WRP2AR ≠ OptReg.OPTR),
    Opt_gate_frame _ _ _ (by decide : OptReg.WRP2BR ≠ OptReg.OPTR), Opt_ProgramPage_gate]
  by_cases h : (word32 buf 0).testBit 31 = true
  · simp [h, Opt_write_trace, Opt_write_nssrReads, optLayoutAlways, optLayoutSecure]
  · simp [h, Opt_write_trace, Opt_write_nssrReads, optLayoutAlways, optLayoutSecure]

/-- Register contents after `ProgramPage_regs`: every register it stores
holds the masked field of the record, the others are unchanged. -/
theorem Opt_ProgramPage_regs_regs (st : FlashOpt) (buf : Nat → Nat) :
    (∀ e ∈ optLayoutAlways ++ (if (word32 buf 0).testBit 31 = true then optLayoutSecure else []),
      (Opt.ProgramPage_regs st buf).regs e.1 = (word32 buf e.2.1 &&& e.2.2) ||| not32 e.2.2) ∧
    ((word32 buf 0).testBit 31 = false →
      ∀ e ∈ optLayoutSecure, (Opt.ProgramPage_regs st buf).regs e.1 = st.regs e.1) ∧
    (Opt.ProgramPage_regs st buf).regs OptReg.NSSR = st.regs OptReg.NSSR ∧
    (Opt.ProgramPage_regs st buf).regs OptReg.NSCR = st.regs OptReg.NSCR := by
  unfold Opt.ProgramPage_regs
  simp only [Opt_gate_frame _ _ _ (by decide : OptReg.NSBOOTADD0R ≠ OptReg.OPTR),
    Opt_gate_frame _ _ _ (by decide : OptReg.NSBOOTADD1R ≠ OptReg.OPTR),
    Opt_gate_frame _ _ _ (by decide : OptReg.WRP1AR ≠ OptReg.OPTR),
    Opt_gate_frame _ _ _ (by decide : OptReg.WRP1BR ≠ OptReg.OPTR),
    Opt_gate_frame _ _ _ (by decide : OptReg.WRP2AR ≠ OptReg.OPTR),
    Opt_gate_frame _ _ _ (by decide : OptReg.WRP2BR ≠ OptReg.OPTR), Opt_ProgramPage_gate]
  by_cases h : (word32 buf 0).testBit 31 = true
  · simp [h, Opt_write_regs, optLayoutAlways, optLayoutSecure]
  · simp [h, Opt_write_regs, optLayoutAlways, optLayoutSecure]

theorem Opt_writeNSSR_regs (st : FlashOpt) (v : Nat) (q : OptReg) (hq : q ≠ OptReg.NSSR) :
    (Opt.writeNSSR st v).regs q = st.regs q := by
  unfold Opt.writeNSSR
  simp only [if_neg hq]

/-- Effect of `ProgramPage` of the option bytes when the busy-wait ends and
the status register then reads `s` (and `s2` for the read-modify-write of
the error path). -/
theorem Opt_ProgramPage_run (st : FlashOpt) (adr sz : Nat) (buf : Nat → Nat) (nb s s2 : Nat)
    (rest : List Nat) (hrd : spinBSY st.nssrReads = some (nb, s :: s2 :: rest)) :
    ∃ r st' tail, Opt.ProgramPage st adr sz buf = some (r, st') ∧
      (∀ q, q ≠ OptReg.NSSR → q ≠ OptReg.NSCR →
        st'.regs q = (Opt.ProgramPage_regs (Opt.writeNSSR st FLASH_PGERR) buf).regs q) ∧
      st'.trace = (Opt.ProgramPage_regs (Opt.writeNSSR st FLASH_PGERR) buf).trace ++
        (OptReg.NSCR, FLASH_CR_OPTSTRT) :: tail ∧
      (∀ w ∈ tail, w.1 = OptReg.NSSR) ∧
      r = (if s &&& FLASH_PGERR ≠ 0 then 1 else 0) := by
  have hX : (Opt.write (Opt.ProgramPage_regs (Opt.writeNSSR st FLASH_PGERR) buf) OptReg.NSCR
      FLASH_CR_OPTSTRT).nssrReads = st.nssrReads := (Opt_ProgramPage_regs_trace _ buf).2
  unfold Opt.ProgramPage
  simp only [Opt.DSB, Opt.waitBusy, hX, hrd, Opt.readNSSR]
  by_cases he : s &&& FLASH_PGERR = 0
  · simp only [he, ne_eq, not_true_eq_false, if_false]
    refine ⟨0, _, [], rfl, ?_, ?_, ?_, rfl⟩
    · intro q h1 h2
      simp only [Opt_write_regs, if_neg h1, if_neg h2]
    · simp only [Opt_write_trace]
    · intro w hw
      exact absurd hw (List.not_mem_nil w)
  · simp only [he, ne_eq, not_false_eq_true, if_true]
    refine ⟨1, _, [(OptReg.NSSR, s2 ||| FLASH_PGERR)], rfl, ?_, ?_, ?_, rfl⟩
    · intro q h1 h2
      rw [Opt_writeNSSR_regs _ _ _ h1]
      simp only [Opt_write_regs, if_neg h1, if_neg h2]
    · simp only [Opt.writeNSSR, Opt_write_trace, List.append_assoc, List.singleton_append]
    · intro w hw
      rw [List.mem_singleton] at hw
      rw [hw]

theorem optLayout_mask_lt : ∀ e ∈ optLayoutAlways ++ optLayoutSecure, e.2.2 < 2 ^ 32 := by
  decide

theorem optLayout_gated_subset (b : Bool) :
    ∀ e ∈ optLayoutAlways ++ (if b = true then optLayoutSecure else []),
      e ∈ optLayoutAlways ++ optLayoutSecure := by
  intro e he
  rw [List.mem_append] at he ⊢
  rcases he with h | h
  · exact Or.inl h
  · cases b
    · exact absurd h (List.not_mem_nil e)
    · exact Or.inr h

/-- The option register stores of `ProgramPage`, in the words of the
specification: every stored value is `maskedValue` of the record field. -/
theorem Opt_ProgramPage_stores (st : FlashOpt) (adr sz : Nat) (buf : Nat → Nat) (nb s s2 : Nat)
    (rest : List Nat) (hbuf : ∀ i, buf i < 256)
    (hrd : spinBSY st.nssrReads = some (nb, s :: s2 :: rest)) :
    ∃ r st' tail, Opt.ProgramPage st adr sz buf = some (r, st') ∧
      st'.trace = st.trace ++ (OptReg.NSSR, FLASH_PGERR) ::
        (optLayoutAlways ++
          if (leField buf 0).testBit 31 = true then optLayoutSecure else []).map
          (fun e => (e.1, maskedValue (leField buf e.2.1) e.2.2)) ++
        (OptReg.NSCR, FLASH_CR_OPTSTRT) :: tail ∧
      (∀ w ∈ tail, w.1 = OptReg.NSSR) ∧
      (∀ e ∈ optLayoutAlways ++
          (if (leField buf 0).testBit 31 = true then optLayoutSecure else []),
        st'.regs e.1 = maskedValue (leField buf e.2.1) e.2.2) ∧
      ((leField buf 0).testBit 31 = false → ∀ e ∈ optLayoutSecure, st'.regs e.1 = st.regs e.1) ∧
      r = (if s &&& FLASH_PGERR ≠ 0 then 1 else 0) := by
  obtain ⟨r, st', tail, hpp, hregs, htr, htail, hr⟩ :=
    Opt_ProgramPage_run st adr sz buf nb s s2 rest hrd
  obtain ⟨hw, hns, -, -⟩ := Opt_ProgramPage_regs_regs (Opt.writeNSSR st FLASH_PGERR) buf
  rw [(Opt_ProgramPage_regs_trace _ buf).1] at htr
  rw [← leField_eq_word32 buf hbuf 0] at htr hw hns
  have hne : ∀ e ∈ optLayoutAlways ++ optLayoutSecure,
      e.1 ≠ OptReg.NSSR ∧ e.1 ≠ OptReg.NSCR := by decide
  refine ⟨r, st', tail, hpp, ?_, htail, ?_, ?_, hr⟩
  · rw [htr]
    have hmap : (optLayoutAlways ++
          if (leField buf 0).testBit 31 = true then optLayoutSecure else []).map
          (fun e => (e.1, (word32 buf e.2.1 &&& e.2.2) ||| not32 e.2.2)) =
        (optLayoutAlways ++
          if (leField buf 0).testBit 31 = true then optLayoutSecure else []).map
          (fun e => (e.1, maskedValue (leField buf e.2.1) e.2.2)) := by
      apply List.map_congr_left
      intro e he
      rw [maskedValue_eq buf hbuf _ _ (optLayout_mask_lt e (optLayout_gated_subset _ e he))]
    rw [hmap]
    simp [Opt.writeNSSR, List.append_assoc]
  · intro e he
    have hin := optLayout_gated_subset _ e he
    rw [hregs e.1 (hne e hin).1 (hne e hin).2, hw e he,
      maskedValue_eq buf hbuf _ _ (optLayout_mask_lt e hin)]
  · intro htz e he
    have hin : e ∈ optLayoutAlways ++ optLayoutSecure := List.mem_append.mpr (Or.inr he)
    rw [hregs e.1 (hne e hin).1 (hne e hin).2, hns htz e he,
      Opt_writeNSSR_regs _ _ _ (hne e hin).1]

theorem firstMismatch_cons (regs : OptReg → Nat) (buf : Nat → Nat) (r : OptReg) (off m : Nat)
    (t : List (OptReg × Nat × Nat)) :
    firstMismatch regs buf ((r, off, m) :: t) =
      if regs r &&& m ≠ leField buf off &&& m then some (off / 4) else firstMismatch regs buf t :=
  rfl

theorem pick_ite (c : Prop) [Decidable c] (adr d n : Nat) (x : Option Nat) :
    (match (if c then some n else x) with
      | none => d
      | some k => add32 adr k) =
    if c then add32 adr n else
      (match x with
        | none => d
        | some k => add32 adr k) := by
  split_ifs <;> rfl

/-- The result of `Verify` as the first mismatch of the compared registers,
in the order of the code. -/
theorem Opt_Verify_eq_firstMismatch (st : FlashOpt) (adr sz : Nat) (buf : Nat → Nat)
    (hbuf : ∀ i, buf i < 256) :
    Opt.Verify st adr sz buf =
      match firstMismatch st.regs buf (verifyLayout ((st.regs OptReg.OPTR).testBit 31)) with
      | none => add32 adr sz
      | some n => add32 adr n := by
  unfold Opt.Verify
  dsimp only
  rw [Opt_GetFlashSecureMode_eq]
  simp only [← leField_eq_word32 buf hbuf]
  by_cases hsec : (st.regs OptReg.OPTR).testBit 31 = true
  · have hl : verifyLayout ((st.regs OptReg.OPTR).testBit 31) =
        [(OptReg.OPTR, 0, 0x9F7F77FF), (OptReg.NSBOOTADD0R, 12, 0xFFFFFF80),
         (OptReg.NSBOOTADD1R, 16, 0xFFFFFF80), (OptReg.WRP1AR, 28, 0x007F007F),
         (OptReg.WRP1BR, 32, 0x007F007F), (OptReg.WRP2AR, 40, 0x007F007F),
         (OptReg.WRP2BR, 44, 0x007F007F), (OptReg.SECBOOTADD0R, 20, 0xFFFFFF83),
         (OptReg.SECWM1R2, 4, 0x807F0000), (OptReg.SECWM2R2, 8, 0x807F0000),
         (OptReg.SECWM1R1, 24, 0x007F007F), (OptReg.SECWM2R1, 36, 0x007F007F)] := by
      rw [hsec]; rfl
    rw [hl, if_pos hsec]
    repeat rw [firstMismatch_cons, pick_ite]
    rfl
  · have hl : verifyLayout ((st.regs OptReg.OPTR).testBit 31) =
        [(OptReg.OPTR, 0, 0x9F7F77FF), (OptReg.NSBOOTADD0R, 12, 0xFFFFFF80),
         (OptReg.NSBOOTADD1R, 16, 0xFFFFFF80), (OptReg.WRP1AR, 28, 0x007F007F),
         (OptReg.WRP1BR, 32, 0x007F007F), (OptReg.WRP2AR, 40, 0x007F007F),
         (OptReg.WRP2BR, 44, 0x007F007F)] := by
      have hf : (st.regs OptReg.OPTR).testBit 31 = false := by
        cases hb : (st.regs OptReg.OPTR).testBit 31
        · rfl
        · exact absurd hb hsec
      rw [hf]; rfl
    rw [hl, if_neg hsec]
    repeat rw [firstMismatch_cons, pick_ite]
    rfl

theorem maskedValue_testBit (f m i : Nat) (hm : m < 2 ^ 32) (hi : i < 32) :
    (maskedValue f m).testBit i = if m.testBit i = true then f.testBit i else true := by
  unfold maskedValue
  rw [← not32_eq_sub m hm]
  exact maskWrite_testBit f m i hi

theorem maskedValue_and (f m : Nat) (hm : m < 2 ^ 32) : maskedValue f m &&& m = f &&& m := by
  unfold maskedValue
  rw [← not32_eq_sub m hm]
  exact maskWrite_and f m hm

/-- C11.  For every 48-byte record, every option register the option-bytes
`ProgramPage` stores receives `(field AND mask) OR (NOT mask)`, the field
decoded little-endian from its byte offset: the stores are, in order, those
of the seven always-written registers and possibly those of the secure-gated
ones, each with the mask of the layout tables; in the stored value every bit
outside the mask is 1 and every bit inside the mask is the record's bit. -/
theorem Opt_ProgramPage_masked_writes (st : FlashOpt) (adr sz : Nat) (buf : Nat → Nat)
    (nb s s2 : Nat) (rest : List Nat) (hbuf : ∀ i, buf i < 256)
    (hrd : spinBSY st.nssrReads = some (nb, s :: s2 :: rest)) :
    ∃ r st' ws tail, Opt.ProgramPage st adr sz buf = some (r, st') ∧
      st'.trace = st.trace ++ (OptReg.NSSR, FLASH_PGERR) :: ws ++
        (OptReg.NSCR, FLASH_CR_OPTSTRT) :: tail ∧
      (∀ w ∈ tail, w.1 = OptReg.NSSR) ∧
      (∀ w ∈ ws, ∃ e ∈ optLayoutAlways ++ optLayoutSecure,
        w = (e.1, maskedValue (leField buf e.2.1) e.2.2) ∧ st'.regs e.1 = w.2) ∧
      (∀ e ∈ optLayoutAlways, (e.1, maskedValue (leField buf e.2.1) e.2.2) ∈ ws) ∧
      ∀ e ∈ optLayoutAlways ++ optLayoutSecure, ∀ i, i < 32 →
        (maskedValue (leField buf e.2.1) e.2.2).testBit i =
          if e.2.2.testBit i = true then (leField buf e.2.1).testBit i else true := by
  obtain ⟨r, st', tail, hpp, htr, htail, hregs, -, -⟩ :=
    Opt_ProgramPage_stores st adr sz buf nb s s2 rest hbuf hrd
  refine ⟨r, st', _, tail, hpp, htr, htail, ?_, ?_, ?_⟩
  · intro w hw
    obtain ⟨e, he, rfl⟩ := List.mem_map.mp hw
    exact ⟨e, optLayout_gated_subset _ e he, rfl, hregs e he⟩
  · intro e he
    exact List.mem_map.mpr ⟨e, List.mem_append.mpr (Or.inl he), rfl⟩
  · intro e he i hi
    exact maskedValue_testBit _ _ i (optLayout_mask_lt e he) hi

/-- C12 (amended).  In non-secure mode, for a record whose `OPTR` field keeps
TZEN clear, `ProgramPage` of the option bytes stores exactly the seven
registers OPTR, NSBOOTADD0R, NSBOOTADD1R, WRP1AR, WRP1BR, WRP2AR, WRP2BR
(besides the status and control registers) and leaves the five secure-gated
registers SECBOOTADD0R, SECWM1R2, SECWM2R2, SECWM1R1, SECWM2R1 unchanged. -/
theorem Opt_ProgramPage_nonsecure_writes (st : FlashOpt) (adr sz : Nat) (buf : Nat → Nat)
    (nb s s2 : Nat) (rest : List Nat) (hbuf : ∀ i, buf i < 256)
    (hrd : spinBSY st.nssrReads = some (nb, s :: s2 :: rest))
    (hns : Opt.GetFlashSecureMode st = 0) (hrec : (leField buf 0).testBit 31 = false) :
    ∃ r st' ws tail, Opt.ProgramPage st adr sz buf = some (r, st') ∧
      st'.trace = st.trace ++ (OptReg.NSSR, FLASH_PGERR) :: ws ++
        (OptReg.NSCR, FLASH_CR_OPTSTRT) :: tail ∧
      (∀ w ∈ tail, w.1 = OptReg.NSSR) ∧
      ws.map Prod.fst =
        [OptReg.OPTR, OptReg.NSBOOTADD0R, OptReg.NSBOOTADD1R, OptReg.WRP1AR, OptReg.WRP1BR,
         OptReg.WRP2AR, OptReg.WRP2BR] ∧
      st'.regs OptReg.SECBOOTADD0R = st.regs OptReg.SECBOOTADD0R ∧
      st'.regs OptReg.SECWM1R2 = st.regs OptReg.SECWM1R2 ∧
      st'.regs OptReg.SECWM2R2 = st.regs OptReg.SECWM2R2 ∧
      st'.regs OptReg.SECWM1R1 = st.regs OptReg.SECWM1R1 ∧
      st'.regs OptReg.SECWM2R1 = st.regs OptReg.SECWM2R1 ∧
      Opt.GetFlashSecureMode st' = Opt.GetFlashSecureMode st := by
  obtain ⟨r, st', tail, hpp, htr, htail, hregs, hfr, -⟩ :=
    Opt_ProgramPage_stores st adr sz buf nb s s2 rest hbuf hrd
  have hfr' := hfr hrec
  have hno : ¬ ((leField buf 0).testBit 31 = true) := by rw [hrec]; exact Bool.noConfusion
  rw [if_neg hno, List.append_nil] at htr hregs
  refine ⟨r, st', _, tail, hpp, htr, htail, ?_,
    hfr' (OptReg.SECBOOTADD0R, 20, 0xFFFFFF83) (by decide),
    hfr' (OptReg.SECWM1R2, 4, 0x807F0000) (by decide),
    hfr' (OptReg.SECWM2R2, 8, 0x807F0000) (by decide),
    hfr' (OptReg.SECWM1R1, 24, 0x007F007F) (by decide),
    hfr' (OptReg.SECWM2R1, 36, 0x007F007F) (by decide), ?_⟩
  · rw [List.map_map]
    rfl
  · have ho : st'.regs OptReg.OPTR = maskedValue (leField buf 0) 0x9F7F77FF :=
      hregs (OptReg.OPTR, 0, 0x9F7F77FF) (by decide)
    have hb : (0x9F7F77FF : Nat).testBit 31 = true := by decide
    rw [hns, Opt_GetFlashSecureMode_eq, ho,
      maskedValue_testBit _ _ 31 (by decide) (by decide), hb, hrec]
    rfl

/-- Witness for C11: the all-zero record programmed in non-secure mode. -/
theorem Opt_ProgramPage_masked_writes_witness :
    ∃ r st' ws tail, Opt.ProgramPage (Opt.powerOn 0 [0, 0, 0]) 0x1FF00000 48 (fun _ => 0) =
        some (r, st') ∧
      st'.trace = (Opt.powerOn 0 [0, 0, 0]).trace ++ (OptReg.NSSR, FLASH_PGERR) :: ws ++
        (OptReg.NSCR, FLASH_CR_OPTSTRT) :: tail ∧
      (∀ w ∈ tail, w.1 = OptReg.NSSR) ∧
      (∀ w ∈ ws, ∃ e ∈ optLayoutAlways ++ optLayoutSecure,
        w = (e.1, maskedValue (leField (fun _ => 0) e.2.1) e.2.2) ∧ st'.regs e.1 = w.2) ∧
      (∀ e ∈ optLayoutAlways, (e.1, maskedValue (leField (fun _ => 0) e.2.1) e.2.2) ∈ ws) ∧
      ∀ e ∈ optLayoutAlways ++ optLayoutSecure, ∀ i, i < 32 →
        (maskedValue (leField (fun _ => 0) e.2.1) e.2.2).testBit i =
          if e.2.2.testBit i = true then (leField (fun _ => 0) e.2.1).testBit i else true :=
  Opt_ProgramPage_masked_writes (Opt.powerOn 0 [0, 0, 0]) 0x1FF00000 48 (fun _ => 0) 0 0 0 []
    (fun _ => Nat.succ_pos 255) (by decide)

/-- Witness for C12: the all-zero record programmed in non-secure mode. -/
theorem Opt_ProgramPage_nonsecure_writes_witness :
    ∃ r st' ws tail, Opt.ProgramPage (Opt.powerOn 0 [0, 0, 0]) 0x1FF00000 48 (fun _ => 0) =
        some (r, st') ∧
      st'.trace = (Opt.powerOn 0 [0, 0, 0]).trace ++ (OptReg.NSSR, FLASH_PGERR) :: ws ++
        (OptReg.NSCR, FLASH_CR_OPTSTRT) :: tail ∧
      (∀ w ∈ tail, w.1 = OptReg.NSSR) ∧
      ws.map Prod.fst =
        [OptReg.OPTR, OptReg.NSBOOTADD0R, OptReg.NSBOOTADD1R, OptReg.WRP1AR, OptReg.WRP1BR,
         OptReg.WRP2AR, OptReg.WRP2BR] ∧
      st'.regs OptReg.SECBOOTADD0R = (Opt.powerOn 0 [0, 0, 0]).regs OptReg.SECBOOTADD0R ∧
      st'.regs OptReg.SECWM1R2 = (Opt.powerOn 0 [0, 0, 0]).regs OptReg.SECWM1R2 ∧
      st'.regs OptReg.SECWM2R2 = (Opt.powerOn 0 [0, 0, 0]).regs OptReg.SECWM2R2 ∧
      st'.regs OptReg.SECWM1R1 = (Opt.powerOn 0 [0, 0, 0]).regs OptReg.SECWM1R1 ∧
      st'.regs OptReg.SECWM2R1 = (Opt.powerOn 0 [0, 0, 0]).regs OptReg.SECWM2R1 ∧
      Opt.GetFlashSecureMode st' = Opt.GetFlashSecureMode (Opt.powerOn 0 [0, 0, 0]) :=
  Opt_ProgramPage_nonsecure_writes (Opt.powerOn 0 [0, 0, 0]) 0x1FF00000 48 (fun _ => 0) 0 0 0 []
    (fun _ => Nat.succ_pos 255) (by decide) (by decide) (by decide)

/-- C12 (counterexample).  Non-secure mode, all-zero record: `ProgramPage`
stores seven option registers, not eight; SECBOOTADD0R, a field of the
non-secure layout, is not stored and keeps its content 0 although its masked
field is `0x7C`.  With a record that sets TZEN (byte 3 = `0x80`) the same
non-secure state has its secure watermark registers stored. -/
theorem Opt_ProgramPage_nonsecure_seven :
    Opt.GetFlashSecureMode (Opt.powerOn 0 [0, 0, 0]) = 0 ∧
    (Opt.ProgramPage (Opt.powerOn 0 [0, 0, 0]) 0x1FF00000 48 (fun _ => 0)).map
      (fun r => (r.1, r.2.trace.map Prod.fst, r.2.regs OptReg.SECBOOTADD0R)) =
      some (0, [OptReg.NSSR, OptReg.OPTR, OptReg.NSBOOTADD0R, OptReg.NSBOOTADD1R, OptReg.WRP1AR,
        OptReg.WRP1BR, OptReg.WRP2AR, OptReg.WRP2BR, OptReg.NSCR], 0) ∧
    maskedValue (leField (fun _ => 0) 20) 0xFFFFFF83 = 0x7C ∧
    (Opt.ProgramPage (Opt.powerOn 0 [0, 0, 0]) 0x1FF00000 48
        (fun i => if i = 3 then 0x80 else 0)).map
      (fun r => (r.2.trace.map Prod.fst, r.2.regs OptReg.SECWM1R2)) =
      some ([OptReg.NSSR, OptReg.OPTR, OptReg.NSBOOTADD0R, OptReg.NSBOOTADD1R, OptReg.WRP1AR,
        OptReg.WRP1BR, OptReg.WRP2AR, OptReg.WRP2BR, OptReg.SECBOOTADD0R, OptReg.SECWM1R2,
        OptReg.SECWM2R2, OptReg.SECWM1R1, OptReg.SECWM2R1, OptReg.NSCR], 0x7F80FFFF) := by
  decide

theorem firstMismatch_none_iff (regs : OptReg → Nat) (buf : Nat → Nat)
    (l : List (OptReg × Nat × Nat)) :
    firstMismatch regs buf l = none ↔
      ∀ e ∈ l, regs e.1 &&& e.2.2 = leField buf e.2.1 &&& e.2.2 := by
  induction l with
  | nil => simp [firstMismatch]
  | cons e t ih =>
    obtain ⟨r, off, m⟩ := e
    rw [firstMismatch_cons]
    by_cases h : regs r &&& m = leField buf off &&& m
    · rw [if_neg (not_not.mpr h), ih]
      simp [h]
    · rw [if_pos h]
      simp [h]

theorem firstMismatch_append (regs : OptReg → Nat) (buf : Nat → Nat)
    (l1 l2 : List (OptReg × Nat × Nat))
    (h : ∀ e ∈ l1, regs e.1 &&& e.2.2 = leField buf e.2.1 &&& e.2.2) :
    firstMismatch regs buf (l1 ++ l2) = firstMismatch regs buf l2 := by
  induction l1 with
  | nil => rfl
  | cons e t ih =>
    obtain ⟨r, off, m⟩ := e
    rw [List.cons_append, firstMismatch_cons,
      if_neg (not_not.mpr (h (r, off, m) (List.mem_cons_self _ _)))]
    exact ih fun x hx => h x (List.mem_cons_of_mem _ hx)

theorem firstMismatch_some (regs : OptReg → Nat) (buf : Nat → Nat)
    (l : List (OptReg × Nat × Nat)) :
    ∀ n, firstMismatch regs buf l = some n →
      ∃ l1 e l2, l = l1 ++ e :: l2 ∧
        (∀ x ∈ l1, regs x.1 &&& x.2.2 = leField buf x.2.1 &&& x.2.2) ∧
        regs e.1 &&& e.2.2 ≠ leField buf e.2.1 &&& e.2.2 ∧ n = e.2.1 / 4 := by
  induction l with
  | nil => intro n h; exact Option.noConfusion h
  | cons e t ih =>
    intro n h
    obtain ⟨r, off, m⟩ := e
    rw [firstMismatch_cons] at h
    by_cases hm : regs r &&& m = leField buf off &&& m
    · rw [if_neg (not_not.mpr hm)] at h
      obtain ⟨l1, e, l2, hl, h1, h2, h3⟩ := ih n h
      refine ⟨(r, off, m) :: l1, e, l2, by rw [hl]; rfl, ?_, h2, h3⟩
      intro x hx
      rcases List.mem_cons.mp hx with rfl | hx
      · exact hm
      · exact h1 x hx
    · rw [if_pos hm] at h
      refine ⟨[], (r, off, m), t, rfl, fun x hx => absurd hx (List.not_mem_nil x), hm, ?_⟩
      exact (Option.some.inj h).symm

theorem verifyLayout_ordinal_le (sec : Bool) : ∀ e ∈ verifyLayout sec, e.2.1 / 4 ≤ 11 ∧
    e.2.1 = 4 * (e.2.1 / 4) ∧ e.2.2 < 2 ^ 32 := by
  cases sec <;> decide

/-- C15.  `Verify` of the option bytes with `sz = 48` returns `adr + sz` if
and only if every compared register (the seven always-compared ones, plus the
five secure-gated ones in secure mode) equals the record's field on the bits
of its valid mask; otherwise it returns `adr + N`, where `N ≤ 11` is the
byte offset divided by 4 of the first register, in the order of the code,
whose masked value differs from the masked field. -/
theorem Opt_Verify_first_mismatch (st : FlashOpt) (adr : Nat) (buf : Nat → Nat)
    (hbuf : ∀ i, buf i < 256) :
    (Opt.Verify st adr 48 buf = add32 adr 48 ↔
      ∀ e ∈ verifyLayout ((st.regs OptReg.OPTR).testBit 31),
        st.regs e.1 &&& e.2.2 = leField buf e.2.1 &&& e.2.2) ∧
    ((¬ ∀ e ∈ verifyLayout ((st.regs OptReg.OPTR).testBit 31),
        st.regs e.1 &&& e.2.2 = leField buf e.2.1 &&& e.2.2) →
      ∃ l1 e l2, verifyLayout ((st.regs OptReg.OPTR).testBit 31) = l1 ++ e :: l2 ∧
        (∀ x ∈ l1, st.regs x.1 &&& x.2.2 = leField buf x.2.1 &&& x.2.2) ∧
        st.regs e.1 &&& e.2.2 ≠ leField buf e.2.1 &&& e.2.2 ∧
        Opt.Verify st adr 48 buf = add32 adr (e.2.1 / 4) ∧
        e.2.1 / 4 ≤ 11 ∧ e.2.1 = 4 * (e.2.1 / 4)) ∧
    verifyLayout false = optLayoutAlways ∧
    verifyLayout true = optLayoutAlways ++ optLayoutSecure ∧
    ((st.regs OptReg.OPTR).testBit 31 = true ↔ Opt.GetFlashSecureMode st = 1) := by
  have hV := Opt_Verify_eq_firstMismatch st adr 48 buf hbuf
  have hsome : ∀ n, firstMismatch st.regs buf (verifyLayout ((st.regs OptReg.OPTR).testBit 31)) =
      some n → ∃ l1 e l2, verifyLayout ((st.regs OptReg.OPTR).testBit 31) = l1 ++ e :: l2 ∧
        (∀ x ∈ l1, st.regs x.1 &&& x.2.2 = leField buf x.2.1 &&& x.2.2) ∧
        st.regs e.1 &&& e.2.2 ≠ leField buf e.2.1 &&& e.2.2 ∧
        Opt.Verify st adr 48 buf = add32 adr (e.2.1 / 4) ∧
        e.2.1 / 4 ≤ 11 ∧ e.2.1 = 4 * (e.2.1 / 4) := by
    intro n hn
    obtain ⟨l1, e, l2, hl, h1, h2, h3⟩ := firstMismatch_some _ _ _ n hn
    have he : e ∈ verifyLayout ((st.regs OptReg.OPTR).testBit 31) := by
      rw [hl]; exact List.mem_append.mpr (Or.inr (List.mem_cons_self _ _))
    obtain ⟨hle, hoff, -⟩ := verifyLayout_ordinal_le _ e he
    refine ⟨l1, e, l2, hl, h1, h2, ?_, hle, hoff⟩
    rw [hV, hn, h3]
  refine ⟨?_, ?_, rfl, rfl, ?_⟩
  · rw [← firstMismatch_none_iff]
    constructor
    · intro h
      cases hf : firstMismatch st.regs buf (verifyLayout ((st.regs OptReg.OPTR).testBit 31)) with
      | none => rfl
      | some n =>
        obtain ⟨l1, e, l2, -, -, -, hv, hle, -⟩ := hsome n hf
        rw [hv] at h
        unfold add32 at h
        omega
    · intro h
      rw [hV, h]
  · intro hne
    rw [← firstMismatch_none_iff] at hne
    cases hf : firstMismatch st.regs buf (verifyLayout ((st.regs OptReg.OPTR).testBit 31)) with
    | none => exact absurd hf hne
    | some n => exact hsome n hf
  · rw [Opt_GetFlashSecureMode_eq]
    by_cases h : (st.regs OptReg.OPTR).testBit 31 = true
    · simp [h]
    · simp [h]

/-- Witness for C15: secure mode, registers at their power-on content, a
record that matches them except for WRP1AR (byte 28). -/
theorem Opt_Verify_first_mismatch_witness :
    Opt.Verify (Opt.powerOn 0x80000000 []) 0x1FF00000 48
        (fun i => if i = 3 then 0x80 else if i = 28 then 1 else 0) = add32 0x1FF00000 48 ↔
      ∀ e ∈ verifyLayout (((Opt.powerOn 0x80000000 []).regs OptReg.OPTR).testBit 31),
        (Opt.powerOn 0x80000000 []).regs e.1 &&& e.2.2 =
          leField (fun i => if i = 3 then 0x80 else if i = 28 then 1 else 0) e.2.1 &&& e.2.2 :=
  (Opt_Verify_first_mismatch (Opt.powerOn 0x80000000 []) 0x1FF00000
    (fun i => if i = 3 then 0x80 else if i = 28 then 1 else 0)
    (fun i => by by_cases h : i = 3 <;> by_cases h28 : i = 28 <;> simp [h, h28])).1

/-- After `ProgramPage` the compared registers hold the masked fields of the
record, and the TZEN bit of `OPTR` is that of the record. -/
theorem Opt_ProgramPage_programmed (st : FlashOpt) (adr sz : Nat) (buf : Nat → Nat)
    (nb s s2 : Nat) (rest : List Nat) (hbuf : ∀ i, buf i < 256)
    (hrd : spinBSY st.nssrReads = some (nb, s :: s2 :: rest)) :
    ∃ r st', Opt.ProgramPage st adr sz buf = some (r, st') ∧
      (st'.regs OptReg.OPTR).testBit 31 = (leField buf 0).testBit 31 ∧
      ∀ e ∈ verifyLayout ((leField buf 0).testBit 31),
        st'.regs e.1 &&& e.2.2 = leField buf e.2.1 &&& e.2.2 := by
  obtain ⟨r, st', tail, hpp, -, -, hregs, -, -⟩ :=
    Opt_ProgramPage_stores st adr sz buf nb s s2 rest hbuf hrd
  refine ⟨r, st', hpp, ?_, ?_⟩
  · have ho : st'.regs OptReg.OPTR = maskedValue (leField buf 0) 0x9F7F77FF :=
      hregs (OptReg.OPTR, 0, 0x9F7F77FF) (List.mem_append.mpr (Or.inl (by decide)))
    have hb : (0x9F7F77FF : Nat).testBit 31 = true := by decide
    rw [ho, maskedValue_testBit _ _ 31 (by decide) (by decide), hb]
    rfl
  · intro e he
    rw [hregs e he, maskedValue_and _ _ (verifyLayout_ordinal_le _ e he).2.2]

/-- C13.  Option-byte round trip, the registers being storage that keeps the
last value written: for every 48-byte record and every address,
`Verify(adr, 48, buf)` after `ProgramPage(adr, 48, buf)` returns `adr + 48`
(in 32-bit arithmetic), whatever the security mode and whatever
`ProgramPage` returned. -/
theorem Opt_Verify_after_ProgramPage (st : FlashOpt) (adr : Nat) (buf : Nat → Nat)
    (nb s s2 : Nat) (rest : List Nat) (hbuf : ∀ i, buf i < 256)
    (hrd : spinBSY st.nssrReads = some (nb, s :: s2 :: rest)) :
    ∃ r st', Opt.ProgramPage st adr 48 buf = some (r, st') ∧
      Opt.Verify st' adr 48 buf = add32 adr 48 ∧
      (adr + 48 < 2 ^ 32 → Opt.Verify st' adr 48 buf = adr + 48) := by
  obtain ⟨r, st', hpp, htz, hm⟩ := Opt_ProgramPage_programmed st adr 48 buf nb s s2 rest hbuf hrd
  have hv : Opt.Verify st' adr 48 buf = add32 adr 48 := by
    rw [Opt_Verify_eq_firstMismatch st' adr 48 buf hbuf, htz,
      (firstMismatch_none_iff _ _ _).mpr hm]
  refine ⟨r, st', hpp, hv, fun hlt => ?_⟩
  rw [hv]
  exact Nat.mod_eq_of_lt hlt

/-- Witness for C13: a record that sets TZEN, programmed from non-secure
mode with an error flag raised. -/
theorem Opt_Verify_after_ProgramPage_witness :
    ∃ r st', Opt.ProgramPage (Opt.powerOn 0 [0x10000, 0, 8, 8]) 0x1FF00000 48
        (fun i => if i = 3 then 0x80 else 0) = some (r, st') ∧
      Opt.Verify st' 0x1FF00000 48 (fun i => if i = 3 then 0x80 else 0) =
        add32 0x1FF00000 48 ∧
      (0x1FF00000 + 48 < 2 ^ 32 →
        Opt.Verify st' 0x1FF00000 48 (fun i => if i = 3 then 0x80 else 0) = 0x1FF00000 + 48) :=
  Opt_Verify_after_ProgramPage (Opt.powerOn 0 [0x10000, 0, 8, 8]) 0x1FF00000
    (fun i => if i = 3 then 0x80 else 0) 0 8 8 []
    (fun i => by by_cases h : i = 3 <;> simp [h]) (by decide)

theorem leField_agree (buf buf' : Nat → Nat) (off : Nat)
    (hagree : ∀ i, i < 4 ∨ 8 ≤ i → buf' i = buf i) (hoff : off + 3 < 4 ∨ 8 ≤ off) :
    leField buf' off = leField buf off := by
  unfold leField
  rw [hagree off (by omega), hagree (off + 1) (by omega), hagree (off + 2) (by omega),
    hagree (off + 3) (by omega)]

/-- The valid mask of SECWM1R2 ignores the two low bytes of the field. -/
theorem leField_and_SECWM_mask (buf : Nat → Nat) (hbuf : ∀ i, buf i < 256) (off : Nat) :
    leField buf off &&& 0x807F0000 =
      2 ^ 16 * ((buf (off + 2) + 2 ^ 8 * buf (off + 3)) &&& 0x807F) := by
  have h0 := hbuf off
  have h1 := hbuf (off + 1)
  have hsplit : leField buf off =
      2 ^ 16 * (buf (off + 2) + 2 ^ 8 * buf (off + 3)) + (buf off + 2 ^ 8 * buf (off + 1)) := by
    unfold leField; omega
  have hm : (0x807F0000 : Nat) = 2 ^ 16 * 0x807F + 0 := by decide
  rw [hsplit, hm, and_split 16 _ _ 0x807F 0 (by omega) (by decide), Nat.and_zero, Nat.add_zero]

/-- C14 (amended).  Secure mode, the option registers holding the values
programmed from a 48-byte record: when the SECWM1R2 field of the record
(bytes 4..7) is then changed on a bit of its valid mask `0x807F0000` (bits
0..6 of the byte at offset 6, bit 7 of the byte at offset 7),
`Verify(adr, 48, record)` returns `adr + 1`; when the change leaves the
masked field as it was, as every change confined to the bytes at offsets 4
and 5 does, `Verify` still returns `adr + 48`. -/
theorem Opt_Verify_SECWM1R2_corrupted (st : FlashOpt) (adr : Nat) (buf buf' : Nat → Nat)
    (nb s s2 : Nat) (rest : List Nat) (hbuf : ∀ i, buf i < 256) (hbuf' : ∀ i, buf' i < 256)
    (hrd : spinBSY st.nssrReads = some (nb, s :: s2 :: rest))
    (hsec : (leField buf 0).testBit 31 = true)
    (hagree : ∀ i, i < 4 ∨ 8 ≤ i → buf' i = buf i) :
    ∃ r st', Opt.ProgramPage st adr 48 buf = some (r, st') ∧
      Opt.GetFlashSecureMode st' = 1 ∧
      (leField buf' 4 &&& 0x807F0000 ≠ leField buf 4 &&& 0x807F0000 →
        Opt.Verify st' adr 48 buf' = add32 adr 1) ∧
      (leField buf' 4 &&& 0x807F0000 = leField buf 4 &&& 0x807F0000 →
        Opt.Verify st' adr 48 buf' = add32 adr 48) ∧
      ((buf' 6 = buf 6 ∧ buf' 7 = buf 7) →
        leField buf' 4 &&& 0x807F0000 = leField buf 4 &&& 0x807F0000) := by
  obtain ⟨r, st', hpp, htz, hm⟩ := Opt_ProgramPage_programmed st adr 48 buf nb s s2 rest hbuf hrd
  rw [hsec] at htz hm
  have hV := Opt_Verify_eq_firstMismatch st' adr 48 buf' hbuf'
  rw [htz] at hV
  have hsplit : verifyLayout true =
      (optLayoutAlways ++ [(OptReg.SECBOOTADD0R, 20, 0xFFFFFF83)]) ++
        (OptReg.SECWM1R2, 4, 0x807F0000) ::
          [(OptReg.SECWM2R2, 8, 0x807F0000), (OptReg.SECWM1R1, 24, 0x007F007F),
           (OptReg.SECWM2R1, 36, 0x007F007F)] := rfl
  have hoffs : ∀ e ∈ verifyLayout true, e.1 ≠ OptReg.SECWM1R2 → (e.2.1 + 3 < 4 ∨ 8 ≤ e.2.1) := by
    decide
  have hother : ∀ e ∈ verifyLayout true, e.1 ≠ OptReg.SECWM1R2 →
      st'.regs e.1 &&& e.2.2 = leField buf' e.2.1 &&& e.2.2 := by
    intro e he hne
    rw [hm e he, leField_agree buf buf' e.2.1 hagree (hoffs e he hne)]
  have hreg : st'.regs OptReg.SECWM1R2 &&& 0x807F0000 = leField buf 4 &&& 0x807F0000 :=
    hm (OptReg.SECWM1R2, 4, 0x807F0000) (by decide)
  refine ⟨r, st', hpp, ?_, ?_, ?_, ?_⟩
  · rw [Opt_GetFlashSecureMode_eq, htz]
    rfl
  · intro hne
    have hl1 : ∀ e ∈ optLayoutAlways ++ [(OptReg.SECBOOTADD0R, 20, 0xFFFFFF83)],
        st'.regs e.1 &&& e.2.2 = leField buf' e.2.1 &&& e.2.2 := by
      intro e he
      have hin : e ∈ verifyLayout true ∧ e.1 ≠ OptReg.SECWM1R2 := by
        revert e
        decide
      exact hother e hin.1 hin.2
    rw [hV, hsplit, firstMismatch_append _ _ _ _ hl1, firstMismatch_cons, hreg,
      if_pos (fun h => hne h.symm)]
  · intro heq
    have hall : ∀ e ∈ verifyLayout true,
        st'.regs e.1 &&& e.2.2 = leField buf' e.2.1 &&& e.2.2 := by
      intro e he
      by_cases hne : e.1 = OptReg.SECWM1R2
      · have he4 : e = (OptReg.SECWM1R2, 4, 0x807F0000) := by
          revert e
          decide
        rw [he4, hreg, heq]
      · exact hother e he hne
    rw [hV, (firstMismatch_none_iff _ _ _).mpr hall]
  · rintro ⟨h6, h7⟩
    rw [leField_and_SECWM_mask buf hbuf, leField_and_SECWM_mask buf' hbuf', h6, h7]

/-- Witness for C14: a secure record whose byte at offset 6 is changed from
0 to 1 (bit 16 of SECWM1R2). -/
theorem Opt_Verify_SECWM1R2_corrupted_witness :
    ∃ r st', Opt.ProgramPage (Opt.powerOn 0x80000000 [0, 0, 0]) 0x1FF00000 48
        (fun i => if i = 3 then 0x80 else 0) = some (r, st') ∧
      Opt.Verify st' 0x1FF00000 48 (fun i => if i = 3 then 0x80 else if i = 6 then 1 else 0) =
        add32 0x1FF00000 1 :=
  match Opt_Verify_SECWM1R2_corrupted (Opt.powerOn 0x80000000 [0, 0, 0]) 0x1FF00000
      (fun i => if i = 3 then 0x80 else 0)
      (fun i => if i = 3 then 0x80 else if i = 6 then 1 else 0) 0 0 0 []
      (fun i => by by_cases h : i = 3 <;> simp [h])
      (fun i => by by_cases h : i = 3 <;> by_cases h6 : i = 6 <;> simp [h, h6])
      (by decide) (by decide)
      (fun i hi => by
        have h6 : i ≠ 6 := by omega
        simp [h6]) with
  | ⟨r, st', hpp, _, h1, _, _⟩ => ⟨r, st', hpp, h1 (by decide)⟩

/-- C14 (counterexample).  Secure mode, registers programmed from a record
with TZEN set; the byte at offset 4 is then changed from 0 to `0xFF`:
`Verify` returns `adr + 48`, not `adr + 1`, because the mask `0x807F0000` of
SECWM1R2 does not cover the byte at offset 4. -/
theorem Opt_Verify_offset4_ignored :
    (Opt.ProgramPage (Opt.powerOn 0x80000000 [0, 0, 0]) 0x1FF00000 48
        (fun i => if i = 3 then 0x80 else 0)).map
      (fun r => (Opt.GetFlashSecureMode r.2,
        Opt.Verify r.2 0x1FF00000 48
          (fun i => if i = 3 then 0x80 else if i = 4 then 0xFF else 0))) =
      some (1, 0x1FF00000 + 48) ∧
    (0x1FF00000 + 48 : Nat) ≠ 0x1FF00000 + 1 := by
  decide

theorem eraseValue_testBit (x i : Nat) :
    ((x &&& 0x80000000) ||| 0x7FEFF8AA).testBit i =
      if i = 31 then x.testBit 31 else (0x7FEFF8AA : Nat).testBit i := by
  have h : (0x80000000 : Nat) = 2 ^ 31 := by decide
  rw [Nat.testBit_or, Nat.testBit_and, h, Nat.testBit_two_pow]
  by_cases hi : i = 31
  · subst hi
    have hb : (0x7FEFF8AA : Nat).testBit 31 = false := by decide
    simp [hb]
  · have hd : decide (31 = i) = false := by simpa using fun h => hi h.symm
    rw [hd, if_neg hi]
    simp

/-- Effect of `EraseChip` of the option bytes when the busy-wait ends and
the status register then reads `s`. -/
theorem Opt_EraseChip_run (st : FlashOpt) (nb s : Nat) (rest : List Nat)
    (hrd : spinBSY st.nssrReads = some (nb, s :: rest)) :
    ∃ r st' tail, Opt.EraseChip st = some (r, st') ∧
      st'.trace = st.trace ++
        [(OptReg.NSSR, FLASH_PGERR),
         (OptReg.OPTR, (st.regs OptReg.OPTR &&& 0x80000000) ||| 0x7FEFF8AA),
         (OptReg.NSBOOTADD0R, 0x0800007F), (OptReg.NSBOOTADD1R, 0x0BF9007F),
         (OptReg.WRP1AR, 0xFF80FFFF), (OptReg.WRP1BR, 0xFF80FFFF),
         (OptReg.WRP2AR, 0xFF80FFFF), (OptReg.WRP2BR, 0xFF80FFFF)] ++
        (if Opt.GetFlashSecureMode st = 1 then
          [(OptReg.SECBOOTADD0R, 0x0C00007C), (OptReg.SECWM1R2, 0x7F807F80),
           (OptReg.SECWM2R2, 0x7F807F80), (OptReg.SECWM1R1, 0xFFFFFF80),
           (OptReg.SECWM2R1, 0xFFFFFF80)]
         else []) ++
        (OptReg.NSCR, FLASH_CR_OPTSTRT) :: tail ∧
      (∀ w ∈ tail, w = (OptReg.NSSR, FLASH_PGERR)) ∧
      st'.regs OptReg.OPTR = (st.regs OptReg.OPTR &&& 0x80000000) ||| 0x7FEFF8AA ∧
      r = (if s &&& FLASH_PGERR ≠ 0 then 1 else 0) := by
  have hg : Opt.GetFlashSecureMode
      (Opt.write (Opt.writeNSSR st FLASH_PGERR) OptReg.OPTR
        (((Opt.writeNSSR st FLASH_PGERR).regs OptReg.OPTR &&& 0x80000000) ||| 0x7FEFF8AA)) =
      Opt.GetFlashSecureMode st := by
    rw [Opt_GetFlashSecureMode_eq, Opt_GetFlashSecureMode_eq, Opt_write_regs, if_pos rfl,
      eraseValue_testBit, if_pos rfl, Opt_writeNSSR_regs _ _ _ (by decide)]
  unfold Opt.EraseChip
  simp only [Opt_gate_frame _ _ _ (by decide : OptReg.NSBOOTADD0R ≠ OptReg.OPTR),
    Opt_gate_frame _ _ _ (by decide : OptReg.NSBOOTADD1R ≠ OptReg.OPTR),
    Opt_gate_frame _ _ _ (by decide : OptReg.WRP1AR ≠ OptReg.OPTR),
    Opt_gate_frame _ _ _ (by decide : OptReg.WRP1BR ≠ OptReg.OPTR),
    Opt_gate_frame _ _ _ (by decide : OptReg.WRP2AR ≠ OptReg.OPTR),
    Opt_gate_frame _ _ _ (by decide : OptReg.WRP2BR ≠ OptReg.OPTR), hg]
  by_cases hsec : Opt.GetFlashSecureMode st = 1
  · by_cases he : s &&& FLASH_PGERR = 0
    · simp only [hsec, if_true, Opt.DSB, Opt.waitBusy, Opt.write, Opt.writeNSSR, hrd,
        Opt.readNSSR, he, ne_eq, not_true_eq_false, if_false]
      exact ⟨0, _, [], rfl, by simp, by simp, by simp, rfl⟩
    · simp only [hsec, if_true, Opt.DSB, Opt.waitBusy, Opt.write, Opt.writeNSSR, hrd,
        Opt.readNSSR, he, ne_eq, not_false_eq_true]
      exact ⟨1, _, [(OptReg.NSSR, FLASH_PGERR)], rfl, by simp, by simp, by simp, rfl⟩
  · by_cases he : s &&& FLASH_PGERR = 0
    · simp only [hsec, if_false, Opt.DSB, Opt.waitBusy, Opt.write, Opt.writeNSSR, hrd,
        Opt.readNSSR, he, ne_eq, not_true_eq_false]
      exact ⟨0, _, [], rfl, by simp, by simp, by simp, rfl⟩
    · simp only [hsec, if_false, if_true, Opt.DSB, Opt.waitBusy, Opt.write, Opt.writeNSSR, hrd,
        Opt.readNSSR, he, ne_eq, not_false_eq_true]
      exact ⟨1, _, [(OptReg.NSSR, FLASH_PGERR)], rfl, by simp, by simp, by simp, rfl⟩

/-- C16.  `EraseChip` of the option bytes preserves TZEN: the value `v` it
stores to `OPTR` has bit 31 equal to the prior bit 31 and bits 0..30 equal to
those of the default `0x7FEFF8AA`; the boot-address and write-protection
registers receive their fixed defaults, and the five secure-gated registers
are stored exactly when the flash is in secure mode. -/
theorem Opt_EraseChip_preserves_TZEN (st : FlashOpt) (nb s : Nat) (rest : List Nat)
    (hrd : spinBSY st.nssrReads = some (nb, s :: rest)) :
    ∃ r st' v tail, Opt.EraseChip st = some (r, st') ∧
      st'.trace = st.trace ++
        [(OptReg.NSSR, FLASH_PGERR), (OptReg.OPTR, v),
         (OptReg.NSBOOTADD0R, 0x0800007F), (OptReg.NSBOOTADD1R, 0x0BF9007F),
         (OptReg.WRP1AR, 0xFF80FFFF), (OptReg.WRP1BR, 0xFF80FFFF),
         (OptReg.WRP2AR, 0xFF80FFFF), (OptReg.WRP2BR, 0xFF80FFFF)] ++
        (if Opt.GetFlashSecureMode st = 1 then
          [(OptReg.SECBOOTADD0R, 0x0C00007C), (OptReg.SECWM1R2, 0x7F807F80),
           (OptReg.SECWM2R2, 0x7F807F80), (OptReg.SECWM1R1, 0xFFFFFF80),
           (OptReg.SECWM2R1, 0xFFFFFF80)]
         else []) ++
        (OptReg.NSCR, FLASH_CR_OPTSTRT) :: tail ∧
      (∀ w ∈ tail, w = (OptReg.NSSR, FLASH_PGERR)) ∧
      st'.regs OptReg.OPTR = v ∧
      v.testBit 31 = (st.regs OptReg.OPTR).testBit 31 ∧
      (∀ i, i < 31 → v.testBit i = (0x7FEFF8AA : Nat).testBit i) ∧
      (∀ i, 31 < i → v.testBit i = false) ∧
      Opt.GetFlashSecureMode st' = Opt.GetFlashSecureMode st := by
  obtain ⟨r, st', tail, hec, htr, htail, ho, -⟩ := Opt_EraseChip_run st nb s rest hrd
  refine ⟨r, st', _, tail, hec, htr, htail, ho, ?_, ?_, ?_, ?_⟩
  · rw [eraseValue_testBit, if_pos rfl]
  · intro i hi
    rw [eraseValue_testBit, if_neg (by omega)]
  · intro i hi
    rw [eraseValue_testBit, if_neg (by omega)]
    exact Nat.testBit_lt_two_pow
      (Nat.lt_of_lt_of_le (by decide : (0x7FEFF8AA : Nat) < 2 ^ 32)
        (Nat.pow_le_pow_right (by decide) (by omega)))
  · rw [Opt_GetFlashSecureMode_eq, Opt_GetFlashSecureMode_eq, ho, eraseValue_testBit, if_pos rfl]

/-- Witness for C16: secure mode with all other option bits set. -/
theorem Opt_EraseChip_preserves_TZEN_witness :
    ∃ r st' v tail, Opt.EraseChip (Opt.powerOn 0xFFFFFFFF [0x10000, 0, 0]) = some (r, st') ∧
      st'.trace = (Opt.powerOn 0xFFFFFFFF [0x10000, 0, 0]).trace ++
        [(OptReg.NSSR, FLASH_PGERR), (OptReg.OPTR, v),
         (OptReg.NSBOOTADD0R, 0x0800007F), (OptReg.NSBOOTADD1R, 0x0BF9007F),
         (OptReg.WRP1AR, 0xFF80FFFF), (OptReg.WRP1BR, 0xFF80FFFF),
         (OptReg.WRP2AR, 0xFF80FFFF), (OptReg.WRP2BR, 0xFF80FFFF)] ++
        (if Opt.GetFlashSecureMode (Opt.powerOn 0xFFFFFFFF [0x10000, 0, 0]) = 1 then
          [(OptReg.SECBOOTADD0R, 0x0C00007C), (OptReg.SECWM1R2, 0x7F807F80),
           (OptReg.SECWM2R2, 0x7F807F80), (OptReg.SECWM1R1, 0xFFFFFF80),
           (OptReg.SECWM2R1, 0xFFFFFF80)]
         else []) ++
        (OptReg.NSCR, FLASH_CR_OPTSTRT) :: tail ∧
      (∀ w ∈ tail, w = (OptReg.NSSR, FLASH_PGERR)) ∧
      st'.regs OptReg.OPTR = v ∧
      v.testBit 31 = ((Opt.powerOn 0xFFFFFFFF [0x10000, 0, 0]).regs OptReg.OPTR).testBit 31 ∧
      (∀ i, i < 31 → v.testBit i = (0x7FEFF8AA : Nat).testBit i) ∧
      (∀ i, 31 < i → v.testBit i = false) ∧
      Opt.GetFlashSecureMode st' =
        Opt.GetFlashSecureMode (Opt.powerOn 0xFFFFFFFF [0x10000, 0, 0]) :=
  Opt_EraseChip_preserves_TZEN (Opt.powerOn 0xFFFFFFFF [0x10000, 0, 0]) 0 0 [] (by decide)

/-! ## External OSPI flash -/

/-- The comparison loop of `Verify` stops at the first mismatch. -/
theorem OSPI_Verify_for_mismatch (st : Ospi) (adr sz : Nat) (buf : Nat → Nat) (i : Nat)
    (hi : i < sz) (hne : OSPI.mappedByte st (add32 adr i) ≠ byteAt buf i) :
    ∀ d i0, i0 + d = i →
      (∀ j, i0 ≤ j → j < i → OSPI.mappedByte st (add32 adr j) = byteAt buf j) →
      OSPI.Verify_for st adr sz buf i0 = some (add32 adr i) := by
  intro d
  induction d with
  | zero =>
    intro i0 h0 _
    have : i0 = i := by omega
    subst this
    rw [OSPI.Verify_for, if_pos hi, if_pos hne]
  | succ d ih =>
    intro i0 h0 hm
    have hlt : i0 < sz := by omega
    rw [OSPI.Verify_for, if_pos hlt, if_neg (not_not.mpr (hm i0 (Nat.le_refl _) (by omega)))]
    exact ih (i0 + 1) (by omega) (fun j hj1 hj2 => hm j (by omega) hj2)

/-- The comparison loop of `Verify` runs to its end when every byte
matches. -/
theorem OSPI_Verify_for_match (st : Ospi) (adr sz : Nat) (buf : Nat → Nat) :
    ∀ d i0, i0 + d = sz →
      (∀ j, i0 ≤ j → j < sz → OSPI.mappedByte st (add32 adr j) = byteAt buf j) →
      OSPI.Verify_for st adr sz buf i0 = none := by
  intro d
  induction d with
  | zero =>
    intro i0 h0 _
    rw [OSPI.Verify_for, if_neg (by omega)]
  | succ d ih =>
    intro i0 h0 hm
    have hlt : i0 < sz := by omega
    rw [OSPI.Verify_for, if_pos hlt, if_neg (not_not.mpr (hm i0 (Nat.le_refl _) hlt))]
    exact ih (i0 + 1) (by omega) (fun j hj1 hj2 => hm j (by omega) hj2)

/-- Result and final state of `Verify` when the first mismatch is at index
`i` and the enabling driver call succeeds: the call returns from inside the
loop, after the single driver call that enabled memory-mapped mode. -/
theorem OSPI_Verify_mismatch (st : Ospi) (adr sz : Nat) (buf : Nat → Nat) (i : Nat)
    (hrc : st.rc st.calls.length = BSP_ERROR_NONE) (hi : i < sz)
    (hm : ∀ j, j < i → OSPI.mappedByte st (add32 adr j) = byteAt buf j)
    (hne : OSPI.mappedByte st (add32 adr i) ≠ byteAt buf i) :
    OSPI.Verify st adr sz buf =
      (add32 adr i,
        { st with mapped := true, calls := st.calls ++ [BspCall.EnableMemoryMappedMode] }) := by
  have hloop : OSPI.Verify_for
      { st with mapped := true, calls := st.calls ++ [BspCall.EnableMemoryMappedMode] }
      adr sz buf 0 = some (add32 adr i) :=
    OSPI_Verify_for_mismatch
      { st with mapped := true, calls := st.calls ++ [BspCall.EnableMemoryMappedMode] }
      adr sz buf i hi hne i 0 (by omega) (fun j _ hj => hm j hj)
  unfold OSPI.Verify OSPI.BSP_OSPI_NOR_EnableMemoryMappedMode
  simp only [hrc, if_true, ne_eq, not_true_eq_false, if_false, hloop]

/-- Result and final state of `Verify` when every byte matches and the three
driver calls succeed. -/
theorem OSPI_Verify_match (st : Ospi) (adr sz : Nat) (buf : Nat → Nat)
    (hrc : ∀ n, st.rc n = BSP_ERROR_NONE)
    (hm : ∀ j, j < sz → OSPI.mappedByte st (add32 adr j) = byteAt buf j) :
    OSPI.Verify st adr sz buf =
      (add32 adr sz,
        { st with
          mapped := false, flashMode := st.InterfaceMode, flashRate := st.TransferRate
          calls := st.calls ++ [BspCall.EnableMemoryMappedMode,
            BspCall.DisableMemoryMappedMode,
            BspCall.ConfigFlash st.InterfaceMode st.TransferRate] }) := by
  have hloop : OSPI.Verify_for
      { st with mapped := true, calls := st.calls ++ [BspCall.EnableMemoryMappedMode] }
      adr sz buf 0 = none :=
    OSPI_Verify_for_match
      { st with mapped := true, calls := st.calls ++ [BspCall.EnableMemoryMappedMode] }
      adr sz buf sz 0 (by omega) (fun j _ hj => hm j hj)
  unfold OSPI.Verify OSPI.BSP_OSPI_NOR_EnableMemoryMappedMode
    OSPI.BSP_OSPI_NOR_DisableMemoryMappedMode OSPI.BSP_OSPI_NOR_ConfigFlash
  simp only [hrc, if_true, ne_eq, not_true_eq_false, if_false, hloop, List.append_assoc,
    List.singleton_append, List.cons_append, List.nil_append]

/-- C17.  External OSPI `Verify`, every driver call succeeding: for every
address, size and buffer it returns `adr + i` for the least index `i < sz` at
which the mapped byte at `adr + i` differs from `buf[i]`, and `adr + sz` when
there is no such index (32-bit arithmetic). -/
theorem OSPI_Verify_first_difference (st : Ospi) (adr sz : Nat) (buf : Nat → Nat)
    (hrc : ∀ n, st.rc n = BSP_ERROR_NONE) :
    (∀ i, i < sz →
      (∀ j, j < i → OSPI.mappedByte st (add32 adr j) = byteAt buf j) →
      OSPI.mappedByte st (add32 adr i) ≠ byteAt buf i →
      (OSPI.Verify st adr sz buf).1 = add32 adr i) ∧
    ((∀ j, j < sz → OSPI.mappedByte st (add32 adr j) = byteAt buf j) →
      (OSPI.Verify st adr sz buf).1 = add32 adr sz) := by
  constructor
  · intro i hi hm hne
    rw [OSPI_Verify_mismatch st adr sz buf i (hrc _) hi hm hne]
  · intro hm
    rw [OSPI_Verify_match st adr sz buf hrc hm]

/-- Witness for C17: a 256-byte page of `0xFF` verified against a buffer
that differs only at byte 37. -/
theorem OSPI_Verify_first_difference_witness :
    (OSPI.Verify (OSPI.ready 1 1 (fun _ => 0xFF)) 0x90000000 256
      (fun i => if i = 37 then 0 else 0xFF)).1 = 0x90000000 + 37 :=
  ((OSPI_Verify_first_difference (OSPI.ready 1 1 (fun _ => 0xFF)) 0x90000000 256
    (fun i => if i = 37 then 0 else 0xFF) (fun _ => rfl)).1 37 (by decide) (by decide)
    (by decide)).trans (by decide)

/-- The state `BlankCheck` leaves behind: it always calls the driver to
disable memory-mapped mode and to reconfigure the flash as `ospi_flash` says,
whatever the scan found. -/
theorem OSPI_BlankCheck_restores (st : Ospi) (adr sz pat : Nat) :
    (OSPI.BlankCheck st adr sz pat).2.calls = st.calls ++
      [BspCall.EnableMemoryMappedMode, BspCall.DisableMemoryMappedMode,
       BspCall.ConfigFlash st.InterfaceMode st.TransferRate] ∧
    ((∀ n, st.rc n = BSP_ERROR_NONE) →
      (OSPI.BlankCheck st adr sz pat).2.mapped = false ∧
      (OSPI.BlankCheck st adr sz pat).2.flashMode = st.InterfaceMode ∧
      (OSPI.BlankCheck st adr sz pat).2.flashRate = st.TransferRate) := by
  unfold OSPI.BlankCheck OSPI.BSP_OSPI_NOR_EnableMemoryMappedMode
    OSPI.BSP_OSPI_NOR_DisableMemoryMappedMode OSPI.BSP_OSPI_NOR_ConfigFlash
  refine ⟨by simp, fun hrc => ?_⟩
  simp [hrc]

/-- C18 (the code at the failing input).  External OSPI `Verify` of one page
of `0xFF` against a buffer that differs at byte 37, every driver call
succeeding: the call returns `adr + 37` from inside the loop; the only driver
call it has made is the one enabling memory-mapped mode, and the bus is still
in memory-mapped mode afterwards. -/
theorem OSPI_Verify_mismatch_stays_mapped :
    (OSPI.ready 1 1 (fun _ => 0xFF)).mapped = false ∧
    (OSPI.Verify (OSPI.ready 1 1 (fun _ => 0xFF)) 0x90000000 256
      (fun i => if i = 37 then 0 else 0xFF)).1 = 0x90000000 + 37 ∧
    (OSPI.Verify (OSPI.ready 1 1 (fun _ => 0xFF)) 0x90000000 256
      (fun i => if i = 37 then 0 else 0xFF)).2.mapped = true ∧
    (OSPI.Verify (OSPI.ready 1 1 (fun _ => 0xFF)) 0x90000000 256
      (fun i => if i = 37 then 0 else 0xFF)).2.calls = [BspCall.EnableMemoryMappedMode] := by
  rw [OSPI_Verify_mismatch (OSPI.ready 1 1 (fun _ => 0xFF)) 0x90000000 256
    (fun i => if i = 37 then 0 else 0xFF) 37 rfl (by decide) (by decide) (by decide)]
  exact ⟨rfl, by decide, rfl, rfl⟩

/-! ## Control register on the two exits of page programming -/

theorem writesTo_append (r : Reg) (a b : List Event) :
    writesTo r (a ++ b) = writesTo r a ++ writesTo r b := by
  induction a with
  | nil => rfl
  | cons e t ih =>
    cases e with
    | write q v =>
      by_cases h : q = r
      · simp [writesTo, h, ih]
      · simp [writesTo, h, ih]
    | store a v => simpa [writesTo] using ih
    | dsb => simpa [writesTo] using ih

theorem writesTo_chunkEvents (r : Reg) (n : Nat) :
    ∀ (adr : Nat) (buf : Nat → Nat), writesTo r (chunkEvents adr buf n) = [] := by
  induction n with
  | zero => intro adr buf; rfl
  | succ n ih =>
    intro adr buf
    simp only [chunkEvents, writesTo]
    exact ih _ _

/-- Every outcome of the programming loop: it leaves the control register
alone, and its actions are the stores of `k` double-words, followed by the
reset of the error flags when it returned 1. -/
theorem ProgramPage_while_result (fuel : Nat) :
    ∀ (st : FlashMem) (adr sz : Nat) (buf : Nat → Nat) (o : Option Nat) (st' : FlashMem),
      ProgramPage_while fuel st adr sz buf = some (o, st') →
      st'.CR = st.CR ∧ st'.pFlashCR = st.pFlashCR ∧ st'.pFlashSR = st.pFlashSR ∧
      ∃ k, (o = none ∧ st'.trace = st.trace ++ chunkEvents adr buf k) ∨
        (o = some 1 ∧ 0 < k ∧ st'.trace = st.trace ++ chunkEvents adr buf k ++
          [Event.write st.pFlashSR FLASH_PGERR]) := by
  induction fuel with
  | zero =>
    intro st adr sz buf o st' h
    rw [ProgramPage_while] at h
    exact Option.noConfusion h
  | succ fuel ih =>
    intro st adr sz buf o st' h
    by_cases hsz : sz = 0
    · rw [ProgramPage_while] at h
      simp only [hsz, ne_eq, not_true_eq_false, if_false, Option.some.injEq, Prod.mk.injEq] at h
      obtain ⟨rfl, rfl⟩ := h
      exact ⟨rfl, rfl, rfl, 0, Or.inl ⟨rfl, by simp [chunkEvents]⟩⟩
    · cases hspin : spinBSY st.srReads with
      | none =>
        rw [ProgramPage_while] at h
        simp [hsz, waitBusy, storeM32, DSB, hspin] at h
      | some p =>
        obtain ⟨nb, l⟩ := p
        cases l with
        | nil =>
          rw [ProgramPage_while] at h
          simp [hsz, waitBusy, storeM32, DSB, hspin, readSR] at h
        | cons s r =>
          by_cases hs : s &&& FLASH_PGERR = 0
          · rw [ProgramPage_while_step fuel st adr sz buf nb s r hsz hspin hs] at h
            obtain ⟨h1, h2, h3, k, hk⟩ := ih _ _ _ _ _ _ h
            refine ⟨h1, h2, h3, k + 1, ?_⟩
            rcases hk with ⟨ho, ht⟩ | ⟨ho, -, ht⟩
            · refine Or.inl ⟨ho, ?_⟩
              rw [ht]
              exact chunkEvents_succ_append _ _ _ _
            · refine Or.inr ⟨ho, Nat.succ_pos k, ?_⟩
              rw [ht]
              dsimp only
              rw [chunkEvents_succ_append]
          · rw [ProgramPage_while_fail fuel st adr sz buf nb s r hsz hspin hs] at h
            simp only [Option.some.injEq, Prod.mk.injEq] at h
            obtain ⟨rfl, rfl⟩ := h
            exact ⟨rfl, rfl, rfl, 1, Or.inr ⟨rfl, Nat.one_pos, rfl⟩⟩


/-- C21.  Every return of `ProgramPage` of the internal flash: when it
returns 1 the only value it has stored to the control register is
`FLASH_CR_PG` (which is not 0), the register still holds it and the last
action is the reset of the error flags; when it returns 0 the stores to the
control register are `FLASH_CR_PG` then 0, and the store of 0 is its last
action.  No other value is returned, and both returns occur: 1 when a
double-word raises an error flag, 0 when none does. -/
theorem ProgramPage_failure_keeps_PG (fuel : Nat) (st : FlashMem) (adr sz : Nat)
    (buf : Nat → Nat) (hne : st.pFlashSR ≠ st.pFlashCR) :
    (∀ r st', ProgramPage fuel st adr sz buf = some (r, st') →
      ∃ ev, st'.trace = st.trace ++ ev ∧
        ((r = 1 ∧ writesTo st.pFlashCR ev = [FLASH_CR_PG] ∧ st'.CR = FLASH_CR_PG ∧
            ev.getLast? = some (Event.write st.pFlashSR FLASH_PGERR)) ∨
         (r = 0 ∧ writesTo st.pFlashCR ev = [FLASH_CR_PG, 0] ∧ st'.CR = 0 ∧
            ev.getLast? = some (Event.write st.pFlashCR 0)))) ∧
    FLASH_CR_PG ≠ 0 ∧
    (adr < 2 ^ 32 → ∀ j l nb s r, j < ProgramPage_sz sz / 8 → j < fuel →
      cleanRun j st.srReads = some l → spinBSY l = some (nb, s :: r) →
      hasErrorFlag s = true →
      ∃ st', ProgramPage fuel st adr sz buf = some (1, st')) ∧
    (adr < 2 ^ 32 → ∀ rest, ProgramPage_sz sz / 8 < fuel →
      cleanRun (ProgramPage_sz sz / 8) st.srReads = some rest →
      ∃ st', ProgramPage fuel st adr sz buf = some (0, st')) := by
  refine ⟨?_, by decide, ?_, ?_⟩
  · intro r st' h
    unfold ProgramPage at h
    dsimp only at h
    cases hw : ProgramPage_while fuel (writeCR (writeSR st FLASH_PGERR) FLASH_CR_PG) adr
        (ProgramPage_sz sz) buf with
    | none =>
      rw [hw] at h
      exact Option.noConfusion h
    | some p =>
      obtain ⟨o, s1⟩ := p
      rw [hw] at h
      obtain ⟨h1, h2, h3, k, hk⟩ := ProgramPage_while_result fuel _ _ _ _ _ _ hw
      have hcr : (writeCR (writeSR st FLASH_PGERR) FLASH_CR_PG).CR = FLASH_CR_PG := rfl
      have hpc : (writeCR (writeSR st FLASH_PGERR) FLASH_CR_PG).pFlashCR = st.pFlashCR := rfl
      have hps : (writeCR (writeSR st FLASH_PGERR) FLASH_CR_PG).pFlashSR = st.pFlashSR := rfl
      have htr : (writeCR (writeSR st FLASH_PGERR) FLASH_CR_PG).trace = st.trace ++
          [Event.write st.pFlashSR FLASH_PGERR, Event.write st.pFlashCR FLASH_CR_PG] := by
        simp only [writeCR, writeSR, List.append_assoc, List.cons_append, List.nil_append]
      rw [hcr] at h1
      rw [hpc] at h2
      rw [hps] at h3
      rw [htr, hps] at hk
      rcases hk with ⟨rfl, ht⟩ | ⟨rfl, -, ht⟩
      · simp only [Option.some.injEq, Prod.mk.injEq] at h
        obtain ⟨rfl, rfl⟩ := h
        refine ⟨[Event.write st.pFlashSR FLASH_PGERR, Event.write st.pFlashCR FLASH_CR_PG] ++
          chunkEvents adr buf k ++ [Event.write st.pFlashCR 0], ?_, Or.inr ⟨rfl, ?_, rfl, ?_⟩⟩
        · simp only [writeCR, ht, h2, List.append_assoc]
        · simp [writesTo_append, writesTo_chunkEvents, writesTo, hne]
        · exact List.getLast?_concat _
      · simp only [Option.some.injEq, Prod.mk.injEq] at h
        obtain ⟨rfl, rfl⟩ := h
        refine ⟨[Event.write st.pFlashSR FLASH_PGERR, Event.write st.pFlashCR FLASH_CR_PG] ++
          chunkEvents adr buf k ++ [Event.write st.pFlashSR FLASH_PGERR], ?_,
          Or.inl ⟨rfl, ?_, h1, ?_⟩⟩
        · simp only [ht, List.append_assoc]
        · simp [writesTo_append, writesTo_chunkEvents, writesTo, hne]
        · exact List.getLast?_concat _
  · intro hadr j l nb s r hj hfuel hrun hspin hs
    exact ⟨_, ProgramPage_error fuel _ j st adr sz buf l r nb s rfl hfuel hj hadr hrun hspin
      ((and_PGERR_ne_zero_iff s).mpr hs)⟩
  · intro hadr rest hfuel hrun
    obtain ⟨sr, h⟩ := ProgramPage_done fuel _ st adr sz buf rest rfl hfuel hadr hrun
    exact ⟨_, h⟩

/-- Witness for C21: one double-word whose programming raises WRPERR after
one busy read. -/
theorem ProgramPage_failure_keeps_PG_witness :
    ∃ st', ProgramPage 2 (powerOn FLASH_OPTR_DBANK 512 [0x10000, 0, FLASH_SR_WRPERR])
        0x08000000 8 (fun i => i % 256) = some (1, st') ∧
      st'.CR = FLASH_CR_PG ∧ writesTo Reg.NSCR st'.trace = [FLASH_CR_PG] := by
  have T := ProgramPage_failure_keeps_PG 2
    (powerOn FLASH_OPTR_DBANK 512 [0x10000, 0, FLASH_SR_WRPERR]) 0x08000000 8
    (fun i => i % 256) (by decide)
  obtain ⟨st', h⟩ := T.2.2.1 (by decide) 0 [0x10000, 0, FLASH_SR_WRPERR] 0 FLASH_SR_WRPERR []
    (by decide) (by decide) (by decide) (by decide) (by decide)
  obtain ⟨ev, hev, hc⟩ := T.1 1 st' h
  rcases hc with ⟨-, hw, hcr, -⟩ | ⟨h0, -⟩
  · refine ⟨st', h, hcr, ?_⟩
    rw [hev]
    exact hw
  · exact absurd h0 (by decide)

/-! ## Secure-mode gate of the option bytes -/

theorem leField_testBit_31 (buf : Nat → Nat) (hbuf : ∀ i, buf i < 256) :
    (leField buf 0).testBit 31 = (buf 3).testBit 7 := by
  have h0 := hbuf 0
  have h1 := hbuf 1
  have h2 := hbuf 2
  have hlow : buf 0 + 2 ^ 8 * buf 1 + 2 ^ 16 * buf 2 < 2 ^ 24 := by omega
  have hsplit : leField buf 0 = 2 ^ 24 * buf 3 + (buf 0 + 2 ^ 8 * buf 1 + 2 ^ 16 * buf 2) := by
    unfold leField
    simp only [Nat.zero_add]
    omega
  rw [hsplit, Nat.testBit_mul_pow_two_add _ hlow]
  simp

/-- C22.  The option registers being storage that keeps the last value
written, `ProgramPage` of the option bytes stores the five secure-gated
registers SECBOOTADD0R, SECWM1R2, SECWM2R2, SECWM1R1, SECWM2R1 if and only
if bit 7 of `buf[3]`, which is bit 31 (TZEN) of the record's `OPTR` field and
of the value just stored to `OPTR`, is 1: the list of stores is a function of
the record alone, whatever `OPTR` held when `ProgramPage` was entered. -/
theorem Opt_ProgramPage_gate_from_record (st : FlashOpt) (adr sz : Nat) (buf : Nat → Nat)
    (nb s s2 : Nat) (rest : List Nat) (hbuf : ∀ i, buf i < 256)
    (hrd : spinBSY st.nssrReads = some (nb, s :: s2 :: rest)) :
    ∃ r st' ws tail, Opt.ProgramPage st adr sz buf = some (r, st') ∧
      st'.trace = st.trace ++ (OptReg.NSSR, FLASH_PGERR) :: ws ++
        (OptReg.NSCR, FLASH_CR_OPTSTRT) :: tail ∧
      (∀ w ∈ tail, w.1 = OptReg.NSSR) ∧
      ws = (optLayoutAlways ++ if (buf 3).testBit 7 = true then optLayoutSecure else []).map
        (fun e => (e.1, maskedValue (leField buf e.2.1) e.2.2)) ∧
      ws.map Prod.fst =
        [OptReg.OPTR, OptReg.NSBOOTADD0R, OptReg.NSBOOTADD1R, OptReg.WRP1AR, OptReg.WRP1BR,
         OptReg.WRP2AR, OptReg.WRP2BR] ++
        (if (buf 3).testBit 7 = true then
          [OptReg.SECBOOTADD0R, OptReg.SECWM1R2, OptReg.SECWM2R2, OptReg.SECWM1R1,
           OptReg.SECWM2R1]
         else []) ∧
      (∀ q ∈ [OptReg.SECBOOTADD0R, OptReg.SECWM1R2, OptReg.SECWM2R2, OptReg.SECWM1R1,
          OptReg.SECWM2R1], (q ∈ ws.map Prod.fst ↔ (buf 3).testBit 7 = true)) ∧
      (leField buf 0).testBit 31 = (buf 3).testBit 7 ∧
      (st'.regs OptReg.OPTR).testBit 31 = (buf 3).testBit 7 ∧
      Opt.GetFlashSecureMode st' = (if (buf 3).testBit 7 = true then 1 else 0) ∧
      ((buf 3).testBit 7 = false → ∀ e ∈ optLayoutSecure, st'.regs e.1 = st.regs e.1) := by
  obtain ⟨r, st', tail, hpp, htr, htail, hregs, hfr, -⟩ :=
    Opt_ProgramPage_stores st adr sz buf nb s s2 rest hbuf hrd
  have hbit := leField_testBit_31 buf hbuf
  rw [hbit] at htr hregs hfr
  have hnames : ((optLayoutAlways ++
        if (buf 3).testBit 7 = true then optLayoutSecure else []).map
        (fun e => (e.1, maskedValue (leField buf e.2.1) e.2.2))).map Prod.fst =
      [OptReg.OPTR, OptReg.NSBOOTADD0R, OptReg.NSBOOTADD1R, OptReg.WRP1AR, OptReg.WRP1BR,
       OptReg.WRP2AR, OptReg.WRP2BR] ++
      (if (buf 3).testBit 7 = true then
        [OptReg.SECBOOTADD0R, OptReg.SECWM1R2, OptReg.SECWM2R2, OptReg.SECWM1R1,
         OptReg.SECWM2R1]
       else []) := by
    rw [List.map_map]
    cases (buf 3).testBit 7 <;> rfl
  have hoptr : (st'.regs OptReg.OPTR).testBit 31 = (buf 3).testBit 7 := by
    have ho : st'.regs OptReg.OPTR = maskedValue (leField buf 0) 0x9F7F77FF :=
      hregs (OptReg.OPTR, 0, 0x9F7F77FF)
        (List.mem_append.mpr (Or.inl (List.mem_cons_self _ _)))
    have hb : (0x9F7F77FF : Nat).testBit 31 = true := by decide
    rw [ho, maskedValue_testBit _ _ 31 (by decide) (by decide), if_pos hb, hbit]
  refine ⟨r, st', _, tail, hpp, htr, htail, rfl, hnames, ?_, hbit, hoptr, ?_, hfr⟩
  · intro q hq
    rw [hnames]
    cases hb : (buf 3).testBit 7
    · revert q
      decide
    · revert q
      decide
  · rw [Opt_GetFlashSecureMode_eq, hoptr]

/-- Witness for C22: `OPTR` holds TZEN = 1 when `ProgramPage` is entered and
the record has TZEN clear; only the seven always-written registers are
stored and the flash is non-secure afterwards. -/
theorem Opt_ProgramPage_gate_from_record_witness :
    Opt.GetFlashSecureMode (Opt.powerOn 0x80000000 [0, 0, 0]) = 1 ∧
    ∃ r st' ws tail,
      Opt.ProgramPage (Opt.powerOn 0x80000000 [0, 0, 0]) 0x1FF00000 48 (fun _ => 0) =
        some (r, st') ∧
      st'.trace = (Opt.powerOn 0x80000000 [0, 0, 0]).trace ++ (OptReg.NSSR, FLASH_PGERR) :: ws ++
        (OptReg.NSCR, FLASH_CR_OPTSTRT) :: tail ∧
      ws.map Prod.fst =
        [OptReg.OPTR, OptReg.NSBOOTADD0R, OptReg.NSBOOTADD1R, OptReg.WRP1AR, OptReg.WRP1BR,
         OptReg.WRP2AR, OptReg.WRP2BR] ∧
      Opt.GetFlashSecureMode st' = 0 := by
  obtain ⟨r, st', ws, tail, hpp, htr, -, -, hn, -, -, -, hm, -⟩ :=
    Opt_ProgramPage_gate_from_record (Opt.powerOn 0x80000000 [0, 0, 0]) 0x1FF00000 48
      (fun _ => 0) 0 0 0 [] (fun _ => Nat.succ_pos 255) (by decide)
  exact ⟨by decide, r, st', ws, tail, hpp, htr, hn, hm⟩

end STM32L5xx
